import Mathlib

/-!
# Referencer: the real-time synchronisation core

A shallow embedding of the Go backend (`backend/internal/db/db.go`,
`backend/internal/ws/handler.go`, `backend/internal/ws/assert.go`,
`backend/internal/models/models.go`) and theorems about it.

Modelling conventions.

* A SQL table is the list of its rows in rowid order.  `UPDATE` maps over the
  rows and keeps their order, `DELETE` filters, `INSERT` appends.
* A violating `INSERT` fails and leaves the table as it was.  `PRIMARY KEY` is
  always enforced.  SQLite enforces `REFERENCES` and `ON DELETE CASCADE` only
  on a connection on which `PRAGMA foreign_keys=ON` has run.  `NewDB` runs it
  once through the pool `sql.Open` returns, so of the pooled connections only
  the one that served the `PRAGMA` enforces them.  The operations on layers
  and annotations whose outcome depends on it (`RemoveLayer`, `AddHighlight`,
  `AddArrow`, `AddUnderline`) take a flag `fk`: whether the connection that
  serves the call enforces foreign keys.  The reference of `layer` and
  `editor` to `workspace` is checked on every connection here: the server
  inserts layers and editors for a workspace that `EnsureWorkspace` has
  created, where the check passes either way.
* `ORDER BY` is a stable sort of the rows in rowid order.
* Go `int` values and SQLite `INTEGER` columns are `Int`.
* A Go `map` is an association list; a lookup returns the first binding of the
  key and an assignment replaces the binding of the key.  A `range` loop visits
  the bindings in list order.
* Column `created_at` and table `share_link` play no part in the operations
  embedded here and are left out, and so are the log lines the code prints.
* The operations run one at a time: a call sees the store and the registry its
  predecessor left.
-/

namespace Referencer

/-! ## Persistence store: rows and tables (the `schema` constant) -/

/-- Row of table `layer`. -/
structure LayerRow where
  id : String
  workspace_id : String
  name : String
  color : String
  visible : Bool
  position : Int
deriving DecidableEq, Repr

/-- Row of table `highlight`; `from_`, `to_`, `note` and `kind` are the columns
`"from"`, `"to"`, `annotation` and `type`. -/
structure HighlightRow where
  id : String
  layer_id : String
  editor_index : Int
  from_ : Int
  to_ : Int
  text : String
  note : String
  kind : String
deriving DecidableEq, Repr

/-- Row of table `arrow`. -/
structure ArrowRow where
  id : String
  layer_id : String
  from_editor_index : Int
  from_start : Int
  from_end : Int
  from_text : String
  to_editor_index : Int
  to_start : Int
  to_end : Int
  to_text : String
  arrow_style : String
deriving DecidableEq, Repr

/-- Row of table `underline`. -/
structure UnderlineRow where
  id : String
  layer_id : String
  editor_index : Int
  from_ : Int
  to_ : Int
  text : String
deriving DecidableEq, Repr

/-- Errors of the storage layer: the constraint failures SQLite reports for the
statements of `db.go`, and any other error of the driver (I/O failure, locked
or closed database), given by its text. -/
inductive DbError where
  | uniqueViolation (table column : String)
  | foreignKeyViolation
  | driver (msg : String)
deriving DecidableEq, Repr

/-- Text of a storage error (Go `err.Error()`).  The driver (`modernc.org/sqlite`)
writes `<text of the result code>: <message of SQLite> (<extended result code>)`;
every key of the schema is a `PRIMARY KEY`, so a duplicate key has code 1555
(`SQLITE_CONSTRAINT_PRIMARYKEY`), and a foreign-key failure has code 787
(`SQLITE_CONSTRAINT_FOREIGNKEY`). -/
def DbError.Error : DbError → String
  | .uniqueViolation t c =>
    "constraint failed: UNIQUE constraint failed: " ++ t ++ "." ++ c ++ " (1555)"
  | .foreignKeyViolation => "constraint failed: FOREIGN KEY constraint failed (787)"
  | .driver msg => msg

/-- Go value of static type `interface{}` as `encoding/json` decodes it: `nil`,
`bool`, `float64` (every finite `float64` is a rational), `string`,
`[]interface{}` and `map[string]interface{}`. -/
inductive JVal where
  | null
  | bool (b : Bool)
  | num (f : ℚ)
  | str (s : String)
  | arr (xs : List JVal)
  | obj (kvs : List (String × JVal))

/-- Row of table `editor`.  `content_json` is `none` for SQL `NULL`; a stored
JSON text is represented by the value it encodes. -/
structure EditorRow where
  id : Nat
  workspace_id : String
  index_pos : Int
  name : String
  visible : Bool
  content_json : Option JVal

/-- The database: one list of rows per table, and the `sqlite_sequence` counter
of the `AUTOINCREMENT` key of `editor`.  Table `workspace` is the list of its
`id` values. -/
structure Store where
  workspace : List String
  layer : List LayerRow
  highlight : List HighlightRow
  arrow : List ArrowRow
  underline : List UnderlineRow
  editor : List EditorRow
  editor_seq : Nat

/-- The database right after `NewDB`: every table empty. -/
def Store.empty : Store := ⟨[], [], [], [], [], [], 0⟩

/-! ### Single SQL statements -/

/-- `INSERT INTO workspace (id) VALUES (?)`. -/
def insertWorkspace (s : Store) (id : String) : Except DbError Store :=
  if id ∈ s.workspace then .error (.uniqueViolation "workspace" "id")
  else .ok { s with workspace := s.workspace ++ [id] }

/-- `INSERT INTO editor (workspace_id, index_pos, name, visible) VALUES (?, ?, ?, 1)`:
the row gets the next `AUTOINCREMENT` id and `content_json` is `NULL`. -/
def insertEditor (s : Store) (workspaceID : String) (index : Int) (name : String) :
    Except DbError Store :=
  if workspaceID ∈ s.workspace then
    .ok { s with
      editor := s.editor ++ [{ id := s.editor_seq + 1, workspace_id := workspaceID,
                               index_pos := index, name := name, visible := true,
                               content_json := none }],
      editor_seq := s.editor_seq + 1 }
  else .error .foreignKeyViolation

/-- `INSERT INTO layer (id, workspace_id, name, color, visible, position)
VALUES (?, ?, ?, ?, 1, ?)`. -/
def insertLayer (s : Store) (layerID workspaceID name color : String) (position : Int) :
    Except DbError Store :=
  if layerID ∈ s.layer.map (·.id) then .error (.uniqueViolation "layer" "id")
  else if workspaceID ∈ s.workspace then
    .ok { s with layer := s.layer ++ [{ id := layerID, workspace_id := workspaceID, name := name,
                                        color := color, visible := true, position := position }] }
  else .error .foreignKeyViolation

/-- `UPDATE editor SET index_pos = ? WHERE id = ?` on the rows of the table. -/
def setIndexPos (newIndex : Int) (id : Nat) (rows : List EditorRow) : List EditorRow :=
  rows.map (fun e => if e.id = id then { e with index_pos := newIndex } else e)

/-- `UPDATE layer SET position = ? WHERE id = ? AND workspace_id = ?` on the rows
of the table. -/
def setPosition (position : Int) (layerID workspaceID : String) (rows : List LayerRow) :
    List LayerRow :=
  rows.map (fun r =>
    if r.id = layerID ∧ r.workspace_id = workspaceID then { r with position := position } else r)

/-- `SELECT ... FROM editor WHERE workspace_id = ? ORDER BY index_pos`. -/
def editorsOrdered (s : Store) (workspaceID : String) : List EditorRow :=
  (s.editor.filter (fun e => e.workspace_id = workspaceID)).insertionSort
    (fun a b => a.index_pos ≤ b.index_pos)

/-- `SELECT ... FROM layer WHERE workspace_id = ? ORDER BY position`. -/
def layersOrdered (s : Store) (workspaceID : String) : List LayerRow :=
  (s.layer.filter (fun r => r.workspace_id = workspaceID)).insertionSort
    (fun a b => a.position ≤ b.position)

/-! ### Workspace -/

/-- `EnsureWorkspace`: when the `SELECT` finds no row (`sql.ErrNoRows`) the
workspace and its default editor are inserted in one transaction; when it
finds the row, `err` is `nil` and nothing is written. -/
def EnsureWorkspace (s : Store) (workspaceID : String) : Except DbError Store :=
  match s.workspace.find? (fun id => id = workspaceID) with
  | some _ => .ok s
  | none => do
    let s1 ← insertWorkspace s workspaceID
    insertEditor s1 workspaceID 0 "Passage 1"

/-! ### Layer operations -/

/-- `SELECT COALESCE(MAX(position), -1) + 1 FROM layer WHERE workspace_id = ?`. -/
def nextLayerPosition (s : Store) (workspaceID : String) : Int :=
  match ((s.layer.filter (fun r => r.workspace_id = workspaceID)).map (·.position)).max? with
  | some m => m + 1
  | none => -1 + 1

def AddLayer (s : Store) (workspaceID layerID name color : String) : Except DbError Store :=
  insertLayer s layerID workspaceID name color (nextLayerPosition s workspaceID)

/-- `DELETE FROM layer WHERE id = ? AND workspace_id = ?`; the foreign keys of
`highlight`, `arrow` and `underline` are `ON DELETE CASCADE`, so on a connection
that enforces foreign keys (`fk`) the rows that reference a deleted layer go
with it, and on another connection they stay. -/
def RemoveLayer (fk : Bool) (s : Store) (workspaceID layerID : String) : Except DbError Store :=
  let deleted :=
    if fk then
      (s.layer.filter (fun r => r.id = layerID ∧ r.workspace_id = workspaceID)).map (·.id)
    else []
  .ok { s with
    layer := s.layer.filter (fun r => ¬ (r.id = layerID ∧ r.workspace_id = workspaceID)),
    highlight := s.highlight.filter (fun h => h.layer_id ∉ deleted),
    arrow := s.arrow.filter (fun a => a.layer_id ∉ deleted),
    underline := s.underline.filter (fun u => u.layer_id ∉ deleted) }

def UpdateLayerName (s : Store) (workspaceID layerID name : String) : Except DbError Store :=
  .ok { s with layer := s.layer.map (fun r =>
    if r.id = layerID ∧ r.workspace_id = workspaceID then { r with name := name } else r) }

def UpdateLayerColor (s : Store) (workspaceID layerID color : String) : Except DbError Store :=
  .ok { s with layer := s.layer.map (fun r =>
    if r.id = layerID ∧ r.workspace_id = workspaceID then { r with color := color } else r) }

def ToggleLayerVisibility (s : Store) (workspaceID layerID : String) : Except DbError Store :=
  .ok { s with layer := s.layer.map (fun r =>
    if r.id = layerID ∧ r.workspace_id = workspaceID then { r with visible := !r.visible } else r) }

/-- The loop `for position, layerID := range layerIDs` of `ReorderLayers`, started
at loop index `position`. -/
def reorderLayersLoop (workspaceID : String) : Nat → List String → List LayerRow → List LayerRow
  | _, [], rows => rows
  | position, layerID :: rest, rows =>
    reorderLayersLoop workspaceID (position + 1) rest
      (setPosition position layerID workspaceID rows)

/-- `ReorderLayers`: one `UPDATE` per listed id inside a transaction. -/
def ReorderLayers (s : Store) (workspaceID : String) (layerIDs : List String) :
    Except DbError Store :=
  .ok { s with layer := reorderLayersLoop workspaceID 0 layerIDs s.layer }

/-! ### Highlight, arrow and underline operations -/

/-- `AddHighlight`; column `type` takes its default `'highlight'`.  The reference
to `layer` is checked on a connection that enforces foreign keys (`fk`). -/
def AddHighlight (fk : Bool) (s : Store) (layerID highlightID : String)
    (editorIndex from_ to_ : Int) (text note : String) : Except DbError Store :=
  if highlightID ∈ s.highlight.map (·.id) then .error (.uniqueViolation "highlight" "id")
  else if fk = false ∨ layerID ∈ s.layer.map (·.id) then
    .ok { s with highlight := s.highlight ++
      [{ id := highlightID, layer_id := layerID, editor_index := editorIndex, from_ := from_,
         to_ := to_, text := text, note := note, kind := "highlight" }] }
  else .error .foreignKeyViolation

def RemoveHighlight (s : Store) (layerID highlightID : String) : Except DbError Store :=
  .ok { s with highlight :=
    s.highlight.filter (fun h => ¬ (h.id = highlightID ∧ h.layer_id = layerID)) }

def UpdateHighlightAnnotation (s : Store) (layerID highlightID note : String) :
    Except DbError Store :=
  .ok { s with highlight := s.highlight.map (fun h =>
    if h.id = highlightID ∧ h.layer_id = layerID then { h with note := note } else h) }

/-- `AddArrow`; column `arrow_style` takes its default `'solid'`.  The reference
to `layer` is checked on a connection that enforces foreign keys (`fk`). -/
def AddArrow (fk : Bool) (s : Store) (layerID arrowID : String)
    (fromEditorIndex fromStart fromEnd : Int) (fromText : String)
    (toEditorIndex toStart toEnd : Int) (toText : String) : Except DbError Store :=
  if arrowID ∈ s.arrow.map (·.id) then .error (.uniqueViolation "arrow" "id")
  else if fk = false ∨ layerID ∈ s.layer.map (·.id) then
    .ok { s with arrow := s.arrow ++
      [{ id := arrowID, layer_id := layerID, from_editor_index := fromEditorIndex,
         from_start := fromStart, from_end := fromEnd, from_text := fromText,
         to_editor_index := toEditorIndex, to_start := toStart, to_end := toEnd,
         to_text := toText, arrow_style := "solid" }] }
  else .error .foreignKeyViolation

def RemoveArrow (s : Store) (layerID arrowID : String) : Except DbError Store :=
  .ok { s with arrow := s.arrow.filter (fun a => ¬ (a.id = arrowID ∧ a.layer_id = layerID)) }

def UpdateArrowStyle (s : Store) (layerID arrowID arrowStyle : String) : Except DbError Store :=
  .ok { s with arrow := s.arrow.map (fun a =>
    if a.id = arrowID ∧ a.layer_id = layerID then { a with arrow_style := arrowStyle } else a) }

/-- `AddUnderline`.  The reference to `layer` is checked on a connection that
enforces foreign keys (`fk`). -/
def AddUnderline (fk : Bool) (s : Store) (layerID underlineID : String)
    (editorIndex from_ to_ : Int) (text : String) : Except DbError Store :=
  if underlineID ∈ s.underline.map (·.id) then .error (.uniqueViolation "underline" "id")
  else if fk = false ∨ layerID ∈ s.layer.map (·.id) then
    .ok { s with underline := s.underline ++
      [{ id := underlineID, layer_id := layerID, editor_index := editorIndex, from_ := from_,
         to_ := to_, text := text }] }
  else .error .foreignKeyViolation

def RemoveUnderline (s : Store) (layerID underlineID : String) : Except DbError Store :=
  .ok { s with underline :=
    s.underline.filter (fun u => ¬ (u.id = underlineID ∧ u.layer_id = layerID)) }

/-! ### Editor operations -/

def AddEditor (s : Store) (workspaceID : String) (index : Int) (name : String) :
    Except DbError Store :=
  insertEditor s workspaceID index name

/-- `DELETE FROM editor WHERE workspace_id = ? AND index_pos = ?`. -/
def deleteEditorsAt (s : Store) (workspaceID : String) (index : Int) : Store :=
  { s with editor :=
      s.editor.filter (fun e => ¬ (e.workspace_id = workspaceID ∧ e.index_pos = index)) }

/-- The loop `for newIndex, id := range editorIDs` of `RemoveEditor`, started at
loop index `newIndex`. -/
def reindexLoop : Nat → List Nat → List EditorRow → List EditorRow
  | _, [], rows => rows
  | newIndex, id :: rest, rows => reindexLoop (newIndex + 1) rest (setIndexPos newIndex id rows)

/-- `RemoveEditor`: inside one transaction, delete the rows of the workspace at
`index`, read the ids of the remaining rows ordered by `index_pos`, and number
them from 0. -/
def RemoveEditor (s : Store) (workspaceID : String) (index : Int) : Except DbError Store :=
  let s1 := deleteEditorsAt s workspaceID index
  let editorIDs := (editorsOrdered s1 workspaceID).map (·.id)
  .ok { s1 with editor := reindexLoop 0 editorIDs s1.editor }

def UpdateSectionName (s : Store) (workspaceID : String) (index : Int) (name : String) :
    Except DbError Store :=
  .ok { s with editor := s.editor.map (fun e =>
    if e.workspace_id = workspaceID ∧ e.index_pos = index then { e with name := name } else e) }

def ToggleSectionVisibility (s : Store) (workspaceID : String) (index : Int) :
    Except DbError Store :=
  .ok { s with editor := s.editor.map (fun e =>
    if e.workspace_id = workspaceID ∧ e.index_pos = index then { e with visible := !e.visible }
    else e) }

/-- Go `m[k] = v` on a map held as an association list. -/
def mapSet {κ ν : Type} [DecidableEq κ] : List (κ × ν) → κ → ν → List (κ × ν)
  | [], k, v => [(k, v)]
  | (k1, v1) :: rest, k, v => if k1 = k then (k, v) :: rest else (k1, v1) :: mapSet rest k v

/-- Go `v, ok := m[k]`. -/
def mapGet {κ ν : Type} [DecidableEq κ] : List (κ × ν) → κ → Option ν
  | [], _ => none
  | (k1, v1) :: rest, k => if k1 = k then some v1 else mapGet rest k

/-- The map `editorByIndex` (`index_pos -> row id`) that `ReorderEditors` fills
from the rows it reads. -/
def editorByIndex (rows : List EditorRow) : List (Int × Nat) :=
  rows.foldl (fun m e => mapSet m e.index_pos e.id) []

/-- The loop `for newPos, oldIndex := range editorIndices` of `ReorderEditors`,
started at loop index `newPos`; an `oldIndex` the map does not hold is skipped. -/
def reorderEditorsLoop (byIndex : List (Int × Nat)) :
    Nat → List Int → List EditorRow → List EditorRow
  | _, [], rows => rows
  | newPos, oldIndex :: rest, rows =>
    match mapGet byIndex oldIndex with
    | none => reorderEditorsLoop byIndex (newPos + 1) rest rows
    | some id => reorderEditorsLoop byIndex (newPos + 1) rest (setIndexPos newPos id rows)

def ReorderEditors (s : Store) (workspaceID : String) (editorIndices : List Int) :
    Except DbError Store :=
  let byIndex := editorByIndex (editorsOrdered s workspaceID)
  .ok { s with editor := reorderEditorsLoop byIndex 0 editorIndices s.editor }

/-- `UpdateEditorContent`; `json.Marshal` does not fail on a decoded JSON value. -/
def UpdateEditorContent (s : Store) (workspaceID : String) (editorIndex : Int)
    (contentJSON : JVal) : Except DbError Store :=
  .ok { s with editor := s.editor.map (fun e =>
    if e.workspace_id = workspaceID ∧ e.index_pos = editorIndex then
      { e with content_json := some contentJSON }
    else e) }

/-- Rank of a row among the rows of its workspace read in `index_pos` order. -/
def rankOf (s : Store) (ws : String) (e : EditorRow) : Nat :=
  ((editorsOrdered s ws).map (·.id)).indexOf e.id

/-- The editor table with the rows of workspace `ws` numbered by rank: what the
re-indexing loop of `RemoveEditor` leaves. -/
def renumbered (s : Store) (ws : String) : List EditorRow :=
  s.editor.map (fun e =>
    if e.workspace_id = ws then { e with index_pos := ((rankOf s ws e : Nat) : Int) } else e)

/-! ## Go values of the dispatcher -/

/-- Go `error` values of the dispatcher: a `fmt.Errorf` text, a storage error
passed through, or a failed socket write. -/
inductive GoError where
  | errorf (msg : String)
  | db (e : DbError)
  | transport (msg : String)

/-- Go `err.Error()`. -/
def GoError.Error : GoError → String
  | .errorf msg => msg
  | .db e => e.Error
  | .transport msg => msg

/-- Go `map[string]interface{}`. -/
abbrev Payload := List (String × JVal)

/-- What `%T` prints for a decoded JSON value. -/
def goTypeName : JVal → String
  | .null => "<nil>"
  | .bool _ => "bool"
  | .num _ => "float64"
  | .str _ => "string"
  | .arr _ => "[]interface \x7b\x7d"
  | .obj _ => "map[string]interface \x7b\x7d"

/-- Lower-case hexadecimal digit. -/
def hexDigit (n : Nat) : Char :=
  if n < 10 then Char.ofNat (48 + n) else Char.ofNat (87 + n)

/-- What `strconv.Quote` writes for one character of the ASCII range: a
backslash before the double quote (34) and the backslash (92), the escapes
`\a \b \t \n \v \f \r` for the control characters 7 to 13, `\x` and two
hexadecimal digits for the other control characters and for 127, and the
character itself otherwise.  A character beyond the ASCII range is kept, as
`Quote` does with those that `unicode.IsPrint` accepts. -/
def goQuoteChar (c : Char) : List Char :=
  let n := c.toNat
  if n = 34 ∨ n = 92 then [Char.ofNat 92, c]
  else if n = 7 then [Char.ofNat 92, 'a']
  else if n = 8 then [Char.ofNat 92, 'b']
  else if n = 9 then [Char.ofNat 92, 't']
  else if n = 10 then [Char.ofNat 92, 'n']
  else if n = 11 then [Char.ofNat 92, 'v']
  else if n = 12 then [Char.ofNat 92, 'f']
  else if n = 13 then [Char.ofNat 92, 'r']
  else if n < 32 ∨ n = 127 then [Char.ofNat 92, 'x', hexDigit (n / 16), hexDigit (n % 16)]
  else [c]

/-- What `%q` prints for a string: `strconv.Quote`, the string between double
quotes with its characters escaped; the text is exact for a string of ASCII
characters. -/
def goQuote (key : String) : String :=
  String.mk ([Char.ofNat 34] ++ key.data.flatMap goQuoteChar ++ [Char.ofNat 34])

/-- Go `int(f)` for a `float64` on a 64-bit platform.  When `f` truncated toward
zero is in the range of `int`, that is the result.  Otherwise the result is
implementation-dependent; the one of the amd64 compiler is taken (the
conversion instruction gives the smallest `int`). -/
def goInt (f : ℚ) : Int :=
  let t := Int.tdiv f.num f.den
  if -9223372036854775808 ≤ t ∧ t ≤ 9223372036854775807 then t else -9223372036854775808

/-- The store call a handler ends in, with its evaluated arguments. -/
inductive StoreCall where
  | addLayer (workspaceID layerID name color : String)
  | removeLayer (workspaceID layerID : String)
  | updateLayerName (workspaceID layerID name : String)
  | updateLayerColor (workspaceID layerID color : String)
  | toggleLayerVisibility (workspaceID layerID : String)
  | reorderLayers (workspaceID : String) (layerIDs : List String)
  | addHighlight (layerID highlightID : String) (editorIndex from_ to_ : Int) (text note : String)
  | removeHighlight (layerID highlightID : String)
  | updateHighlightNote (layerID highlightID note : String)
  | addArrow (layerID arrowID : String) (fromEditorIndex fromStart fromEnd : Int)
      (fromText : String) (toEditorIndex toStart toEnd : Int) (toText : String)
  | removeArrow (layerID arrowID : String)
  | updateArrowStyle (layerID arrowID arrowStyle : String)
  | addUnderline (layerID underlineID : String) (editorIndex from_ to_ : Int) (text : String)
  | removeUnderline (layerID underlineID : String)
  | addEditor (workspaceID : String) (index : Int) (name : String)
  | removeEditor (workspaceID : String) (index : Int)
  | updateSectionName (workspaceID : String) (index : Int) (name : String)
  | toggleSectionVisibility (workspaceID : String) (index : Int)
  | reorderEditors (workspaceID : String) (editorIndices : List Int)
  | updateEditorContent (workspaceID : String) (editorIndex : Int) (contentJSON : JVal)

/-- Perform a store call on a connection that enforces foreign keys or does not
(`fk`). -/
def StoreCall.run (fk : Bool) (database : Store) : StoreCall → Except DbError Store
  | .addLayer w l n c => AddLayer database w l n c
  | .removeLayer w l => RemoveLayer fk database w l
  | .updateLayerName w l n => UpdateLayerName database w l n
  | .updateLayerColor w l c => UpdateLayerColor database w l c
  | .toggleLayerVisibility w l => ToggleLayerVisibility database w l
  | .reorderLayers w ls => ReorderLayers database w ls
  | .addHighlight l h e f t x a => AddHighlight fk database l h e f t x a
  | .removeHighlight l h => RemoveHighlight database l h
  | .updateHighlightNote l h a => UpdateHighlightAnnotation database l h a
  | .addArrow l a fe fs fn ft te ts tn tt =>
    AddArrow fk database l a fe fs fn ft te ts tn tt
  | .removeArrow l a => RemoveArrow database l a
  | .updateArrowStyle l a st => UpdateArrowStyle database l a st
  | .addUnderline l u e f t x => AddUnderline fk database l u e f t x
  | .removeUnderline l u => RemoveUnderline database l u
  | .addEditor w i n => AddEditor database w i n
  | .removeEditor w i => RemoveEditor database w i
  | .updateSectionName w i n => UpdateSectionName database w i n
  | .toggleSectionVisibility w i => ToggleSectionVisibility database w i
  | .reorderEditors w p => ReorderEditors database w p
  | .updateEditorContent w i c => UpdateEditorContent database w i c

/-! ## Go code that returns an error or panics

The code of `assert.go` and the handlers of `handler.go` are embedded as
programs that run on a state, the database and the record of the store calls
made so far, and end in one of three ways: they return without error, they
return an `error`, or they panic.  A line `x, err := f(...)` followed by
`if err != nil { return err }` is a bind. -/

/-- How a call ends: it returns with a `nil` error, it returns an `error`, or it
panics. -/
inductive Outcome (α : Type) where
  | ok (a : α)
  | error (err : GoError)
  | panic (msg : String)

/-- What a handler works on: the database, and the store calls made so far, in
the order they were made. -/
structure HandlerState where
  db : Store
  calls : List StoreCall

/-- A piece of Go code: from the state before, how it ends and the state
after. -/
def Go (α : Type) : Type := HandlerState → Outcome α × HandlerState

/-- `return a, nil`. -/
def Go.pure {α : Type} (a : α) : Go α := fun st => (.ok a, st)

/-- Sequencing: the second piece runs when the first has returned without
error; an error or a panic of the first ends the whole. -/
def Go.bind {α β : Type} (m : Go α) (f : α → Go β) : Go β := fun st =>
  match m st with
  | (.ok a, st1) => f a st1
  | (.error err, st1) => (.error err, st1)
  | (.panic msg, st1) => (.panic msg, st1)

instance : Monad Go where
  pure := Go.pure
  bind := Go.bind

/-- `return err`. -/
def Go.fail {α : Type} (err : GoError) : Go α := fun st => (.error err, st)

/-- A run-time panic. -/
def Go.panic {α : Type} (msg : String) : Go α := fun st => (.panic msg, st)

/-- `return database.Op(...)`: the store call is made on the database, on a
pooled connection that enforces foreign keys or does not (`fk`); a call that
fails leaves the database as it was and its error is returned. -/
def storeCall (fk : Bool) (call : StoreCall) : Go Unit := fun st =>
  match call.run fk st.db with
  | .ok db1 => (.ok (), { db := db1, calls := st.calls ++ [call] })
  | .error e => (.error (.db e), { db := st.db, calls := st.calls ++ [call] })

/-! ## Payload validation (backend/internal/ws/assert.go)

Each function reads the key with `v, ok := payload[key]` and converts with the
two-value form `s, ok := v.(T)`, which does not panic. -/

def assertString (payload : Payload) (key : String) : Go String :=
  match mapGet payload key with
  | none => Go.fail (.errorf ("key " ++ goQuote key ++ ": missing"))
  | some (.str s) => pure s
  | some v => Go.fail (.errorf ("key " ++ goQuote key ++ ": expected string, got " ++ goTypeName v))

def assertFloat64 (payload : Payload) (key : String) : Go ℚ :=
  match mapGet payload key with
  | none => Go.fail (.errorf ("key " ++ goQuote key ++ ": missing"))
  | some (.num f) => pure f
  | some v => Go.fail (.errorf ("key " ++ goQuote key ++ ": expected float64, got " ++ goTypeName v))

def assertMap (payload : Payload) (key : String) : Go Payload :=
  match mapGet payload key with
  | none => Go.fail (.errorf ("key " ++ goQuote key ++ ": missing"))
  | some (.obj m) => pure m
  | some v => Go.fail (.errorf ("key " ++ goQuote key ++ ": expected map, got " ++ goTypeName v))

def assertSlice (payload : Payload) (key : String) : Go (List JVal) :=
  match mapGet payload key with
  | none => Go.fail (.errorf ("key " ++ goQuote key ++ ": missing"))
  | some (.arr xs) => pure xs
  | some v => Go.fail (.errorf ("key " ++ goQuote key ++ ": expected slice, got " ++ goTypeName v))

def stringOrDefault (m : Payload) (key def_ : String) : String :=
  match mapGet m key with
  | some (.str s) => s
  | _ => def_

/-! ## Action dispatcher (backend/internal/ws/handler.go)

A handler gets the database handle, the workspace id and the payload.  The
handle is the flag `fk` of the pooled connection that serves the store call
of the handler; the content of the database is in the state. -/

/-- Type `actionHandler`. -/
abbrev actionHandler := Bool → String → Payload → Go Unit

def handleAddLayer : actionHandler := fun fk workspaceID payload => do
  let id ← assertString payload "id"
  let name ← assertString payload "name"
  let color ← assertString payload "color"
  storeCall fk (.addLayer workspaceID id name color)

def handleRemoveLayer : actionHandler := fun fk workspaceID payload => do
  let id ← assertString payload "id"
  storeCall fk (.removeLayer workspaceID id)

def handleUpdateLayerName : actionHandler := fun fk workspaceID payload => do
  let id ← assertString payload "id"
  let name ← assertString payload "name"
  storeCall fk (.updateLayerName workspaceID id name)

def handleUpdateLayerColor : actionHandler := fun fk workspaceID payload => do
  let id ← assertString payload "id"
  let color ← assertString payload "color"
  storeCall fk (.updateLayerColor workspaceID id color)

def handleToggleLayerVisibility : actionHandler := fun fk workspaceID payload => do
  let id ← assertString payload "id"
  storeCall fk (.toggleLayerVisibility workspaceID id)

/-- The loop of `handleReorderLayers` over `raw`, started at index `i`. -/
def layerIdsLoop : Nat → List JVal → Go (List String)
  | _, [] => pure []
  | i, .str s :: rest => do
    let ids ← layerIdsLoop (i + 1) rest
    pure (s :: ids)
  | i, v :: _ =>
    Go.fail (.errorf ("layerIds[" ++ toString i ++ "]: expected string, got " ++ goTypeName v))

def handleReorderLayers : actionHandler := fun fk workspaceID payload => do
  let raw ← assertSlice payload "layerIds"
  let ids ← layerIdsLoop 0 raw
  storeCall fk (.reorderLayers workspaceID ids)

def handleAddHighlight : actionHandler := fun fk _ payload => do
  let layerID ← assertString payload "layerId"
  let h ← assertMap payload "highlight"
  let id ← assertString h "id"
  let editorIndex ← assertFloat64 h "editorIndex"
  let from_ ← assertFloat64 h "from"
  let to_ ← assertFloat64 h "to"
  storeCall fk (.addHighlight layerID id (goInt editorIndex) (goInt from_) (goInt to_)
    (stringOrDefault h "text" "") (stringOrDefault h "annotation" ""))

def handleRemoveHighlight : actionHandler := fun fk _ payload => do
  let layerID ← assertString payload "layerId"
  let highlightID ← assertString payload "highlightId"
  storeCall fk (.removeHighlight layerID highlightID)

def handleUpdateHighlightAnnotation : actionHandler := fun fk _ payload => do
  let layerID ← assertString payload "layerId"
  let highlightID ← assertString payload "highlightId"
  let note ← assertString payload "annotation"
  storeCall fk (.updateHighlightNote layerID highlightID note)

def handleAddArrow : actionHandler := fun fk _ payload => do
  let layerID ← assertString payload "layerId"
  let arrow ← assertMap payload "arrow"
  let id ← assertString arrow "id"
  let fromEndpoint ← assertMap arrow "from"
  let toEndpoint ← assertMap arrow "to"
  let fromEditorIndex ← assertFloat64 fromEndpoint "editorIndex"
  let fromStart ← assertFloat64 fromEndpoint "from"
  let fromEnd ← assertFloat64 fromEndpoint "to"
  let toEditorIndex ← assertFloat64 toEndpoint "editorIndex"
  let toStart ← assertFloat64 toEndpoint "from"
  let toEnd ← assertFloat64 toEndpoint "to"
  storeCall fk (.addArrow layerID id
    (goInt fromEditorIndex) (goInt fromStart) (goInt fromEnd) (stringOrDefault fromEndpoint "text" "")
    (goInt toEditorIndex) (goInt toStart) (goInt toEnd) (stringOrDefault toEndpoint "text" ""))

def handleRemoveArrow : actionHandler := fun fk _ payload => do
  let layerID ← assertString payload "layerId"
  let arrowID ← assertString payload "arrowId"
  storeCall fk (.removeArrow layerID arrowID)

def handleUpdateArrowStyle : actionHandler := fun fk _ payload => do
  let layerID ← assertString payload "layerId"
  let arrowID ← assertString payload "arrowId"
  let arrowStyle ← assertString payload "arrowStyle"
  storeCall fk (.updateArrowStyle layerID arrowID arrowStyle)

def handleAddUnderline : actionHandler := fun fk _ payload => do
  let layerID ← assertString payload "layerId"
  let u ← assertMap payload "underline"
  let id ← assertString u "id"
  let editorIndex ← assertFloat64 u "editorIndex"
  let from_ ← assertFloat64 u "from"
  let to_ ← assertFloat64 u "to"
  storeCall fk (.addUnderline layerID id (goInt editorIndex) (goInt from_) (goInt to_)
    (stringOrDefault u "text" ""))

def handleRemoveUnderline : actionHandler := fun fk _ payload => do
  let layerID ← assertString payload "layerId"
  let underlineID ← assertString payload "underlineId"
  storeCall fk (.removeUnderline layerID underlineID)

def handleAddEditor : actionHandler := fun fk workspaceID payload => do
  let index ← assertFloat64 payload "index"
  let name ← assertString payload "name"
  storeCall fk (.addEditor workspaceID (goInt index) name)

def handleRemoveEditor : actionHandler := fun fk workspaceID payload => do
  let index ← assertFloat64 payload "index"
  storeCall fk (.removeEditor workspaceID (goInt index))

def handleUpdateSectionName : actionHandler := fun fk workspaceID payload => do
  let index ← assertFloat64 payload "index"
  let name ← assertString payload "name"
  storeCall fk (.updateSectionName workspaceID (goInt index) name)

def handleToggleSectionVisibility : actionHandler := fun fk workspaceID payload => do
  let index ← assertFloat64 payload "index"
  storeCall fk (.toggleSectionVisibility workspaceID (goInt index))

/-- The loop of `handleReorderEditors` over `raw`, started at index `i`. -/
def permutationLoop : Nat → List JVal → Go (List Int)
  | _, [] => pure []
  | i, .num f :: rest => do
    let indices ← permutationLoop (i + 1) rest
    pure (goInt f :: indices)
  | i, v :: _ =>
    Go.fail (.errorf ("permutation[" ++ toString i ++ "]: expected float64, got " ++ goTypeName v))

def handleReorderEditors : actionHandler := fun fk workspaceID payload => do
  let raw ← assertSlice payload "permutation"
  let indices ← permutationLoop 0 raw
  storeCall fk (.reorderEditors workspaceID indices)

/-- `handleUpdateEditorContent`; `payload["contentJson"] == nil` holds when the
key is absent and when its value is JSON `null`. -/
def handleUpdateEditorContent : actionHandler := fun fk workspaceID payload => do
  let editorIndex ← assertFloat64 payload "editorIndex"
  match mapGet payload "contentJson" with
  | none => Go.fail (.errorf ("key " ++ goQuote "contentJson" ++ ": missing"))
  | some .null => Go.fail (.errorf ("key " ++ goQuote "contentJson" ++ ": missing"))
  | some v => storeCall fk (.updateEditorContent workspaceID (goInt editorIndex) v)

/-- The table `actionHandlers`. -/
def actionHandlers : List (String × actionHandler) :=
  [ ("addLayer", handleAddLayer),
    ("removeLayer", handleRemoveLayer),
    ("updateLayerName", handleUpdateLayerName),
    ("updateLayerColor", handleUpdateLayerColor),
    ("toggleLayerVisibility", handleToggleLayerVisibility),
    ("reorderLayers", handleReorderLayers),
    ("addHighlight", handleAddHighlight),
    ("removeHighlight", handleRemoveHighlight),
    ("updateHighlightAnnotation", handleUpdateHighlightAnnotation),
    ("addArrow", handleAddArrow),
    ("removeArrow", handleRemoveArrow),
    ("updateArrowStyle", handleUpdateArrowStyle),
    ("addUnderline", handleAddUnderline),
    ("removeUnderline", handleRemoveUnderline),
    ("addEditor", handleAddEditor),
    ("removeEditor", handleRemoveEditor),
    ("updateSectionName", handleUpdateSectionName),
    ("toggleSectionVisibility", handleToggleSectionVisibility),
    ("reorderEditors", handleReorderEditors),
    ("updateEditorContent", handleUpdateEditorContent) ]

/-! ## The older handlers (backend-go/internal/ws/handler.go)

The copy of the dispatcher under `backend-go` converts with the one-value form
`payload[key].(T)`, which panics when the value is not of type `T`. -/

/-- `x.(string)` for the value `x` read from a map: the string it holds, and a
panic when the key is absent (`x` is `nil`) or holds a value of another
type. -/
def typeAssertString (x : Option JVal) : Go String :=
  match x with
  | some (.str s) => pure s
  | some .null => Go.panic "interface conversion: interface \x7b\x7d is nil, not string"
  | none => Go.panic "interface conversion: interface \x7b\x7d is nil, not string"
  | some v =>
    Go.panic ("interface conversion: interface \x7b\x7d is " ++ goTypeName v ++ ", not string")

/-- `x.(float64)` for the value `x` read from a map. -/
def typeAssertFloat64 (x : Option JVal) : Go ℚ :=
  match x with
  | some (.num f) => pure f
  | some .null => Go.panic "interface conversion: interface \x7b\x7d is nil, not float64"
  | none => Go.panic "interface conversion: interface \x7b\x7d is nil, not float64"
  | some v =>
    Go.panic ("interface conversion: interface \x7b\x7d is " ++ goTypeName v ++ ", not float64")

namespace BackendGo

/-- The `handleRemoveLayer` of `backend-go`. -/
def handleRemoveLayer : actionHandler := fun fk workspaceID payload => do
  let id ← typeAssertString (mapGet payload "id")
  storeCall fk (.removeLayer workspaceID id)

/-- The `handleRemoveEditor` of `backend-go`. -/
def handleRemoveEditor : actionHandler := fun fk workspaceID payload => do
  let index ← typeAssertFloat64 (mapGet payload "index")
  storeCall fk (.removeEditor workspaceID (goInt index))

end BackendGo

/-! ## Messages (backend/internal/models/models.go) -/

/-- `ClientMessage`; an absent `payload` decodes to the nil map, which reads as
the empty map, and an absent `requestId` to the empty string. -/
structure ClientMessage where
  Type_ : String
  Payload : Payload
  RequestID : String

/-- `ServerMessage`. -/
structure ServerMessage where
  Type_ : String
  Payload : Payload := []
  SourceClientID : String := ""
  RequestID : String := ""

/-- The JSON object `json.Marshal` writes for a `ServerMessage`: `payload`,
`sourceClientId` and `requestId` are `omitempty`. -/
def ServerMessage.encode (m : ServerMessage) : JVal :=
  .obj ([("type", JVal.str m.Type_)]
    ++ (if m.Payload.isEmpty then [] else [("payload", JVal.obj m.Payload)])
    ++ (if m.SourceClientID = "" then [] else [("sourceClientId", JVal.str m.SourceClientID)])
    ++ (if m.RequestID = "" then [] else [("requestId", JVal.str m.RequestID)]))

/-- `json.Marshal` of a `ServerMessage`; it has no failing case for a message
whose payload is made of decoded JSON values. -/
def jsonMarshal (m : ServerMessage) : Except GoError JVal := .ok m.encode

/-! ## Connection registry (backend/internal/ws/handler.go)

A `*websocket.Conn` is a handle; the registry never holds a nil one.  Socket
writes are recorded as events, in the order the code performs them.  Log lines
are not recorded. -/

/-- Handle of a live `*websocket.Conn`. -/
abbrev Conn := Nat

/-- Observable effects of the session code. -/
inductive Event where
  | write (conn : Conn) (data : JVal)
  | dbCall (call : StoreCall)
  | close (conn : Conn)

/-- `ConnectionManager`: `workspace_id -> client_id -> conn`. -/
structure ConnectionManager where
  connections : List (String × List (String × Conn))

def NewConnectionManager : ConnectionManager := ⟨[]⟩

/-- Go `delete(m, k)`. -/
def mapDelete {κ ν : Type} [DecidableEq κ] (m : List (κ × ν)) (k : κ) : List (κ × ν) :=
  m.filter (fun p => p.1 ≠ k)

/-- `Connect`; `clientID` is the value `uuid.New().String()` returns. -/
def ConnectionManager.Connect (cm : ConnectionManager) (workspaceID : String) (conn : Conn)
    (clientID : String) : ConnectionManager × String :=
  let clients := (mapGet cm.connections workspaceID).getD []
  (⟨mapSet cm.connections workspaceID (mapSet clients clientID conn)⟩, clientID)

def ConnectionManager.Disconnect (cm : ConnectionManager) (workspaceID clientID : String) :
    ConnectionManager :=
  match mapGet cm.connections workspaceID with
  | some clients =>
    let clients1 := mapDelete clients clientID
    if clients1.length = 0 then ⟨mapDelete cm.connections workspaceID⟩
    else ⟨mapSet cm.connections workspaceID clients1⟩
  | none => cm

/-- `conn.WriteMessage(websocket.TextMessage, data)`: the write is recorded; it
fails on a connection that is `dead`. -/
def writeMessage (dead : Conn → Bool) (conn : Conn) (data : JVal) :
    Option GoError × List Event :=
  (if dead conn then some (.transport "write failed") else none, [.write conn data])

/-- `SendTo`: the error it returns (if any) and the writes it performs. -/
def ConnectionManager.SendTo (cm : ConnectionManager) (dead : Conn → Bool)
    (workspaceID clientID : String) (msg : ServerMessage) : Option GoError × List Event :=
  match (mapGet cm.connections workspaceID).bind (fun clients => mapGet clients clientID) with
  | none => (some (.errorf ("client " ++ clientID ++ " not found")), [])
  | some conn =>
    match jsonMarshal msg with
    | .error err => (some err, [])
    | .ok data => writeMessage dead conn data

/-- `Broadcast`: the recipients are copied from the bucket, then each is written
once; a failed write is logged and the loop goes on. -/
def ConnectionManager.Broadcast (cm : ConnectionManager) (dead : Conn → Bool)
    (workspaceID : String) (msg : ServerMessage) (excludeClient : String) : List Event :=
  let clients := (mapGet cm.connections workspaceID).getD []
  let recipients := clients.filter (fun p => p.1 ≠ excludeClient)
  match jsonMarshal msg with
  | .error _ => []
  | .ok data => recipients.flatMap (fun p => (writeMessage dead p.2 data).2)

/-! ## Session protocol (`HandleWebSocket`) -/

/-- States of one client session. -/
inductive Phase where
  | Connecting
  | Syncing
  | Active
  | Closed
deriving DecidableEq, Repr

/-- What the server holds: the database and the registry. -/
structure Server where
  db : Store
  cm : ConnectionManager

/-- One registered session: the handler's local variables. -/
structure Session where
  workspaceID : String
  clientID : String
  conn : Conn

/-- Outcome of one `conn.ReadMessage()` of the read loop followed by
`json.Unmarshal`. -/
inductive ReadResult where
  | readError
  | invalidJSON
  | message (msg : ClientMessage)

/-- `handler(database, workspaceID, msg.Payload)` as the read loop calls it, on
a pooled connection with flag `fk`: how the call ends, the database
afterwards, and the store calls made. -/
def runHandler (handler : actionHandler) (fk : Bool) (database : Store) (workspaceID : String)
    (payload : Payload) : Outcome Unit × Store × List Event :=
  match handler fk workspaceID payload ⟨database, []⟩ with
  | (outcome, st) => (outcome, st.db, st.calls.map Event.dbCall)

/-- The payload of the `action` broadcast: `actionType` is stored first, then
every entry of the client payload is copied in. -/
def broadcastPayload (msg : ClientMessage) : Payload :=
  msg.Payload.foldl (fun m kv => mapSet m kv.1 kv.2) [("actionType", JVal.str msg.Type_)]

/-- One iteration of the read loop of `HandleWebSocket` for a registered
session, with `fk` the flag of the pooled connection that serves the store
call of the handler, and, when the loop breaks, the deferred `Disconnect` and
`Close`.  A panic of the handler unwinds `HandleWebSocket`, which runs the
deferred calls too. -/
def readLoopStep (dead : Conn → Bool) (fk : Bool) (ss : Session) (w : Server) :
    ReadResult → Server × Phase × List Event
  | .readError => ({ w with cm := w.cm.Disconnect ss.workspaceID ss.clientID }, .Closed,
      [.close ss.conn])
  | .invalidJSON => (w, .Active, [])
  | .message msg =>
    match mapGet actionHandlers msg.Type_ with
    | none =>
      (w, .Active, (w.cm.SendTo dead ss.workspaceID ss.clientID
        { Type_ := "error",
          Payload := [("message", JVal.str ("Unknown action: " ++ msg.Type_))],
          RequestID := msg.RequestID }).2)
    | some handler =>
      match runHandler handler fk w.db ss.workspaceID msg.Payload with
      | (.panic _, database, calls) =>
        ({ db := database, cm := w.cm.Disconnect ss.workspaceID ss.clientID }, .Closed,
          calls ++ [.close ss.conn])
      | (.error err, database, calls) =>
        ({ w with db := database }, .Active, calls ++
          (w.cm.SendTo dead ss.workspaceID ss.clientID
            { Type_ := "error",
              Payload := [("message", JVal.str err.Error)],
              RequestID := msg.RequestID }).2)
      | (.ok _, database, calls) =>
        ({ w with db := database }, .Active, calls ++
          (w.cm.SendTo dead ss.workspaceID ss.clientID
            { Type_ := "ack", Payload := [], RequestID := msg.RequestID }).2 ++
          w.cm.Broadcast dead ss.workspaceID
            { Type_ := "action",
              Payload := broadcastPayload msg,
              SourceClientID := ss.clientID,
              RequestID := msg.RequestID } ss.clientID)

/-! ## Example stores -/

/-- Workspace `ws1` with layers `l1`, `l2`, `l3` at positions 0, 1, 2 and its
default editor. -/
def storeThreeLayers : Store :=
  { Store.empty with
    workspace := ["ws1"],
    layer := [⟨"l1", "ws1", "Layer 1", "#ff0000", true, 0⟩,
              ⟨"l2", "ws1", "Layer 2", "#00ff00", true, 1⟩,
              ⟨"l3", "ws1", "Layer 3", "#0000ff", true, 2⟩],
    editor := [⟨1, "ws1", 0, "Passage 1", true, none⟩],
    editor_seq := 1 }

/-- Workspace `ws1` with its default editor only. -/
def storeOneEditor : Store :=
  { Store.empty with
    workspace := ["ws1"],
    editor := [⟨1, "ws1", 0, "Passage 1", true, none⟩],
    editor_seq := 1 }

/-- Workspace `ws1` with editors at indices 0, 1, 2. -/
def storeThreeEditors : Store :=
  { Store.empty with
    workspace := ["ws1"],
    editor := [⟨1, "ws1", 0, "Passage 1", true, none⟩,
               ⟨2, "ws1", 1, "Passage 2", true, none⟩,
               ⟨3, "ws1", 2, "Passage 3", true, none⟩],
    editor_seq := 3 }

/-! ## Runs of editor operations -/

/-- The operations on workspaces and editors. -/
inductive EditorOp where
  | EnsureWorkspace (workspaceID : String)
  | AddEditor (workspaceID : String) (index : Int) (name : String)
  | RemoveEditor (workspaceID : String) (index : Int)
  | ReorderEditors (workspaceID : String) (editorIndices : List Int)
  | UpdateSectionName (workspaceID : String) (index : Int) (name : String)
  | ToggleSectionVisibility (workspaceID : String) (index : Int)
  | UpdateEditorContent (workspaceID : String) (editorIndex : Int) (contentJSON : JVal)

/-- The call an `EditorOp` stands for. -/
def EditorOp.call (s : Store) : EditorOp → Except DbError Store
  | .EnsureWorkspace w => Referencer.EnsureWorkspace s w
  | .AddEditor w i n => Referencer.AddEditor s w i n
  | .RemoveEditor w i => Referencer.RemoveEditor s w i
  | .ReorderEditors w p => Referencer.ReorderEditors s w p
  | .UpdateSectionName w i n => Referencer.UpdateSectionName s w i n
  | .ToggleSectionVisibility w i => Referencer.ToggleSectionVisibility s w i
  | .UpdateEditorContent w i c => Referencer.UpdateEditorContent s w i c

/-- The store after a call: a failed call leaves it as it was. -/
def EditorOp.exec (s : Store) (op : EditorOp) : Store :=
  match op.call s with
  | .ok s1 => s1
  | .error _ => s

/-- The store after a sequence of calls. -/
def execOps (s : Store) : List EditorOp → Store
  | [] => s
  | op :: rest => execOps (op.exec s) rest

/-- The `index_pos` values of the editors of a workspace, in table order. -/
def editorIndices (s : Store) (ws : String) : List Int :=
  (s.editor.filter (fun e => e.workspace_id = ws)).map (·.index_pos)

/-- The `index_pos` values of every workspace are `0..n-1`, each once. -/
def Contiguous (s : Store) : Prop :=
  ∀ ws, (editorIndices s ws).Perm ((List.range (editorIndices s ws).length).map Int.ofNat)

/-- An `AddEditor` call appends (its index is the number of editors the
workspace has) and a `ReorderEditors` call passes a permutation of the current
indices `0..n-1`; the other calls are unrestricted. -/
def EditorOp.InContract (s : Store) : EditorOp → Prop
  | .AddEditor w i _ => i = ((editorIndices s w).length : Int)
  | .ReorderEditors w p => p.Perm ((List.range (editorIndices s w).length).map Int.ofNat)
  | _ => True

/-- Stores reached from the empty store by calls that are in contract. -/
inductive Reachable : Store → Prop where
  | empty : Reachable Store.empty
  | step (s : Store) (op : EditorOp) (hs : Reachable s) (hop : op.InContract s) :
      Reachable (op.exec s)

/-- Integrity of the editor table: distinct row ids, none above the
`AUTOINCREMENT` counter, every row in an existing workspace, and contiguous
indices in every workspace. -/
structure EditorInv (s : Store) : Prop where
  ids_nodup : (s.editor.map (·.id)).Nodup
  ids_le : ∀ e ∈ s.editor, e.id ≤ s.editor_seq
  fk : ∀ e ∈ s.editor, e.workspace_id ∈ s.workspace
  contiguous : Contiguous s

/-- The row `EnsureWorkspace` inserts for a new workspace. -/
def defaultEditor (s : Store) (workspaceID : String) : EditorRow :=
  { id := s.editor_seq + 1, workspace_id := workspaceID, index_pos := 0, name := "Passage 1",
    visible := true, content_json := none }

/-- Workspace `ws1` with layer `l1` holding a highlight, an arrow and an
underline, and layer `l2` holding one highlight. -/
def storeAnnotated : Store :=
  { Store.empty with
    workspace := ["ws1"],
    layer := [⟨"l1", "ws1", "Layer 1", "#ff0000", true, 0⟩,
              ⟨"l2", "ws1", "Layer 2", "#00ff00", true, 1⟩],
    highlight := [⟨"hl1", "l1", 0, 10, 20, "text", "", "highlight"⟩,
                  ⟨"hl2", "l2", 0, 30, 40, "more", "", "highlight"⟩],
    arrow := [⟨"arr1", "l1", 0, 0, 5, "", 0, 10, 15, "", "solid"⟩],
    underline := [⟨"ul1", "l1", 0, 1, 2, "u"⟩],
    editor := [⟨1, "ws1", 0, "Passage 1", true, none⟩],
    editor_seq := 1 }

/-! ## Registry states -/

/-- The registered connections as `(workspace, client, conn)` triples. -/
def ConnectionManager.entries (cm : ConnectionManager) : List (String × String × Conn) :=
  cm.connections.flatMap (fun b => b.2.map (fun p => (b.1, p.1, p.2)))

/-- The association lists of the registry are maps: no workspace id is bound
twice, and no client id is bound twice in one bucket. -/
structure ConnectionManager.WF (cm : ConnectionManager) : Prop where
  workspaces_nodup : (cm.connections.map Prod.fst).Nodup
  clients_nodup : ∀ b ∈ cm.connections, (b.2.map Prod.fst).Nodup

/-- No connection is registered twice (`HandleWebSocket` registers each
upgraded connection once). -/
def ConnectionManager.ConnsDistinct (cm : ConnectionManager) : Prop :=
  (cm.entries.map (fun e => e.2.2)).Nodup

/-- Number of `WriteMessage` calls on `conn` among the events. -/
def writesTo (conn : Conn) (evs : List Event) : Nat :=
  evs.countP (fun ev =>
    match ev with
    | .write k _ => decide (k = conn)
    | _ => false)

/-- Two workspaces: clients `a`, `b`, `c` on `ws1` and client `d` on `ws2`. -/
def registryTwoWorkspaces : ConnectionManager :=
  ⟨[("ws1", [("a", 1), ("b", 2), ("c", 3)]), ("ws2", [("d", 4)])]⟩

/-! ## Example sessions -/

/-- Client `a` of workspace `ws1`, on connection 1. -/
def sessionA : Session := ⟨"ws1", "a", 1⟩

/-- Server state: workspace `ws1` with its default editor; clients `a`, `b`,
`c` connected to `ws1` and `d` to `ws2`. -/
def serverTwoWorkspaces : Server := ⟨storeOneEditor, registryTwoWorkspaces⟩

/-- A well-formed `addLayer` message. -/
def addLayerMessage : ClientMessage :=
  { Type_ := "addLayer",
    Payload := [("id", .str "l1"), ("name", .str "X"), ("color", .str "#fff")],
    RequestID := "req-1" }

/-- An `addLayer` message whose payload has a key `actionType` of its own. -/
def addLayerMessageWithActionType : ClientMessage :=
  { Type_ := "addLayer",
    Payload := [("id", .str "l1"), ("name", .str "X"), ("color", .str "#fff"),
                ("actionType", .str "removeLayer")],
    RequestID := "req-1" }

/-- An `addLayer` message without the required key `color`. -/
def addLayerMessageNoColor : ClientMessage :=
  { Type_ := "addLayer",
    Payload := [("id", .str "l1"), ("name", .str "X")],
    RequestID := "req-2" }

/-- A message with a type the table does not hold. -/
def unknownMessage : ClientMessage :=
  { Type_ := "nonexistentAction", Payload := [], RequestID := "req-3" }

/-! ## Workspace snapshot (`models.WorkspaceState`, `GetWorkspaceState`) -/

/-- `models.Highlight`; `Note` and `Kind` are the fields `Annotation` and
`Type`. -/
structure Highlight where
  ID : String
  EditorIndex : Int
  From : Int
  To : Int
  Text : String
  Note : String
  Kind : String
deriving DecidableEq, Repr

/-- `models.ArrowEndpoint`. -/
structure ArrowEndpoint where
  EditorIndex : Int
  From : Int
  To : Int
  Text : String
deriving DecidableEq, Repr

/-- `models.Arrow`. -/
structure Arrow where
  ID : String
  From : ArrowEndpoint
  To : ArrowEndpoint
  ArrowStyle : String
deriving DecidableEq, Repr

/-- `models.Underline`. -/
structure Underline where
  ID : String
  EditorIndex : Int
  From : Int
  To : Int
  Text : String
deriving DecidableEq, Repr

/-- `models.Layer`. -/
structure Layer where
  ID : String
  Name : String
  Color : String
  Visible : Bool
  Highlights : List Highlight
  Arrows : List Arrow
  Underlines : List Underline
deriving DecidableEq, Repr

/-- `models.Editor`; a nil `ContentJSON` is `JVal.null`. -/
structure Editor where
  Index : Int
  Name : String
  Visible : Bool
  ContentJSON : JVal

/-- `models.WorkspaceState`. -/
structure WorkspaceState where
  WorkspaceID : String
  Layers : List Layer
  Editors : List Editor

/-- The rows of `SELECT ... FROM highlight h JOIN layer l ON h.layer_id = l.id
WHERE l.workspace_id = ?`, in the order of table `highlight`. -/
def highlightsJoined (s : Store) (workspaceID : String) : List HighlightRow :=
  s.highlight.flatMap (fun h =>
    (s.layer.filter (fun l => h.layer_id = l.id ∧ l.workspace_id = workspaceID)).map (fun _ => h))

/-- The rows of the `arrow` query of `GetWorkspaceState`. -/
def arrowsJoined (s : Store) (workspaceID : String) : List ArrowRow :=
  s.arrow.flatMap (fun a =>
    (s.layer.filter (fun l => a.layer_id = l.id ∧ l.workspace_id = workspaceID)).map (fun _ => a))

/-- The rows of the `underline` query of `GetWorkspaceState`. -/
def underlinesJoined (s : Store) (workspaceID : String) : List UnderlineRow :=
  s.underline.flatMap (fun u =>
    (s.layer.filter (fun l => u.layer_id = l.id ∧ l.workspace_id = workspaceID)).map (fun _ => u))

/-- The `Scan` of one `highlight` row. -/
def HighlightRow.toModel (h : HighlightRow) : Highlight :=
  { ID := h.id, EditorIndex := h.editor_index, From := h.from_, To := h.to_, Text := h.text,
    Note := h.note, Kind := h.kind }

/-- The `Scan` of one `arrow` row. -/
def ArrowRow.toModel (a : ArrowRow) : Arrow :=
  { ID := a.id,
    From := { EditorIndex := a.from_editor_index, From := a.from_start, To := a.from_end,
              Text := a.from_text },
    To := { EditorIndex := a.to_editor_index, From := a.to_start, To := a.to_end,
            Text := a.to_text },
    ArrowStyle := a.arrow_style }

/-- The `Scan` of one `underline` row. -/
def UnderlineRow.toModel (u : UnderlineRow) : Underline :=
  { ID := u.id, EditorIndex := u.editor_index, From := u.from_, To := u.to_, Text := u.text }

/-- The `Scan` of one `editor` row: `content_json` is parsed when it is not
`NULL`, and `ContentJSON` stays nil otherwise. -/
def EditorRow.toModel (e : EditorRow) : Editor :=
  { Index := e.index_pos, Name := e.name, Visible := e.visible,
    ContentJSON := match e.content_json with
      | some v => v
      | none => JVal.null }

/-- `GetWorkspaceState`: the layers ordered by `position`, each with the
annotation rows that carry its id (the maps `highlightsByLayer`,
`arrowsByLayer`, `underlinesByLayer` collect the rows of a layer in query
order; they are filled only when the workspace has a layer), and the editors
ordered by `index_pos`. -/
def GetWorkspaceState (s : Store) (workspaceID : String) : Except GoError WorkspaceState :=
  let layers := layersOrdered s workspaceID
  let layerIDs := layers.map (·.id)
  let hRows := if layerIDs.length > 0 then highlightsJoined s workspaceID else []
  let aRows := if layerIDs.length > 0 then arrowsJoined s workspaceID else []
  let uRows := if layerIDs.length > 0 then underlinesJoined s workspaceID else []
  let modelLayers := layers.map (fun li =>
    ({ ID := li.id, Name := li.name, Color := li.color, Visible := li.visible,
       Highlights := (hRows.filter (fun h => h.layer_id = li.id)).map HighlightRow.toModel,
       Arrows := (aRows.filter (fun a => a.layer_id = li.id)).map ArrowRow.toModel,
       Underlines := (uRows.filter (fun u => u.layer_id = li.id)).map UnderlineRow.toModel }
      : Layer))
  let editors := (editorsOrdered s workspaceID).map EditorRow.toModel
  .ok { WorkspaceID := workspaceID, Layers := modelLayers, Editors := editors }

/-- `cm.connections[workspaceID][clientID]`: the connection registered for a
client, if any. -/
def ConnectionManager.lookup (cm : ConnectionManager) (workspaceID clientID : String) :
    Option Conn :=
  (mapGet cm.connections workspaceID).bind (fun clients => mapGet clients clientID)

/-! ## Statement of the assertion contract -/

/-- The string held by a value of dynamic kind `string`. -/
def JVal.asString : JVal → Option String
  | .str s => some s
  | _ => none

/-- The number held by a value of dynamic kind `float64`. -/
def JVal.asFloat64 : JVal → Option ℚ
  | .num f => some f
  | _ => none

/-- The map held by a value of dynamic kind `map[string]interface{}`. -/
def JVal.asMap : JVal → Option Payload
  | .obj m => some m
  | _ => none

/-- The slice held by a value of dynamic kind `[]interface{}`. -/
def JVal.asSlice : JVal → Option (List JVal)
  | .arr xs => some xs
  | _ => none

/-- A string of ASCII characters, for which `goQuote` is the text that `%q`
prints. -/
def IsAscii (key : String) : Prop := ∀ c ∈ key.data, c.toNat < 128

/-- What an assertion for the kind selected by `proj` does, on every state and
without touching it: an absent key gives the error `key <quoted key>: missing`,
a value of another kind gives
`key <quoted key>: expected <kind>, got <type of the value>`, and a value of the
kind is returned as it is stored.  The quoted key is `goQuote key` when the key
is made of ASCII characters. -/
def AssertContract {α : Type} (assert : Payload → String → Go α)
    (proj : JVal → Option α) (kindName : String) : Prop :=
  ∀ (payload : Payload) (key : String),
    match mapGet payload key with
    | none => ∃ q, (IsAscii key → q = goQuote key) ∧
        assert payload key = Go.fail (.errorf ("key " ++ q ++ ": missing"))
    | some v =>
      match proj v with
      | some a => assert payload key = Go.pure a
      | none => ∃ q, (IsAscii key → q = goQuote key) ∧
          assert payload key = Go.fail (.errorf
            ("key " ++ q ++ ": expected " ++ kindName ++ ", got " ++ goTypeName v))

/-- The payload of `TestAssertString`. -/
def payloadNameNum : Payload := [("name", .str "hello"), ("num", .num 42)]

/-- Code that only validates: on every state it returns a value or a
`fmt.Errorf` error, and leaves the state as it was (no store call, no
panic). -/
def Validates {α : Type} (m : Go α) : Prop :=
  ∀ st, (∃ a, m st = (.ok a, st)) ∨ (∃ msg, m st = (.error (.errorf msg), st))

/-- Code that validates and then makes one store call: on every state it either
returns a `fmt.Errorf` error and leaves the state as it was, or it is one
store call and nothing else. -/
def ValidatesThenCalls (fk : Bool) (m : Go Unit) : Prop :=
  ∀ st, (∃ msg, m st = (.error (.errorf msg), st)) ∨ (∃ call, m st = storeCall fk call st)

/-- The position a layer row ends with when the loop of `ReorderLayers` runs
over it. -/
def layerPositionAfter (workspaceID : String) : Nat → List String → LayerRow → Int
  | _, [], r => r.position
  | position, layerID :: rest, r =>
    layerPositionAfter workspaceID (position + 1) rest
      (if r.id = layerID ∧ r.workspace_id = workspaceID then
        { r with position := (position : Int) } else r)

/-! ## Store operations under a failing driver

Every `Begin`, `Exec`, `Query`/`QueryRow`, `Scan`, `rows.Err()` and `Commit`
of `db.go` is a storage step.  The driver decides which steps fail: `faults n`
is the error of the `n`-th step of a call, if that step fails.  A step that
the driver lets through has the outcome it has in the operations above (a
constraint failure included).  A failed call leaves the database as it was
(single statement, or `defer tx.Rollback()`).  An iteration that `rows.Next()`
ends early is not represented. -/

/-- The driver's verdict on the storage steps of a call. -/
abbrev Faults := Nat → Option DbError

/-- The kinds of storage step: `Begin`, `Exec`, `Query` (with the rows it asks
for), `QueryRow(...).Scan`, `Scan` of one row, `rows.Err()` and `Commit`. -/
inductive StepKind where
  | begin
  | exec
  | query (what : String)
  | queryRow
  | scan
  | rowsErr
  | commit
deriving DecidableEq, Repr

/-- A failure on its way out of a store operation: the kind of the storage step
that failed, the error of that step, and the Go error the operation returns
for it. -/
structure StoreFailure where
  step : StepKind
  cause : DbError
  returned : GoError

/-- A store operation under a driver: from the number of storage steps taken so
far, a failure, or a value with the number of steps taken then. -/
abbrev Sql (α : Type) := StateT Nat (Except StoreFailure) α

/-- One storage step of the given kind, with outcome `r` when the driver lets it
through; its error is returned as it is (`return err`). -/
def Sql.step {α : Type} (faults : Faults) (kind : StepKind) (r : Except DbError α) : Sql α :=
  fun n =>
    match faults n with
    | some e => .error ⟨kind, e, .db e⟩
    | none =>
      match r with
      | .ok a => .ok (a, n + 1)
      | .error e => .error ⟨kind, e, .db e⟩

/-- `return nil, fmt.Errorf("<text>: %w", err)`: the error of `m` is returned
inside a new error whose text starts with `text`. -/
def Sql.wrap {α : Type} (text : String) (m : Sql α) : Sql α := fun n =>
  match m n with
  | .error x => .error ⟨x.step, x.cause, .errorf (text ++ x.returned.Error)⟩
  | .ok r => .ok r

/-- What the caller of a store operation gets. -/
def Sql.result {α : Type} (m : Sql α) : Except GoError α :=
  match m 0 with
  | .ok (a, _) => .ok a
  | .error x => .error x.returned

/-- The loop `for rows.Next() { rows.Scan(...) }`: one `Scan` per row. -/
def scanLoop {ρ : Type} (faults : Faults) : List ρ → Sql (List ρ)
  | [] => pure []
  | r :: rest => do
    let r1 ← Sql.step faults .scan (.ok r)
    let rs ← scanLoop faults rest
    pure (r1 :: rs)

/-- A scan loop followed by the check of `rows.Err()`. -/
def scanRows {ρ : Type} (faults : Faults) (rows : List ρ) : Sql (List ρ) := do
  let rs ← scanLoop faults rows
  Sql.step faults .rowsErr (.ok ())
  pure rs

/-- `EnsureWorkspace` under a driver: `QueryRow.Scan`, then for a new id `Begin`,
the two `INSERT`s and `Commit`. -/
def EnsureWorkspaceF (faults : Faults) (s : Store) (workspaceID : String) : Sql Store := do
  let found ← Sql.step faults .queryRow (.ok (s.workspace.find? (fun id => id = workspaceID)))
  match found with
  | some _ => pure s
  | none => do
    Sql.step faults .begin (.ok ())
    let s1 ← Sql.step faults .exec (insertWorkspace s workspaceID)
    let s2 ← Sql.step faults .exec (insertEditor s1 workspaceID 0 "Passage 1")
    Sql.step faults .commit (.ok ())
    pure s2

/-- The annotation queries of `GetWorkspaceState`, run when the workspace has a
layer: each `Query` error is wrapped, each `Scan` and `rows.Err()` error is
returned as it is. -/
def annotationRowsF (faults : Faults) (s : Store) (workspaceID : String) :
    Sql (List HighlightRow × List ArrowRow × List UnderlineRow) := do
  let h0 ← Sql.wrap "query highlights: "
    (Sql.step faults (.query "highlights") (.ok (highlightsJoined s workspaceID)))
  let hRows ← scanRows faults h0
  let a0 ← Sql.wrap "query arrows: "
    (Sql.step faults (.query "arrows") (.ok (arrowsJoined s workspaceID)))
  let aRows ← scanRows faults a0
  let u0 ← Sql.wrap "query underlines: "
    (Sql.step faults (.query "underlines") (.ok (underlinesJoined s workspaceID)))
  let uRows ← scanRows faults u0
  pure (hRows, aRows, uRows)

/-- `GetWorkspaceState` under a driver. -/
def GetWorkspaceStateF (faults : Faults) (s : Store) (workspaceID : String) :
    Sql WorkspaceState := do
  let l0 ← Sql.wrap "query layers: "
    (Sql.step faults (.query "layers") (.ok (layersOrdered s workspaceID)))
  let layers ← scanRows faults l0
  let layerIDs := layers.map (·.id)
  let rows ← if layerIDs.length > 0 then annotationRowsF faults s workspaceID
    else pure ([], [], [])
  let modelLayers := layers.map (fun li =>
    ({ ID := li.id, Name := li.name, Color := li.color, Visible := li.visible,
       Highlights := (rows.1.filter (fun h => h.layer_id = li.id)).map HighlightRow.toModel,
       Arrows := (rows.2.1.filter (fun a => a.layer_id = li.id)).map ArrowRow.toModel,
       Underlines := (rows.2.2.filter (fun u => u.layer_id = li.id)).map UnderlineRow.toModel }
      : Layer))
  let e0 ← Sql.wrap "query editors: "
    (Sql.step faults (.query "editors") (.ok (editorsOrdered s workspaceID)))
  let editorRows ← scanRows faults e0
  pure { WorkspaceID := workspaceID, Layers := modelLayers,
         Editors := editorRows.map EditorRow.toModel }

/-- The loop of `ReorderLayers` under a driver: one `Exec` per listed id. -/
def reorderLayersLoopF (faults : Faults) (workspaceID : String) :
    Nat → List String → List LayerRow → Sql (List LayerRow)
  | _, [], rows => pure rows
  | position, layerID :: rest, rows => do
    let rows1 ← Sql.step faults .exec (.ok (setPosition position layerID workspaceID rows))
    reorderLayersLoopF faults workspaceID (position + 1) rest rows1

/-- `ReorderLayers` under a driver: `Begin`, the loop, `Commit`. -/
def ReorderLayersF (faults : Faults) (s : Store) (workspaceID : String)
    (layerIDs : List String) : Sql Store := do
  Sql.step faults .begin (.ok ())
  let rows ← reorderLayersLoopF faults workspaceID 0 layerIDs s.layer
  Sql.step faults .commit (.ok ())
  pure { s with layer := rows }

/-- The re-indexing loop of `RemoveEditor` under a driver. -/
def reindexLoopF (faults : Faults) : Nat → List Nat → List EditorRow → Sql (List EditorRow)
  | _, [], rows => pure rows
  | newIndex, id :: rest, rows => do
    let rows1 ← Sql.step faults .exec (.ok (setIndexPos newIndex id rows))
    reindexLoopF faults (newIndex + 1) rest rows1

/-- `RemoveEditor` under a driver: `Begin`, the `DELETE`, the `Query`, one `Scan`
per row, the loop, `Commit`. -/
def RemoveEditorF (faults : Faults) (s : Store) (workspaceID : String) (index : Int) :
    Sql Store := do
  Sql.step faults .begin (.ok ())
  let s1 ← Sql.step faults .exec (.ok (deleteEditorsAt s workspaceID index))
  let rows ← Sql.step faults (.query "editors") (.ok (editorsOrdered s1 workspaceID))
  let editorIDs ← scanLoop faults (rows.map (·.id))
  let rows2 ← reindexLoopF faults 0 editorIDs s1.editor
  Sql.step faults .commit (.ok ())
  pure { s1 with editor := rows2 }

/-- The loop of `ReorderEditors` under a driver: one `Exec` per entry the map
holds. -/
def reorderEditorsLoopF (faults : Faults) (byIndex : List (Int × Nat)) :
    Nat → List Int → List EditorRow → Sql (List EditorRow)
  | _, [], rows => pure rows
  | newPos, oldIndex :: rest, rows =>
    match mapGet byIndex oldIndex with
    | none => reorderEditorsLoopF faults byIndex (newPos + 1) rest rows
    | some id => do
      let rows1 ← Sql.step faults .exec (.ok (setIndexPos newPos id rows))
      reorderEditorsLoopF faults byIndex (newPos + 1) rest rows1

/-- `ReorderEditors` under a driver: `Begin`, the `Query`, one `Scan` per row, the
loop, `Commit`. -/
def ReorderEditorsF (faults : Faults) (s : Store) (workspaceID : String)
    (editorIndices : List Int) : Sql Store := do
  Sql.step faults .begin (.ok ())
  let rows ← Sql.step faults (.query "editors") (.ok (editorsOrdered s workspaceID))
  let scanned ← scanLoop faults rows
  let rows2 ← reorderEditorsLoopF faults (editorByIndex scanned) 0 editorIndices s.editor
  Sql.step faults .commit (.ok ())
  pure { s with editor := rows2 }

/-- A store call under a driver.  `AddLayer` takes two steps (`QueryRow.Scan`,
`Exec`), the transactions are above, every other call is one `Exec`. -/
def StoreCall.runF (faults : Faults) (fk : Bool) (database : Store) : StoreCall → Sql Store
  | .addLayer w l n c => do
    let position ← Sql.step faults .queryRow (.ok (nextLayerPosition database w))
    Sql.step faults .exec (insertLayer database l w n c position)
  | .removeLayer w l => Sql.step faults .exec (RemoveLayer fk database w l)
  | .updateLayerName w l n => Sql.step faults .exec (UpdateLayerName database w l n)
  | .updateLayerColor w l c => Sql.step faults .exec (UpdateLayerColor database w l c)
  | .toggleLayerVisibility w l => Sql.step faults .exec (ToggleLayerVisibility database w l)
  | .reorderLayers w ls => ReorderLayersF faults database w ls
  | .addHighlight l h e f t x a => Sql.step faults .exec (AddHighlight fk database l h e f t x a)
  | .removeHighlight l h => Sql.step faults .exec (RemoveHighlight database l h)
  | .updateHighlightNote l h a => Sql.step faults .exec ( UpdateHighlightAnnotation database l h a)
  | .addArrow l a fe fs fn ft te ts tn tt =>
    Sql.step faults .exec (AddArrow fk database l a fe fs fn ft te ts tn tt)
  | .removeArrow l a => Sql.step faults .exec (RemoveArrow database l a)
  | .updateArrowStyle l a st => Sql.step faults .exec (UpdateArrowStyle database l a st)
  | .addUnderline l u e f t x => Sql.step faults .exec (AddUnderline fk database l u e f t x)
  | .removeUnderline l u => Sql.step faults .exec (RemoveUnderline database l u)
  | .addEditor w i n => Sql.step faults .exec (AddEditor database w i n)
  | .removeEditor w i => RemoveEditorF faults database w i
  | .updateSectionName w i n => Sql.step faults .exec (UpdateSectionName database w i n)
  | .toggleSectionVisibility w i => Sql.step faults .exec (ToggleSectionVisibility database w i)
  | .reorderEditors w p => ReorderEditorsF faults database w p
  | .updateEditorContent w i c => Sql.step faults .exec (UpdateEditorContent database w i c)

/-- Every failure of the operation is returned as the error of the step that
failed. -/
def Unmodified {α : Type} (m : Sql α) : Prop :=
  ∀ n x, m n = .error x → x.returned = GoError.db x.cause

/-- The failures of `GetWorkspaceState`: the step that failed is a `Scan` or a
`rows.Err()`, and its error is returned as it is; or it is one of the five
queries, and its error is returned inside an error whose text is `query `, the
name of the rows asked for, `: ` and the text of that error. -/
def WrapsQueryErrors {α : Type} (m : Sql α) : Prop :=
  ∀ n x, m n = .error x →
    ((x.step = .scan ∨ x.step = .rowsErr) ∧ x.returned = GoError.db x.cause) ∨
    (∃ what ∈ ["layers", "highlights", "arrows", "underlines", "editors"],
      x.step = .query what ∧
      x.returned = GoError.errorf ("query " ++ what ++ ": " ++ x.cause.Error))

/-- The failures of `GetWorkspaceState` read by the kind of the step that
failed: the error of a failed `Scan` or `rows.Err()` is returned as it is, the
error of a failed `Query` is returned inside an error with the text of that
query, and no step of another kind fails. -/
def WrapsQueryErrorsOnly {α : Type} (m : Sql α) : Prop :=
  ∀ n x, m n = .error x →
    ((x.step = .scan ∨ x.step = .rowsErr) → x.returned = GoError.db x.cause) ∧
    (∀ what, x.step = .query what →
      x.returned = GoError.errorf ("query " ++ what ++ ": " ++ x.cause.Error)) ∧
    x.step ≠ .begin ∧ x.step ≠ .exec ∧ x.step ≠ .queryRow ∧ x.step ≠ .commit

/-- No failed step is passed over: when the operation returns a value, the
driver has let through every step the operation took. -/
def NothingSwallowed {α : Type} (faults : Faults) (m : Sql α) : Prop :=
  ∀ n a n1, m n = .ok (a, n1) → n ≤ n1 ∧ ∀ k, n ≤ k → k < n1 → faults k = none

/-- The driver that fails the first step with a disk error. -/
def firstStepFails : Faults
  | 0 => some (.driver "disk I/O error")
  | _ => none

/-- The driver that fails step `k` of a call, and no other, with a disk
error. -/
def failsAt (k : Nat) : Faults :=
  fun n => if n = k then some (.driver "disk I/O error") else none


/-- The driver that fails no step. -/
def noFaults : Faults := fun _ => none

/-- The operation returns the value `a` from every step count. -/
def Sql.Returns {α : Type} (m : Sql α) (a : α) : Prop :=
  ∀ n, ∃ n1, m n = .ok (a, n1)


/-- A failure of the operation comes from the first step the driver fails: when
the operation fails, some step `k` is the one that failed, the driver has let
through every step before it, and if the driver fails step `k` with `e` then
`e` is the cause of the failure. -/
def FailsAtFirstFault {α : Type} (faults : Faults) (m : Sql α) : Prop :=
  ∀ n x, m n = .error x →
    ∃ k, n ≤ k ∧ (∀ j, n ≤ j → j < k → faults j = none) ∧ ∀ e, faults k = some e → x.cause = e


/-- An `addHighlight` payload with no `text` and with an `annotation` that is a
number. -/
def addHighlightPayloadNoText : Payload :=
  [("layerId", .str "l1"),
   ("highlight", .obj [("id", .str "h9"), ("editorIndex", .num 0), ("from", .num 1),
      ("to", .num 5), ("annotation", .num 7)])]


/-- Place in the list of the last entry that the map sends to row `id`, if there
is one: the last `UPDATE` that the loop of `ReorderEditors` runs on that row. -/
def lastEntryFor (byIndex : List (Int × Nat)) (id : Nat) : List Int → Option Nat
  | [] => none
  | k :: rest =>
    match lastEntryFor byIndex id rest with
    | some j => some (j + 1)
    | none => if mapGet byIndex k = some id then some 0 else none


/-- Workspace `ws1` with a gap and a repeated index (editors at 0, 3, 3), and
workspace `ws2` with one editor at index 7. -/
def storeGappedEditors : Store :=
  { Store.empty with
    workspace := ["ws1", "ws2"],
    editor := [⟨1, "ws1", 0, "Passage 1", true, none⟩,
               ⟨2, "ws1", 3, "Passage 2", true, none⟩,
               ⟨3, "ws1", 3, "Passage 3", false, none⟩,
               ⟨4, "ws2", 7, "Passage 1", true, none⟩],
    editor_seq := 4 }


/-- Workspace `ws1` with layers `l1`, `l2` and workspace `ws2` with layer `m1`. -/
def storeTwoWorkspaceLayers : Store :=
  { Store.empty with
    workspace := ["ws1", "ws2"],
    layer := [⟨"l1", "ws1", "Layer 1", "#ff0000", true, 0⟩,
              ⟨"l2", "ws1", "Layer 2", "#00ff00", true, 1⟩,
              ⟨"m1", "ws2", "Other", "#0000ff", true, 0⟩],
    highlight := [⟨"hl1", "m1", 0, 10, 20, "text", "", "highlight"⟩] }


/-! ## The whole session (`HandleWebSocket` after `Upgrade`) -/

/-- The smallest power of two `unit`, from the one given on, with
`a < 2^53 * unit`: the spacing of the `float64` values around `a`. -/
def float64Unit : Nat → Nat → Nat → Nat
  | 0, _, unit => unit
  | fuel + 1, a, unit =>
    if a < 9007199254740992 * unit then unit else float64Unit fuel a (2 * unit)

/-- The `float64` that the decimal text of an `int` decodes to: the integer
itself up to `2^53` in size, beyond that the nearest multiple of the spacing,
the one with the even mantissa when two are as near (`2^53 + 1` gives `2^53`).
A 64-bit `int` is far from the largest `float64`, so there is no overflow. -/
def float64OfInt (n : Int) : ℚ :=
  let a := n.natAbs
  let unit := float64Unit a a 1
  let q := a / unit
  let r := a % unit
  let q1 := if unit < 2 * r ∨ (2 * r = unit ∧ q % 2 = 1) then q + 1 else q
  if n < 0 then -(((q1 * unit : Nat) : Int) : ℚ) else (((q1 * unit : Nat) : Int) : ℚ)

/-- The JSON object of a `models.Highlight` after the round trip of
`structToMap`; `type` is `omitempty`. -/
def Highlight.toJSON (h : Highlight) : JVal :=
  .obj ([("id", JVal.str h.ID), ("editorIndex", JVal.num (float64OfInt h.EditorIndex)),
         ("from", JVal.num (float64OfInt h.From)), ("to", JVal.num (float64OfInt h.To)),
         ("text", JVal.str h.Text),
         ("annotation", JVal.str h.Note)]
    ++ (if h.Kind = "" then [] else [("type", JVal.str h.Kind)]))

/-- The JSON object of a `models.ArrowEndpoint`. -/
def ArrowEndpoint.toJSON (p : ArrowEndpoint) : JVal :=
  .obj [("editorIndex", JVal.num (float64OfInt p.EditorIndex)),
        ("from", JVal.num (float64OfInt p.From)),
        ("to", JVal.num (float64OfInt p.To)), ("text", JVal.str p.Text)]

/-- The JSON object of a `models.Arrow`; `arrowStyle` is `omitempty`. -/
def Arrow.toJSON (a : Arrow) : JVal :=
  .obj ([("id", JVal.str a.ID), ("from", a.From.toJSON), ("to", a.To.toJSON)]
    ++ (if a.ArrowStyle = "" then [] else [("arrowStyle", JVal.str a.ArrowStyle)]))

/-- The JSON object of a `models.Underline`. -/
def Underline.toJSON (u : Underline) : JVal :=
  .obj [("id", JVal.str u.ID), ("editorIndex", JVal.num (float64OfInt u.EditorIndex)),
        ("from", JVal.num (float64OfInt u.From)), ("to", JVal.num (float64OfInt u.To)),
        ("text", JVal.str u.Text)]

/-- The JSON object of a `models.Layer`; its three slices are never nil. -/
def Layer.toJSON (l : Layer) : JVal :=
  .obj [("id", JVal.str l.ID), ("name", JVal.str l.Name), ("color", JVal.str l.Color),
        ("visible", JVal.bool l.Visible),
        ("highlights", JVal.arr (l.Highlights.map Highlight.toJSON)),
        ("arrows", JVal.arr (l.Arrows.map Arrow.toJSON)),
        ("underlines", JVal.arr (l.Underlines.map Underline.toJSON))]

/-- The JSON object of a `models.Editor`. -/
def Editor.toJSON (e : Editor) : JVal :=
  .obj [("index", JVal.num (float64OfInt e.Index)), ("name", JVal.str e.Name),
        ("visible", JVal.bool e.Visible), ("contentJson", e.ContentJSON)]

/-- `structToMap(state)`: the state marshalled and decoded again into a map.
Neither step fails on a state that `GetWorkspaceState` returns.  Every number
comes back as a `float64`, so an integer field is rounded by `float64OfInt`;
the content of an editor is made of decoded values already. -/
def structToMap (state : WorkspaceState) : Except GoError Payload :=
  .ok [("workspaceId", JVal.str state.WorkspaceID),
       ("layers", JVal.arr (state.Layers.map Layer.toJSON)),
       ("editors", JVal.arr (state.Editors.map Editor.toJSON))]

/-- The read loop of `HandleWebSocket` over the reads the connection gives, in
order; `pool i` is the flag of the pooled connection that serves the store
call for the `i`-th read from `i` on.  The loop breaks at the first read
error, and the session is still `Active` when the reads given are used up. -/
def readLoop (dead : Conn → Bool) (pool : Nat → Bool) (ss : Session) :
    Nat → Server → List ReadResult → Server × Phase × List Event
  | _, w, [] => (w, .Active, [])
  | i, w, r :: rest =>
    match readLoopStep dead (pool i) ss w r with
    | (w1, .Closed, events) => (w1, .Closed, events)
    | (w1, _, events) =>
      match readLoop dead pool ss (i + 1) w1 rest with
      | (w2, phase, events2) => (w2, phase, events ++ events2)

/-- The deferred calls of `HandleWebSocket`, run when it returns: `Disconnect`,
then `conn.Close()`. -/
def sessionReturn (database : Store) (cm : ConnectionManager) (ss : Session)
    (events : List Event) : Server × Phase × List Event :=
  ({ db := database, cm := cm.Disconnect ss.workspaceID ss.clientID }, .Closed,
    events ++ [.close ss.conn])

/-- `HandleWebSocket` from the successful `Upgrade` on: `Connect` (`clientID` is
the id it draws), `EnsureWorkspace` and `GetWorkspaceState` under the drivers
`faultsE` and `faultsG`, `structToMap`, the `state` message, then the read
loop, whose store calls are served by the pooled connections `pool`.  A
failure before the loop returns, which runs the deferred calls. -/
def HandleWebSocket (faultsE faultsG : Faults) (dead : Conn → Bool) (pool : Nat → Bool)
    (w : Server) (workspaceID : String) (conn : Conn) (clientID : String)
    (reads : List ReadResult) : Server × Phase × List Event :=
  let cm1 := (w.cm.Connect workspaceID conn clientID).1
  let ss : Session := ⟨workspaceID, clientID, conn⟩
  match (EnsureWorkspaceF faultsE w.db workspaceID).result with
  | .error _ => sessionReturn w.db cm1 ss []
  | .ok db1 =>
    match (GetWorkspaceStateF faultsG db1 workspaceID).result with
    | .error _ => sessionReturn db1 cm1 ss []
    | .ok state =>
      match structToMap state with
      | .error _ => sessionReturn db1 cm1 ss []
      | .ok statePayload =>
        match cm1.SendTo dead workspaceID clientID
            { Type_ := "state", Payload := statePayload } with
        | (some _, events) => sessionReturn db1 cm1 ss events
        | (none, events) =>
          match readLoop dead pool ss 0 ⟨db1, cm1⟩ reads with
          | (w2, phase, events2) => (w2, phase, events ++ events2)

/-! # Theorems -/

/-! ## Lists: positions in a duplicate-free list -/

theorem map_indexOf_self {α : Type} [DecidableEq α] (l : List α) (h : l.Nodup) :
    l.map (fun a => l.indexOf a) = List.range l.length := by
  apply List.ext_getElem
  · simp
  · intro i h1 h2
    simp only [List.getElem_map, List.getElem_range]
    exact List.indexOf_getElem h i _

theorem perm_map_indexOf {α : Type} [DecidableEq α] (l ids : List α) (hperm : ids.Perm l)
    (h : ids.Nodup) : (l.map (fun a => ids.indexOf a)).Perm (List.range ids.length) := by
  have h1 : (l.map (fun a => ids.indexOf a)).Perm (ids.map (fun a => ids.indexOf a)) :=
    List.Perm.map _ hperm.symm
  rw [map_indexOf_self ids h] at h1
  exact h1

/-! ## Layer reordering -/

theorem setPosition_eq_map (position : Int) (layerID ws : String) (rows : List LayerRow) :
    setPosition position layerID ws rows = rows.map (fun r =>
      if r.id = layerID ∧ r.workspace_id = ws then { r with position := position } else r) := rfl

/-- The loop of `ReorderLayers` over a duplicate-free list gives each listed
layer of the workspace its place in the list. -/
theorem reorderLayersLoop_eq (ws : String) (ids : List String) (hnd : ids.Nodup) :
    ∀ (pos : Nat) (rows : List LayerRow),
      reorderLayersLoop ws pos ids rows = rows.map (fun r =>
        if r.workspace_id = ws ∧ r.id ∈ ids then
          { r with position := ((pos + ids.indexOf r.id : Nat) : Int) }
        else r) := by
  induction ids with
  | nil => intro pos rows; simp [reorderLayersLoop]
  | cons a rest ih =>
    intro pos rows
    have hnd1 : rest.Nodup := (List.nodup_cons.mp hnd).2
    have ha : a ∉ rest := (List.nodup_cons.mp hnd).1
    rw [reorderLayersLoop, ih hnd1, setPosition_eq_map, List.map_map]
    apply List.map_congr_left
    intro r _
    simp only [Function.comp]
    by_cases h1 : r.id = a
    · by_cases h2 : r.workspace_id = ws
      · have : a ∉ rest := ha
        simp [h1, h2, this]
      · simp [h1, h2]
    · by_cases h2 : r.workspace_id = ws
      · by_cases h3 : r.id ∈ rest
        · have h4 : a ≠ r.id := fun h => h1 h.symm
          simp [h1, h2, h3, List.indexOf_cons_ne _ h4]
          omega
        · simp [h1, h2, h3]
      · simp [h1, h2]

theorem layer_eq_of_id_eq (rows : List LayerRow) (hpk : (rows.map (·.id)).Nodup)
    (r1 r2 : LayerRow) (h1 : r1 ∈ rows) (h2 : r2 ∈ rows) (h : r1.id = r2.id) : r1 = r2 :=
  List.inj_on_of_nodup_map hpk h1 h2 h

theorem nodup_ids_of_workspace (rows : List LayerRow) (ws : String)
    (hpk : (rows.map (·.id)).Nodup) :
    ((rows.filter (fun r => r.workspace_id = ws)).map (·.id)).Nodup :=
  List.Nodup.sublist (List.Sublist.map _ (List.filter_sublist rows)) hpk

/-- C1: when the ids of the layer table are distinct (primary key) and `L` is a
permutation of the ids of the layers of workspace `ws`, `ReorderLayers ws L`
succeeds, afterwards the layer `L[i]` exists, belongs to `ws` and has position
`i`, for every `i`, and the positions of the layers of `ws` are `0..n-1`. -/
theorem reorderLayers_sets_positions (s : Store) (ws : String) (L : List String)
    (hpk : (s.layer.map (·.id)).Nodup)
    (hperm : L.Perm ((s.layer.filter (fun r => r.workspace_id = ws)).map (·.id))) :
    ∃ s1, ReorderLayers s ws L = .ok s1 ∧
      (∀ (i : Nat) (hi : i < L.length),
        (∃ r ∈ s1.layer, r.id = L[i]) ∧
        (∀ r ∈ s1.layer, r.id = L[i] → r.workspace_id = ws ∧ r.position = (i : Int))) ∧
      ((s1.layer.filter (fun r => r.workspace_id = ws)).map (·.position)).Perm
        ((List.range L.length).map Int.ofNat) := by
  have hL : L.Nodup := (hperm.nodup_iff).mpr (nodup_ids_of_workspace s.layer ws hpk)
  refine ⟨_, rfl, ?_, ?_⟩
  · intro i hi
    have hmem : L[i] ∈ (s.layer.filter (fun r => r.workspace_id = ws)).map (·.id) :=
      hperm.subset (List.getElem_mem hi)
    obtain ⟨r0, hr0, hid0⟩ := List.mem_map.mp hmem
    have hr0s : r0 ∈ s.layer := (List.mem_filter.mp hr0).1
    have hr0w : r0.workspace_id = ws := by simpa using (List.mem_filter.mp hr0).2
    simp only [reorderLayersLoop_eq ws L hL]
    constructor
    · refine ⟨_, List.mem_map.mpr ⟨r0, hr0s, rfl⟩, ?_⟩
      split <;> simpa using hid0
    · intro r hr hid
      obtain ⟨r1, hr1, rfl⟩ := List.mem_map.mp hr
      have hid1 : r1.id = L[i] := by
        split at hid <;> simpa using hid
      have : r1 = r0 := layer_eq_of_id_eq s.layer hpk r1 r0 hr1 hr0s (hid1.trans hid0.symm)
      subst this
      have hin : r1.id ∈ L := hid1 ▸ List.getElem_mem hi
      simp only [hr0w, hin, and_self, if_true, true_and]
      have := List.indexOf_getElem hL i hi
      simp [hid1, this]
  · simp only [reorderLayersLoop_eq ws L hL]
    have hfm : (s.layer.map (fun r =>
          if r.workspace_id = ws ∧ r.id ∈ L then
            { r with position := ((0 + L.indexOf r.id : Nat) : Int) }
          else r)).filter (fun r => r.workspace_id = ws)
        = (s.layer.filter (fun r => r.workspace_id = ws)).map (fun r =>
          { r with position := ((L.indexOf r.id : Nat) : Int) }) := by
      rw [List.filter_map]
      have hc : ((fun r : LayerRow => decide (r.workspace_id = ws)) ∘ (fun r =>
          if r.workspace_id = ws ∧ r.id ∈ L then
            { r with position := ((0 + L.indexOf r.id : Nat) : Int) }
          else r)) = (fun r : LayerRow => decide (r.workspace_id = ws)) := by
        funext r
        simp only [Function.comp]
        split <;> rfl
      rw [hc]
      apply List.map_congr_left
      intro r hr
      have hw : r.workspace_id = ws := by simpa using (List.mem_filter.mp hr).2
      have hin : r.id ∈ L := hperm.symm.subset (List.mem_map.mpr ⟨r, hr, rfl⟩)
      simp [hw, hin]
    rw [hfm, List.map_map]
    have h2 := perm_map_indexOf
      ((s.layer.filter (fun r => r.workspace_id = ws)).map (·.id)) L hperm hL
    have h3 := List.Perm.map Int.ofNat h2
    simpa [List.map_map, Function.comp] using h3

theorem reorderLayers_sets_positions_witness :
    (storeThreeLayers.layer.map (·.id)).Nodup ∧
    ["l3", "l1", "l2"].Perm
      ((storeThreeLayers.layer.filter (fun r => r.workspace_id = "ws1")).map (·.id)) ∧
    ∃ s1, ReorderLayers storeThreeLayers "ws1" ["l3", "l1", "l2"] = .ok s1 ∧
      (∀ (i : Nat) (hi : i < ["l3", "l1", "l2"].length),
        (∃ r ∈ s1.layer, r.id = ["l3", "l1", "l2"][i]) ∧
        (∀ r ∈ s1.layer, r.id = ["l3", "l1", "l2"][i] →
          r.workspace_id = "ws1" ∧ r.position = (i : Int))) ∧
      ((s1.layer.filter (fun r => r.workspace_id = "ws1")).map (·.position)).Perm
        ((List.range ["l3", "l1", "l2"].length).map Int.ofNat) :=
  ⟨by decide, by decide,
    reorderLayers_sets_positions storeThreeLayers "ws1" ["l3", "l1", "l2"]
      (by decide) (by decide)⟩


/-! ## Editor re-indexing -/

theorem setIndexPos_eq_map (newIndex : Int) (id : Nat) (rows : List EditorRow) :
    setIndexPos newIndex id rows =
      rows.map (fun e => if e.id = id then { e with index_pos := newIndex } else e) := rfl

/-- The loop of `RemoveEditor` over a duplicate-free list of row ids gives each
listed row its place in the list. -/
theorem reindexLoop_eq (ids : List Nat) (hnd : ids.Nodup) :
    ∀ (pos : Nat) (rows : List EditorRow),
      reindexLoop pos ids rows = rows.map (fun e =>
        if e.id ∈ ids then { e with index_pos := ((pos + ids.indexOf e.id : Nat) : Int) }
        else e) := by
  induction ids with
  | nil => intro pos rows; simp [reindexLoop]
  | cons a rest ih =>
    intro pos rows
    have hnd1 : rest.Nodup := (List.nodup_cons.mp hnd).2
    have ha : a ∉ rest := (List.nodup_cons.mp hnd).1
    rw [reindexLoop, ih hnd1, setIndexPos_eq_map, List.map_map]
    apply List.map_congr_left
    intro e _
    simp only [Function.comp]
    by_cases h1 : e.id = a
    · simp [h1, ha]
    · by_cases h3 : e.id ∈ rest
      · have h4 : a ≠ e.id := fun h => h1 h.symm
        simp [h1, h3, List.indexOf_cons_ne _ h4]
        omega
      · simp [h1, h3]

theorem editor_eq_of_id_eq (rows : List EditorRow) (hpk : (rows.map (·.id)).Nodup)
    (e1 e2 : EditorRow) (h1 : e1 ∈ rows) (h2 : e2 ∈ rows) (h : e1.id = e2.id) : e1 = e2 :=
  List.inj_on_of_nodup_map hpk h1 h2 h

/-- Ids of the rows of one workspace read in `index_pos` order. -/
theorem orderedIds_perm (s : Store) (ws : String) :
    ((editorsOrdered s ws).map (·.id)).Perm
      ((s.editor.filter (fun e => e.workspace_id = ws)).map (·.id)) :=
  List.Perm.map _ (List.perm_insertionSort _ _)

theorem orderedIds_nodup (s : Store) (ws : String) (hpk : (s.editor.map (·.id)).Nodup) :
    ((editorsOrdered s ws).map (·.id)).Nodup :=
  ((orderedIds_perm s ws).nodup_iff).mpr
    (List.Nodup.sublist (List.Sublist.map _ (List.filter_sublist s.editor)) hpk)

theorem mem_orderedIds_iff (s : Store) (ws : String) (hpk : (s.editor.map (·.id)).Nodup)
    (e : EditorRow) (he : e ∈ s.editor) :
    e.id ∈ (editorsOrdered s ws).map (·.id) ↔ e.workspace_id = ws := by
  constructor
  · intro h
    obtain ⟨e1, he1, hid⟩ := List.mem_map.mp ((orderedIds_perm s ws).subset h)
    have h1 : e1 ∈ s.editor := (List.mem_filter.mp he1).1
    have h2 : e1.workspace_id = ws := by simpa using (List.mem_filter.mp he1).2
    have := editor_eq_of_id_eq s.editor hpk e1 e h1 he hid
    rw [← this]; exact h2
  · intro h
    apply (orderedIds_perm s ws).symm.subset
    exact List.mem_map.mpr ⟨e, List.mem_filter.mpr ⟨he, by simpa using h⟩, rfl⟩


theorem deleteEditorsAt_nodup (s : Store) (ws : String) (index : Int)
    (hpk : (s.editor.map (·.id)).Nodup) :
    ((deleteEditorsAt s ws index).editor.map (·.id)).Nodup :=
  List.Nodup.sublist (List.Sublist.map _ (List.filter_sublist s.editor)) hpk

/-- `RemoveEditor` in closed form: the rows that survive the `DELETE` keep
their order in the table; those of the workspace get as `index_pos` their
rank among the surviving rows of the workspace in `index_pos` order. -/
theorem removeEditor_eq (s : Store) (ws : String) (index : Int)
    (hpk : (s.editor.map (·.id)).Nodup) :
    RemoveEditor s ws index = .ok { deleteEditorsAt s ws index with
      editor := renumbered (deleteEditorsAt s ws index) ws } := by
  have hpk1 := deleteEditorsAt_nodup s ws index hpk
  have hnd := orderedIds_nodup (deleteEditorsAt s ws index) ws hpk1
  unfold RemoveEditor renumbered rankOf
  simp only [reindexLoop_eq _ hnd]
  congr 2
  apply List.map_congr_left
  intro e he
  have := mem_orderedIds_iff (deleteEditorsAt s ws index) ws hpk1 e he
  by_cases h : e.workspace_id = ws
  · simp [h, this.mpr h]
  · have h1 : ¬ e.id ∈ (editorsOrdered (deleteEditorsAt s ws index) ws).map (·.id) :=
      fun hc => h (this.mp hc)
    simp only [h, if_false]
    rw [if_neg h1]

theorem renumbered_filter_same (s : Store) (ws : String) :
    (renumbered s ws).filter (fun e => e.workspace_id = ws) =
      (s.editor.filter (fun e => e.workspace_id = ws)).map (fun e =>
        { e with index_pos := ((rankOf s ws e : Nat) : Int) }) := by
  unfold renumbered
  rw [List.filter_map]
  have hc : ((fun e : EditorRow => decide (e.workspace_id = ws)) ∘ (fun e =>
      if e.workspace_id = ws then { e with index_pos := ((rankOf s ws e : Nat) : Int) } else e))
      = (fun e : EditorRow => decide (e.workspace_id = ws)) := by
    funext e
    simp only [Function.comp]
    split <;> rfl
  rw [hc]
  apply List.map_congr_left
  intro e he
  have hw : e.workspace_id = ws := by simpa using (List.mem_filter.mp he).2
  simp [hw]

theorem renumbered_filter_other (s : Store) (ws ws1 : String) (hne : ws1 ≠ ws) :
    (renumbered s ws).filter (fun e => e.workspace_id = ws1) =
      s.editor.filter (fun e => e.workspace_id = ws1) := by
  unfold renumbered
  rw [List.filter_map]
  have hc : ((fun e : EditorRow => decide (e.workspace_id = ws1)) ∘ (fun e =>
      if e.workspace_id = ws then { e with index_pos := ((rankOf s ws e : Nat) : Int) } else e))
      = (fun e : EditorRow => decide (e.workspace_id = ws1)) := by
    funext e
    simp only [Function.comp]
    split <;> rfl
  rw [hc]
  conv_rhs => rw [← List.map_id (List.filter (fun e => decide (e.workspace_id = ws1)) s.editor)]
  apply List.map_congr_left
  intro e he
  have hw : e.workspace_id = ws1 := by simpa using (List.mem_filter.mp he).2
  have : ¬ e.workspace_id = ws := fun h => hne (hw.symm.trans h)
  simp [this]

theorem renumbered_ids (s : Store) (ws : String) :
    (renumbered s ws).map (·.id) = s.editor.map (·.id) := by
  unfold renumbered
  rw [List.map_map]
  apply List.map_congr_left
  intro e _
  simp only [Function.comp]
  split <;> rfl

theorem renumbered_workspaces (s : Store) (ws : String) :
    (renumbered s ws).map (·.workspace_id) = s.editor.map (·.workspace_id) := by
  unfold renumbered
  rw [List.map_map]
  apply List.map_congr_left
  intro e _
  simp only [Function.comp]
  split <;> rfl

/-- After the re-indexing the `index_pos` values of the workspace are `0..m-1`. -/
theorem renumbered_contiguous (s : Store) (ws : String) (hpk : (s.editor.map (·.id)).Nodup) :
    (((renumbered s ws).filter (fun e => e.workspace_id = ws)).map (·.index_pos)).Perm
      ((List.range (s.editor.filter (fun e => e.workspace_id = ws)).length).map Int.ofNat) := by
  rw [renumbered_filter_same, List.map_map]
  have hnd := orderedIds_nodup s ws hpk
  have h2 := perm_map_indexOf
    ((s.editor.filter (fun e => e.workspace_id = ws)).map (·.id))
    ((editorsOrdered s ws).map (·.id)) (orderedIds_perm s ws) hnd
  have hlen : ((editorsOrdered s ws).map (·.id)).length =
      (s.editor.filter (fun e => e.workspace_id = ws)).length := by
    simpa using (orderedIds_perm s ws).length_eq
  rw [hlen] at h2
  have h3 := List.Perm.map Int.ofNat h2
  simpa [List.map_map, Function.comp, rankOf] using h3

/-- In a list sorted by `index_pos` with distinct ids, a row with a smaller
`index_pos` stands before a row with a larger one. -/
theorem indexOf_lt_of_sorted (l : List EditorRow)
    (hs : l.Pairwise (fun a b => a.index_pos ≤ b.index_pos))
    (hnd : (l.map (·.id)).Nodup) (a b : EditorRow) (ha : a ∈ l) (hb : b ∈ l)
    (hlt : a.index_pos < b.index_pos) :
    (l.map (·.id)).indexOf a.id < (l.map (·.id)).indexOf b.id := by
  induction l with
  | nil => simp at ha
  | cons x xs ih =>
    have hx : ∀ y ∈ xs, x.index_pos ≤ y.index_pos := (List.pairwise_cons.mp hs).1
    have hxs := (List.pairwise_cons.mp hs).2
    have hnx : x.id ∉ xs.map (·.id) := (List.nodup_cons.mp hnd).1
    have hnd1 : (xs.map (·.id)).Nodup := (List.nodup_cons.mp hnd).2
    have hbx : b ≠ x := by
      rintro rfl
      rcases List.mem_cons.mp ha with h | h
      · rw [h] at hlt; exact lt_irrefl _ hlt
      · exact absurd (hx a h) (not_le.mpr hlt)
    have hb1 : b ∈ xs := (List.mem_cons.mp hb).resolve_left hbx
    have hbid : x.id ≠ b.id := fun h => hnx (h ▸ List.mem_map.mpr ⟨b, hb1, rfl⟩)
    rcases List.mem_cons.mp ha with h | h
    · subst h
      simp only [List.map_cons, List.indexOf_cons_self]
      rw [List.indexOf_cons_ne _ hbid]
      exact Nat.succ_pos _
    · have haid : x.id ≠ a.id := fun h1 => hnx (h1 ▸ List.mem_map.mpr ⟨a, h, rfl⟩)
      simp only [List.map_cons]
      rw [List.indexOf_cons_ne _ haid, List.indexOf_cons_ne _ hbid]
      exact Nat.succ_lt_succ (ih hxs hnd1 h hb1)

theorem editorsOrdered_sorted (s : Store) (ws : String) :
    (editorsOrdered s ws).Pairwise (fun a b => a.index_pos ≤ b.index_pos) := by
  haveI : IsTotal EditorRow (fun a b => a.index_pos ≤ b.index_pos) :=
    ⟨fun a b => le_total a.index_pos b.index_pos⟩
  haveI : IsTrans EditorRow (fun a b => a.index_pos ≤ b.index_pos) :=
    ⟨fun _ _ _ h1 h2 => le_trans h1 h2⟩
  exact List.sorted_insertionSort _ _

theorem mem_editorsOrdered (s : Store) (ws : String) (e : EditorRow) :
    e ∈ editorsOrdered s ws ↔ e ∈ s.editor ∧ e.workspace_id = ws := by
  unfold editorsOrdered
  rw [(List.perm_insertionSort _ _).mem_iff]
  simp [List.mem_filter]

/-- The rank respects the order of the old `index_pos` values. -/
theorem rankOf_lt (s : Store) (ws : String) (hpk : (s.editor.map (·.id)).Nodup)
    (a b : EditorRow) (ha : a ∈ s.editor) (hb : b ∈ s.editor)
    (haw : a.workspace_id = ws) (hbw : b.workspace_id = ws)
    (hlt : a.index_pos < b.index_pos) : rankOf s ws a < rankOf s ws b :=
  indexOf_lt_of_sorted (editorsOrdered s ws) (editorsOrdered_sorted s ws)
    (orderedIds_nodup s ws hpk) a b ((mem_editorsOrdered s ws a).mpr ⟨ha, haw⟩)
    ((mem_editorsOrdered s ws b).mpr ⟨hb, hbw⟩) hlt

theorem length_filter_split (rows : List EditorRow) (ws : String) (index : Int) :
    (rows.filter (fun e => e.workspace_id = ws)).length =
      (rows.filter (fun e => e.workspace_id = ws ∧ e.index_pos = index)).length +
      ((rows.filter (fun e => ¬ (e.workspace_id = ws ∧ e.index_pos = index))).filter
        (fun e => e.workspace_id = ws)).length := by
  induction rows with
  | nil => simp
  | cons e es ih =>
    by_cases h1 : e.workspace_id = ws <;> by_cases h2 : e.index_pos = index <;>
      simp [List.filter_cons, h1, h2] at ih ⊢ <;> omega

theorem mem_deleteEditorsAt (s : Store) (ws : String) (index : Int) (e : EditorRow) :
    e ∈ (deleteEditorsAt s ws index).editor ↔
      e ∈ s.editor ∧ ¬ (e.workspace_id = ws ∧ e.index_pos = index) := by
  simp only [deleteEditorsAt, List.mem_filter, decide_eq_true_eq]

/-- A row of the renumbered table is a row of the table before, with its rank
as `index_pos` when it belongs to the workspace. -/
theorem mem_renumbered (s : Store) (ws : String) (e1 : EditorRow) :
    e1 ∈ renumbered s ws ↔ ∃ e ∈ s.editor, e1 =
      (if e.workspace_id = ws then { e with index_pos := ((rankOf s ws e : Nat) : Int) }
       else e) := by
  unfold renumbered
  rw [List.mem_map]
  constructor
  · rintro ⟨e, he, h⟩; exact ⟨e, he, h.symm⟩
  · rintro ⟨e, he, h⟩; exact ⟨e, he, h.symm⟩

/-- C2 (amended): with distinct editor ids (primary key), when exactly one of
the `n` editors of workspace `ws` has `index_pos = index`, `RemoveEditor ws
index` succeeds, `n - 1` editors of `ws` remain, their `index_pos` values are
exactly `0..n-2`, each remaining editor is unchanged but for its `index_pos`,
and two remaining editors whose old indices were strictly ordered have new
indices ordered the same way. -/
theorem removeEditor_reindexes (s : Store) (ws : String) (index : Int)
    (hpk : (s.editor.map (·.id)).Nodup)
    (hone : (s.editor.filter (fun e => e.workspace_id = ws ∧ e.index_pos = index)).length = 1) :
    ∃ s1, RemoveEditor s ws index = .ok s1 ∧
      (s1.editor.filter (fun e => e.workspace_id = ws)).length + 1 =
        (s.editor.filter (fun e => e.workspace_id = ws)).length ∧
      ((s1.editor.filter (fun e => e.workspace_id = ws)).map (·.index_pos)).Perm
        ((List.range ((s.editor.filter (fun e => e.workspace_id = ws)).length - 1)).map
          Int.ofNat) ∧
      (∀ a ∈ s.editor, a.workspace_id = ws → a.index_pos ≠ index →
        ∃ k : Nat, { a with index_pos := (k : Int) } ∈ s1.editor) ∧
      (∀ a b a1 b1 : EditorRow, a ∈ s.editor → b ∈ s.editor → a1 ∈ s1.editor → b1 ∈ s1.editor →
        a1.id = a.id → b1.id = b.id → a.workspace_id = ws → b.workspace_id = ws →
        a.index_pos < b.index_pos → a1.index_pos < b1.index_pos) := by
  have hpk1 := deleteEditorsAt_nodup s ws index hpk
  have hlen := length_filter_split s.editor ws index
  rw [hone] at hlen
  have hlen1 : ((deleteEditorsAt s ws index).editor.filter (fun e => e.workspace_id = ws)).length
      = (s.editor.filter (fun e => e.workspace_id = ws)).length - 1 := by
    simp only [deleteEditorsAt]; omega
  have hlen2 : ((renumbered (deleteEditorsAt s ws index) ws).filter
      (fun e => e.workspace_id = ws)).length
      = (s.editor.filter (fun e => e.workspace_id = ws)).length - 1 := by
    rw [renumbered_filter_same, List.length_map, hlen1]
  have key : ∀ a a1 : EditorRow, a ∈ s.editor →
      a1 ∈ renumbered (deleteEditorsAt s ws index) ws → a1.id = a.id → a.workspace_id = ws →
      a ∈ (deleteEditorsAt s ws index).editor ∧
        a1.index_pos = ((rankOf (deleteEditorsAt s ws index) ws a : Nat) : Int) := by
    intro a a1 ha ha1 hid haw
    obtain ⟨e, he, heq⟩ := (mem_renumbered _ ws a1).mp ha1
    have hes : e ∈ s.editor := ((mem_deleteEditorsAt s ws index e).mp he).1
    have hid1 : e.id = a.id := by
      rw [← hid, heq]; split <;> rfl
    have hea : e = a := editor_eq_of_id_eq s.editor hpk e a hes ha hid1
    subst hea
    refine ⟨he, ?_⟩
    rw [heq, if_pos haw]
  refine ⟨_, removeEditor_eq s ws index hpk, ?_, ?_, ?_, ?_⟩
  · show ((renumbered (deleteEditorsAt s ws index) ws).filter _).length + 1 = _
    rw [hlen2]; omega
  · have h := renumbered_contiguous (deleteEditorsAt s ws index) ws hpk1
    rw [hlen1] at h
    exact h
  · intro a ha haw hidx
    refine ⟨rankOf (deleteEditorsAt s ws index) ws a, ?_⟩
    show _ ∈ renumbered (deleteEditorsAt s ws index) ws
    rw [mem_renumbered]
    refine ⟨a, (mem_deleteEditorsAt s ws index a).mpr ⟨ha, fun h => hidx h.2⟩, ?_⟩
    rw [if_pos haw]
  · intro a b a1 b1 ha hb ha1 hb1 hida hidb haw hbw hlt
    obtain ⟨ha2, hra⟩ := key a a1 ha ha1 hida haw
    obtain ⟨hb2, hrb⟩ := key b b1 hb hb1 hidb hbw
    rw [hra, hrb]
    exact Int.ofNat_lt.mpr (rankOf_lt _ ws hpk1 a b ha2 hb2 haw hbw hlt)

theorem removeEditor_reindexes_witness :
    (storeThreeEditors.editor.map (·.id)).Nodup ∧
    (storeThreeEditors.editor.filter
      (fun e => e.workspace_id = "ws1" ∧ e.index_pos = 1)).length = 1 ∧
    ∃ s1, RemoveEditor storeThreeEditors "ws1" 1 = .ok s1 ∧
      (s1.editor.filter (fun e => e.workspace_id = "ws1")).length + 1 =
        (storeThreeEditors.editor.filter (fun e => e.workspace_id = "ws1")).length ∧
      ((s1.editor.filter (fun e => e.workspace_id = "ws1")).map (·.index_pos)).Perm
        ((List.range ((storeThreeEditors.editor.filter
          (fun e => e.workspace_id = "ws1")).length - 1)).map Int.ofNat) ∧
      (∀ a ∈ storeThreeEditors.editor, a.workspace_id = "ws1" → a.index_pos ≠ 1 →
        ∃ k : Nat, { a with index_pos := (k : Int) } ∈ s1.editor) ∧
      (∀ a b a1 b1 : EditorRow, a ∈ storeThreeEditors.editor → b ∈ storeThreeEditors.editor →
        a1 ∈ s1.editor → b1 ∈ s1.editor →
        a1.id = a.id → b1.id = b.id → a.workspace_id = "ws1" → b.workspace_id = "ws1" →
        a.index_pos < b.index_pos → a1.index_pos < b1.index_pos) :=
  ⟨by decide, by decide,
    removeEditor_reindexes storeThreeEditors "ws1" 1 (by decide) (by decide)⟩

/-- C2 as stated fails: workspace `ws1` has `n = 1` editor, at index 0;
`RemoveEditor ws1 1` deletes nothing, so the editor remains with index 0,
while the range `0..n-2` is empty. -/
theorem removeEditor_unused_index_keeps_all :
    (storeOneEditor.editor.filter (fun e => e.workspace_id = "ws1")).length = 1 ∧
    ∃ s1, RemoveEditor storeOneEditor "ws1" 1 = .ok s1 ∧
      (s1.editor.filter (fun e => e.workspace_id = "ws1")).map (·.index_pos) = [0] ∧
      ¬ ((s1.editor.filter (fun e => e.workspace_id = "ws1")).map (·.index_pos)).Perm
        ((List.range (1 - 1)).map Int.ofNat) :=
  ⟨by decide, _, rfl, by decide, by decide⟩

/-! ## Go maps -/

theorem mapGet_mapSet {κ ν : Type} [DecidableEq κ] (m : List (κ × ν)) (k k1 : κ) (v : ν) :
    mapGet (mapSet m k v) k1 = if k = k1 then some v else mapGet m k1 := by
  induction m with
  | nil => simp [mapSet, mapGet]
  | cons p rest ih =>
    obtain ⟨k0, v0⟩ := p
    by_cases h0 : k0 = k
    · subst h0
      by_cases h1 : k0 = k1 <;> simp [mapSet, mapGet, h1]
    · by_cases h1 : k0 = k1
      · subst h1
        have : ¬ k = k0 := fun h => h0 h.symm
        simp [mapSet, mapGet, h0, this]
      · simp [mapSet, mapGet, h0, h1, ih]

theorem mapGet_eq_none_iff {κ ν : Type} [DecidableEq κ] (m : List (κ × ν)) (k : κ) :
    mapGet m k = none ↔ k ∉ m.map Prod.fst := by
  induction m with
  | nil => simp [mapGet]
  | cons p rest ih =>
    obtain ⟨k0, v0⟩ := p
    by_cases h0 : k0 = k
    · simp [mapGet, h0]
    · have : ¬ k = k0 := fun h => h0 h.symm
      simp [mapGet, h0, ih, this]

/-! ## The map `editorByIndex` -/

theorem editorByIndex_foldl_absent (l : List EditorRow) (m : List (Int × Nat)) (k : Int)
    (hk : k ∉ l.map (·.index_pos)) :
    mapGet (l.foldl (fun m e => mapSet m e.index_pos e.id) m) k = mapGet m k := by
  induction l generalizing m with
  | nil => rfl
  | cons x xs ih =>
    have h1 : x.index_pos ≠ k := fun h => hk (by simp [h])
    have h2 : k ∉ xs.map (·.index_pos) := fun h => hk (by simp at h ⊢; exact Or.inr h)
    rw [List.foldl_cons, ih _ h2, mapGet_mapSet, if_neg h1]

theorem editorByIndex_foldl_mem (l : List EditorRow) (m : List (Int × Nat))
    (hnd : (l.map (·.index_pos)).Nodup) (e : EditorRow) (he : e ∈ l) :
    mapGet (l.foldl (fun m e => mapSet m e.index_pos e.id) m) e.index_pos = some e.id := by
  induction l generalizing m with
  | nil => simp at he
  | cons x xs ih =>
    have hx : x.index_pos ∉ xs.map (·.index_pos) := (List.nodup_cons.mp hnd).1
    have hnd1 := (List.nodup_cons.mp hnd).2
    rw [List.foldl_cons]
    rcases List.mem_cons.mp he with h | h
    · subst h
      rw [editorByIndex_foldl_absent xs _ _ hx, mapGet_mapSet, if_pos rfl]
    · exact ih _ hnd1 h

theorem editorByIndex_foldl_some (l : List EditorRow) (m : List (Int × Nat)) (k : Int) (id : Nat)
    (h : mapGet (l.foldl (fun m e => mapSet m e.index_pos e.id) m) k = some id) :
    (∃ e ∈ l, e.index_pos = k ∧ e.id = id) ∨ mapGet m k = some id := by
  induction l generalizing m with
  | nil => exact Or.inr h
  | cons x xs ih =>
    rw [List.foldl_cons] at h
    rcases ih _ h with ⟨e, he, h1, h2⟩ | h1
    · exact Or.inl ⟨e, List.mem_cons_of_mem _ he, h1, h2⟩
    · rw [mapGet_mapSet] at h1
      by_cases hk : x.index_pos = k
      · rw [if_pos hk] at h1
        exact Or.inl ⟨x, List.mem_cons_self _ _, hk, Option.some.inj h1⟩
      · rw [if_neg hk] at h1
        exact Or.inr h1

/-- Every binding of `editorByIndex` comes from a row. -/
theorem editorByIndex_some (l : List EditorRow) (k : Int) (id : Nat)
    (h : mapGet (editorByIndex l) k = some id) : ∃ e ∈ l, e.index_pos = k ∧ e.id = id := by
  rcases editorByIndex_foldl_some l [] k id h with h1 | h1
  · exact h1
  · simp [mapGet] at h1

/-- When the rows have distinct indices, `editorByIndex` maps the index of each
row to its id. -/
theorem editorByIndex_mem (l : List EditorRow) (hnd : (l.map (·.index_pos)).Nodup)
    (e : EditorRow) (he : e ∈ l) : mapGet (editorByIndex l) e.index_pos = some e.id :=
  editorByIndex_foldl_mem l [] hnd e he

/-! ## The loop of `ReorderEditors` -/

theorem find?_eq_some_of_unique {α : Type} (p : α → Bool) (l : List α) (a : α) (ha : a ∈ l)
    (hp : p a = true) (huniq : ∀ b ∈ l, p b = true → b = a) : l.find? p = some a := by
  induction l with
  | nil => simp at ha
  | cons x xs ih =>
    by_cases hx : p x = true
    · have := huniq x (List.mem_cons_self _ _) hx
      subst this
      simp [List.find?_cons, hx]
    · have ha1 : a ∈ xs := by
        rcases List.mem_cons.mp ha with h | h
        · subst h; exact absurd hp hx
        · exact h
      have hx1 : p x = false := by simpa using hx
      rw [List.find?_cons, hx1]
      exact ih ha1 (fun b hb => huniq b (List.mem_cons_of_mem _ hb))

/-- The loop of `ReorderEditors` in closed form, for a duplicate-free list of
old indices no two of which the map sends to the same row: the row that the
map holds at `P[j]` gets index `pos + j`, all other rows are left alone. -/
theorem reorderEditorsLoop_eq (byIndex : List (Int × Nat)) (P : List Int) (hnd : P.Nodup)
    (hinj : ∀ k1 ∈ P, ∀ k2 ∈ P, ∀ id, mapGet byIndex k1 = some id →
      mapGet byIndex k2 = some id → k1 = k2) :
    ∀ (pos : Nat) (rows : List EditorRow),
      reorderEditorsLoop byIndex pos P rows = rows.map (fun e =>
        match P.find? (fun k => mapGet byIndex k = some e.id) with
        | some k => { e with index_pos := ((pos + P.indexOf k : Nat) : Int) }
        | none => e) := by
  induction P with
  | nil => intro pos rows; simp [reorderEditorsLoop]
  | cons k rest ih =>
    intro pos rows
    have hnd1 : rest.Nodup := (List.nodup_cons.mp hnd).2
    have hk : k ∉ rest := (List.nodup_cons.mp hnd).1
    have hinj1 : ∀ k1 ∈ rest, ∀ k2 ∈ rest, ∀ id, mapGet byIndex k1 = some id →
        mapGet byIndex k2 = some id → k1 = k2 :=
      fun k1 h1 k2 h2 => hinj k1 (List.mem_cons_of_mem _ h1) k2 (List.mem_cons_of_mem _ h2)
    have hshift : ∀ (e : EditorRow) (k1 : Int),
        rest.find? (fun k => mapGet byIndex k = some e.id) = some k1 →
        (k :: rest).indexOf k1 = rest.indexOf k1 + 1 := by
      intro e k1 h
      have hmem : k1 ∈ rest := List.mem_of_find?_eq_some h
      have hne : k ≠ k1 := fun h1 => hk (h1 ▸ hmem)
      exact List.indexOf_cons_ne _ hne
    cases hget : mapGet byIndex k with
    | none =>
      rw [reorderEditorsLoop]
      simp only [hget]
      rw [ih hnd1 hinj1]
      apply List.map_congr_left
      intro e _
      have hp : (decide (mapGet byIndex k = some e.id)) = false := by simp [hget]
      rw [List.find?_cons, hp]
      cases hf : rest.find? (fun k => mapGet byIndex k = some e.id) with
      | none => rfl
      | some k1 =>
        simp only [hshift e k1 hf]
        congr 2
        omega
    | some id =>
      rw [reorderEditorsLoop]
      simp only [hget]
      rw [ih hnd1 hinj1, setIndexPos_eq_map, List.map_map]
      apply List.map_congr_left
      intro e _
      simp only [Function.comp]
      by_cases hid : e.id = id
      · have hp : (decide (mapGet byIndex k = some e.id)) = true := by simp [hget, hid]
        have hnone : rest.find? (fun k1 => decide (mapGet byIndex k1 = some id)) = none := by
          rw [List.find?_eq_none]
          intro k1 hk1 hc
          have hc1 : mapGet byIndex k1 = some id := by simpa using hc
          have := hinj k1 (List.mem_cons_of_mem _ hk1) k (List.mem_cons_self _ _) id hc1 hget
          exact hk (this ▸ hk1)
        rw [List.find?_cons, hp]
        simp [hid, hnone]
      · have hp : (decide (mapGet byIndex k = some e.id)) = false := by
          simp only [hget, decide_eq_false_iff_not]
          intro h; exact hid (Option.some.inj h).symm
        rw [List.find?_cons, hp]
        simp only [hid, if_false]
        cases hf : rest.find? (fun k => mapGet byIndex k = some e.id) with
        | none => rfl
        | some k1 =>
          simp only [hshift e k1 hf]
          congr 2
          omega

theorem orderedIndices_perm (s : Store) (ws : String) :
    ((editorsOrdered s ws).map (·.index_pos)).Perm (editorIndices s ws) :=
  List.Perm.map _ (List.perm_insertionSort _ _)

/-- `ReorderEditors` in closed form, when the editor ids are distinct, the
editors of the workspace have distinct indices and the list has no duplicate:
the editor of the workspace at old index `P[j]` moves to index `j`; every
other row is left alone. -/
theorem reorderEditors_eq (s : Store) (ws : String) (P : List Int)
    (hpk : (s.editor.map (·.id)).Nodup) (hidx : (editorIndices s ws).Nodup) (hP : P.Nodup) :
    ReorderEditors s ws P = .ok { s with editor := s.editor.map (fun e =>
      if e.workspace_id = ws ∧ e.index_pos ∈ P then
        { e with index_pos := ((P.indexOf e.index_pos : Nat) : Int) }
      else e) } := by
  have hnd : ((editorsOrdered s ws).map (·.index_pos)).Nodup :=
    ((orderedIndices_perm s ws).nodup_iff).mpr hidx
  have hrow : ∀ (k : Int) (e : EditorRow), e ∈ s.editor →
      mapGet (editorByIndex (editorsOrdered s ws)) k = some e.id →
      e.workspace_id = ws ∧ e.index_pos = k := by
    intro k e he h
    obtain ⟨e1, he1, hk1, hid1⟩ := editorByIndex_some _ k e.id h
    obtain ⟨he1s, he1w⟩ := (mem_editorsOrdered s ws e1).mp he1
    have := editor_eq_of_id_eq s.editor hpk e1 e he1s he hid1
    subst this
    exact ⟨he1w, hk1⟩
  have hinj : ∀ k1 ∈ P, ∀ k2 ∈ P, ∀ id,
      mapGet (editorByIndex (editorsOrdered s ws)) k1 = some id →
      mapGet (editorByIndex (editorsOrdered s ws)) k2 = some id → k1 = k2 := by
    intro k1 _ k2 _ id h1 h2
    obtain ⟨e1, he1, hk1, hid1⟩ := editorByIndex_some _ k1 id h1
    obtain ⟨he1s, _⟩ := (mem_editorsOrdered s ws e1).mp he1
    rw [← hid1] at h2
    rw [← hk1, (hrow k2 e1 he1s h2).2]
  unfold ReorderEditors
  simp only [reorderEditorsLoop_eq _ P hP hinj, Nat.zero_add]
  congr 2
  apply List.map_congr_left
  intro e he
  by_cases h : e.workspace_id = ws ∧ e.index_pos ∈ P
  · have hfind : P.find? (fun k => mapGet (editorByIndex (editorsOrdered s ws)) k = some e.id)
        = some e.index_pos := by
      apply find?_eq_some_of_unique _ _ _ h.2
      · simpa using editorByIndex_mem _ hnd e ((mem_editorsOrdered s ws e).mpr ⟨he, h.1⟩)
      · intro b _ hb
        have hb1 : mapGet (editorByIndex (editorsOrdered s ws)) b = some e.id := by simpa using hb
        exact (hrow b e he hb1).2.symm
    rw [hfind, if_pos h]
  · have hfind : P.find? (fun k => mapGet (editorByIndex (editorsOrdered s ws)) k = some e.id)
        = none := by
      rw [List.find?_eq_none]
      intro k hk hc
      have hc1 : mapGet (editorByIndex (editorsOrdered s ws)) k = some e.id := by simpa using hc
      obtain ⟨h1, h2⟩ := hrow k e he hc1
      exact h ⟨h1, h2 ▸ hk⟩
    rw [hfind, if_neg h]

/-! ## `EnsureWorkspace` -/

theorem ensureWorkspace_existing (s : Store) (w : String) (h : w ∈ s.workspace) :
    EnsureWorkspace s w = .ok s := by
  unfold EnsureWorkspace
  cases hf : s.workspace.find? (fun id => id = w) with
  | some _ => rfl
  | none =>
    rw [List.find?_eq_none] at hf
    exact absurd (by simp) (hf w h)

theorem ensureWorkspace_new (s : Store) (w : String) (h : w ∉ s.workspace) :
    EnsureWorkspace s w = .ok { s with
      workspace := s.workspace ++ [w],
      editor := s.editor ++ [defaultEditor s w],
      editor_seq := s.editor_seq + 1 } := by
  unfold EnsureWorkspace
  cases hf : s.workspace.find? (fun id => id = w) with
  | some x =>
    have h1 := List.find?_some hf
    have h2 := List.mem_of_find?_eq_some hf
    have : x = w := by simpa using h1
    exact absurd (this ▸ h2) h
  | none =>
    simp [insertWorkspace, insertEditor, h, defaultEditor, bind, Except.bind]

/-! ## The editor invariant -/

theorem editorInv_empty : EditorInv Store.empty :=
  ⟨by simp [Store.empty], by simp [Store.empty], by simp [Store.empty],
   fun ws => by simp [editorIndices, Store.empty]⟩

theorem editorIndices_absent (s : Store) (hinv : EditorInv s) (w : String)
    (h : w ∉ s.workspace) : s.editor.filter (fun e => e.workspace_id = w) = [] := by
  rw [List.filter_eq_nil_iff]
  intro e he hw
  have hw1 : e.workspace_id = w := by simpa using hw
  exact h (hw1 ▸ hinv.fk e he)

/-- Appending a row with a fresh id, in an existing workspace, at the index
equal to the number of editors of that workspace, keeps the invariant. -/
theorem editorInv_append (s : Store) (hinv : EditorInv s) (ws1 : List String) (w name : String)
    (hsub : ∀ x ∈ s.workspace, x ∈ ws1) (hw : w ∈ ws1) :
    EditorInv { s with
      workspace := ws1,
      editor := s.editor ++ [{ id := s.editor_seq + 1, workspace_id := w,
                               index_pos := ((editorIndices s w).length : Int), name := name,
                               visible := true, content_json := none }],
      editor_seq := s.editor_seq + 1 } := by
  refine ⟨?_, ?_, ?_, ?_⟩
  · simp only [List.map_append, List.map_cons, List.map_nil]
    rw [List.nodup_append]
    refine ⟨hinv.ids_nodup, by simp, ?_⟩
    intro a ha hb
    obtain ⟨e, he, rfl⟩ := List.mem_map.mp ha
    have := hinv.ids_le e he
    simp at hb
    omega
  · intro e he
    rcases List.mem_append.mp he with h | h
    · exact Nat.le_succ_of_le (hinv.ids_le e h)
    · simp at h; subst h; exact Nat.le_refl _
  · intro e he
    rcases List.mem_append.mp he with h | h
    · exact hsub _ (hinv.fk e h)
    · simp at h; subst h; exact hw
  · intro ws
    by_cases h : w = ws
    · subst h
      have h1 := hinv.contiguous w
      simp only [editorIndices, List.filter_append, List.map_append] at h1 ⊢
      simp only [List.filter_cons, decide_True, if_true, List.filter_nil, List.map_cons,
        List.map_nil, List.length_append, List.length_map, List.length_cons, List.length_nil,
        List.range_succ, List.map_append]
      simp only [List.length_map] at h1
      exact List.Perm.append_right _ h1
    · have h1 := hinv.contiguous ws
      simp only [editorIndices, List.filter_append, List.map_append] at h1 ⊢
      simpa [List.filter_cons, h] using h1

theorem editorInv_ensureWorkspace (s : Store) (hinv : EditorInv s) (w : String) :
    EditorInv ((EditorOp.EnsureWorkspace w).exec s) := by
  unfold EditorOp.exec EditorOp.call
  by_cases h : w ∈ s.workspace
  · simp only [ensureWorkspace_existing s w h]
    exact hinv
  · simp only [ensureWorkspace_new s w h]
    have h0 : (editorIndices s w).length = 0 := by
      simp [editorIndices, editorIndices_absent s hinv w h]
    have := editorInv_append s hinv (s.workspace ++ [w]) w "Passage 1"
      (fun x hx => List.mem_append_left _ hx) (by simp)
    rw [h0] at this
    exact this

theorem editorInv_addEditor (s : Store) (hinv : EditorInv s) (w : String) (i : Int)
    (name : String) (hi : i = ((editorIndices s w).length : Int)) :
    EditorInv ((EditorOp.AddEditor w i name).exec s) := by
  unfold EditorOp.exec EditorOp.call AddEditor insertEditor
  by_cases h : w ∈ s.workspace
  · simp only [h, if_true]
    subst hi
    have := editorInv_append s hinv s.workspace w name (fun x hx => hx) h
    exact this
  · simp only [h, if_false]
    exact hinv

theorem deleteEditorsAt_filter_other (s : Store) (ws ws1 : String) (index : Int)
    (hne : ws1 ≠ ws) :
    (deleteEditorsAt s ws index).editor.filter (fun e => e.workspace_id = ws1) =
      s.editor.filter (fun e => e.workspace_id = ws1) := by
  simp only [deleteEditorsAt, List.filter_filter]
  apply List.filter_congr
  intro e _
  by_cases h : e.workspace_id = ws1
  · simp [h, hne]
  · simp [h]

theorem editorInv_removeEditor (s : Store) (hinv : EditorInv s) (w : String) (i : Int) :
    EditorInv ((EditorOp.RemoveEditor w i).exec s) := by
  unfold EditorOp.exec EditorOp.call
  simp only [removeEditor_eq s w i hinv.ids_nodup]
  have hpk1 := deleteEditorsAt_nodup s w i hinv.ids_nodup
  have hsrc : ∀ e1 ∈ renumbered (deleteEditorsAt s w i) w,
      ∃ e ∈ s.editor, e1.id = e.id ∧ e1.workspace_id = e.workspace_id := by
    intro e1 he1
    obtain ⟨e, he, heq⟩ := (mem_renumbered _ w e1).mp he1
    refine ⟨e, ((mem_deleteEditorsAt s w i e).mp he).1, ?_, ?_⟩ <;>
      (rw [heq]; split <;> rfl)
  refine ⟨?_, ?_, ?_, ?_⟩
  · show ((renumbered (deleteEditorsAt s w i) w).map (·.id)).Nodup
    rw [renumbered_ids]
    exact hpk1
  · intro e1 he1
    obtain ⟨e, he, hid, _⟩ := hsrc e1 he1
    show e1.id ≤ s.editor_seq
    rw [hid]
    exact hinv.ids_le e he
  · intro e1 he1
    obtain ⟨e, he, _, hw⟩ := hsrc e1 he1
    show e1.workspace_id ∈ s.workspace
    rw [hw]
    exact hinv.fk e he
  · intro ws
    show (((renumbered (deleteEditorsAt s w i) w).filter
        (fun e => e.workspace_id = ws)).map (·.index_pos)).Perm
      ((List.range (((renumbered (deleteEditorsAt s w i) w).filter
        (fun e => e.workspace_id = ws)).map (·.index_pos)).length).map Int.ofNat)
    by_cases h : ws = w
    · subst h
      have h1 := renumbered_contiguous (deleteEditorsAt s ws i) ws hpk1
      have hlen : (((renumbered (deleteEditorsAt s ws i) ws).filter
          (fun e => e.workspace_id = ws)).map (·.index_pos)).length =
          ((deleteEditorsAt s ws i).editor.filter (fun e => e.workspace_id = ws)).length := by
        rw [renumbered_filter_same]; simp
      rw [hlen]
      exact h1
    · rw [renumbered_filter_other _ w ws h, deleteEditorsAt_filter_other s w ws i h]
      exact hinv.contiguous ws

/-- A rewrite of the editor rows that keeps `id` and `workspace_id` of every
row and leaves every workspace with contiguous indices keeps the invariant. -/
theorem editorInv_of_map (s : Store) (hinv : EditorInv s) (f : EditorRow → EditorRow)
    (hid : ∀ e, (f e).id = e.id) (hw : ∀ e, (f e).workspace_id = e.workspace_id)
    (hcont : Contiguous { s with editor := s.editor.map f }) :
    EditorInv { s with editor := s.editor.map f } := by
  refine ⟨?_, ?_, ?_, hcont⟩
  · show ((s.editor.map f).map (·.id)).Nodup
    rw [List.map_map]
    have : ((fun e : EditorRow => e.id) ∘ f) = (fun e : EditorRow => e.id) := by
      funext e; simp [Function.comp, hid]
    rw [this]
    exact hinv.ids_nodup
  · intro e1 he1
    obtain ⟨e, he, rfl⟩ := List.mem_map.mp he1
    show (f e).id ≤ s.editor_seq
    rw [hid]; exact hinv.ids_le e he
  · intro e1 he1
    obtain ⟨e, he, rfl⟩ := List.mem_map.mp he1
    show (f e).workspace_id ∈ s.workspace
    rw [hw]; exact hinv.fk e he

theorem filter_map_workspace (rows : List EditorRow) (f : EditorRow → EditorRow)
    (hw : ∀ e, (f e).workspace_id = e.workspace_id) (ws : String) :
    (rows.map f).filter (fun e => e.workspace_id = ws) =
      (rows.filter (fun e => e.workspace_id = ws)).map f := by
  rw [List.filter_map]
  have hc : ((fun e : EditorRow => decide (e.workspace_id = ws)) ∘ f) =
      (fun e : EditorRow => decide (e.workspace_id = ws)) := by
    funext e; simp [Function.comp, hw]
  rw [hc]

/-- A rewrite of the editor rows that keeps `id`, `workspace_id` and
`index_pos` of every row keeps the invariant. -/
theorem editorInv_map (s : Store) (hinv : EditorInv s) (f : EditorRow → EditorRow)
    (hid : ∀ e, (f e).id = e.id) (hw : ∀ e, (f e).workspace_id = e.workspace_id)
    (hidx : ∀ e, (f e).index_pos = e.index_pos) :
    EditorInv { s with editor := s.editor.map f } := by
  apply editorInv_of_map s hinv f hid hw
  intro ws
  have h : editorIndices { s with editor := s.editor.map f } ws = editorIndices s ws := by
    simp only [editorIndices]
    rw [filter_map_workspace _ f hw, List.map_map]
    apply List.map_congr_left
    intro e _
    simp [Function.comp, hidx]
  rw [h]
  exact hinv.contiguous ws

theorem nodup_range_int (n : Nat) : ((List.range n).map Int.ofNat).Nodup :=
  List.Nodup.map (fun _ _ h => Int.ofNat.inj h) (List.nodup_range n)

theorem editorInv_reorderEditors (s : Store) (hinv : EditorInv s) (w : String) (P : List Int)
    (hP : P.Perm ((List.range (editorIndices s w).length).map Int.ofNat)) :
    EditorInv ((EditorOp.ReorderEditors w P).exec s) := by
  have hPnd : P.Nodup := (hP.nodup_iff).mpr (nodup_range_int _)
  have hidx : (editorIndices s w).Nodup :=
    ((hinv.contiguous w).nodup_iff).mpr (nodup_range_int _)
  have hPI : P.Perm (editorIndices s w) := hP.trans (hinv.contiguous w).symm
  unfold EditorOp.exec EditorOp.call
  simp only [reorderEditors_eq s w P hinv.ids_nodup hidx hPnd]
  have hw : ∀ e : EditorRow, (if e.workspace_id = w ∧ e.index_pos ∈ P then
      { e with index_pos := ((P.indexOf e.index_pos : Nat) : Int) } else e).workspace_id
      = e.workspace_id := by
    intro e; split <;> rfl
  apply editorInv_of_map s hinv _ (by intro e; split <;> rfl) hw
  intro ws
  simp only [editorIndices]
  rw [filter_map_workspace _ _ hw, List.map_map]
  by_cases h : ws = w
  · subst h
    have h1 : (s.editor.filter (fun e => e.workspace_id = ws)).map
        ((fun e : EditorRow => e.index_pos) ∘ (fun e => if e.workspace_id = ws ∧ e.index_pos ∈ P then
          { e with index_pos := ((P.indexOf e.index_pos : Nat) : Int) } else e))
        = ((editorIndices s ws).map (fun k => P.indexOf k)).map Int.ofNat := by
      simp only [editorIndices, List.map_map]
      apply List.map_congr_left
      intro e he
      have hew : e.workspace_id = ws := by simpa using (List.mem_filter.mp he).2
      have hin : e.index_pos ∈ P :=
        hPI.symm.subset (List.mem_map.mpr ⟨e, he, rfl⟩)
      simp [Function.comp, hew, hin]
    rw [h1]
    have h2 := perm_map_indexOf (editorIndices s ws) P hPI hPnd
    have hlen : P.length = (((editorIndices s ws).map (fun k => P.indexOf k)).map
        Int.ofNat).length := by
      simp [hPI.length_eq]
    rw [← hlen]
    exact List.Perm.map Int.ofNat h2
  · have h1 : (s.editor.filter (fun e => e.workspace_id = ws)).map
        ((fun e : EditorRow => e.index_pos) ∘ (fun e => if e.workspace_id = w ∧ e.index_pos ∈ P then
          { e with index_pos := ((P.indexOf e.index_pos : Nat) : Int) } else e))
        = editorIndices s ws := by
      simp only [editorIndices]
      apply List.map_congr_left
      intro e he
      have hew : e.workspace_id = ws := by simpa using (List.mem_filter.mp he).2
      have : ¬ e.workspace_id = w := fun h2 => h (hew.symm.trans h2)
      simp [Function.comp, this]
    rw [h1]
    exact hinv.contiguous ws

/-- Every call that is in contract keeps the editor invariant. -/
theorem editorInv_exec (s : Store) (hinv : EditorInv s) (op : EditorOp)
    (hop : op.InContract s) : EditorInv (op.exec s) := by
  cases op with
  | EnsureWorkspace w => exact editorInv_ensureWorkspace s hinv w
  | AddEditor w i n => exact editorInv_addEditor s hinv w i n hop
  | RemoveEditor w i => exact editorInv_removeEditor s hinv w i
  | ReorderEditors w p => exact editorInv_reorderEditors s hinv w p hop
  | UpdateSectionName w i n =>
    exact editorInv_map s hinv _ (by intro e; split <;> rfl) (by intro e; split <;> rfl)
      (by intro e; split <;> rfl)
  | ToggleSectionVisibility w i =>
    exact editorInv_map s hinv _ (by intro e; split <;> rfl) (by intro e; split <;> rfl)
      (by intro e; split <;> rfl)
  | UpdateEditorContent w i c =>
    exact editorInv_map s hinv _ (by intro e; split <;> rfl) (by intro e; split <;> rfl)
      (by intro e; split <;> rfl)

theorem editorInv_of_reachable (s : Store) (h : Reachable s) : EditorInv s := by
  induction h with
  | empty => exact editorInv_empty
  | step s op _ hop ih => exact editorInv_exec s ih op hop

/-- C3 (amended): in every store reached from the empty store by
`EnsureWorkspace`, `RemoveEditor`, `UpdateSectionName`,
`ToggleSectionVisibility`, `UpdateEditorContent`, `AddEditor` calls whose index
is the number of editors the workspace has, and `ReorderEditors` calls whose
list is a permutation of `0..n-1`, the `index_pos` values of every workspace
are `0..n-1`, each exactly once. -/
theorem reachable_contiguous (s : Store) (h : Reachable s) : Contiguous s := by
  induction h with
  | empty => exact editorInv_empty.contiguous
  | step s op hs hop _ => exact (editorInv_exec s (editorInv_of_reachable s hs) op hop).contiguous

theorem reachable_contiguous_witness :
    Reachable ((EditorOp.RemoveEditor "ws1" 0).exec
      ((EditorOp.ReorderEditors "ws1" [1, 0]).exec
        ((EditorOp.AddEditor "ws1" 1 "Passage 2").exec
          ((EditorOp.EnsureWorkspace "ws1").exec Store.empty)))) ∧
    Contiguous ((EditorOp.RemoveEditor "ws1" 0).exec
      ((EditorOp.ReorderEditors "ws1" [1, 0]).exec
        ((EditorOp.AddEditor "ws1" 1 "Passage 2").exec
          ((EditorOp.EnsureWorkspace "ws1").exec Store.empty)))) :=
  have hr : Reachable ((EditorOp.RemoveEditor "ws1" 0).exec
      ((EditorOp.ReorderEditors "ws1" [1, 0]).exec
        ((EditorOp.AddEditor "ws1" 1 "Passage 2").exec
          ((EditorOp.EnsureWorkspace "ws1").exec Store.empty)))) :=
    Reachable.step _ _
      (Reachable.step _ _
        (Reachable.step _ _
          (Reachable.step _ _ Reachable.empty trivial)
          (by show (1 : Int) = _; decide))
        (by show List.Perm [1, 0] _; decide))
      trivial
  ⟨hr, reachable_contiguous _ hr⟩

/-- C3 as stated fails: after `EnsureWorkspace ws1`, `AddEditor ws1 5` leaves
indices 0 and 5 (a gap), and after `AddEditor ws1 1`, `ReorderEditors ws1 [1]`
leaves both editors at index 0 (a duplicate). -/
theorem addEditor_reorderEditors_break_contiguity :
    editorIndices (execOps Store.empty
      [.EnsureWorkspace "ws1", .AddEditor "ws1" 5 "Passage 2"]) "ws1" = [0, 5] ∧
    ¬ Contiguous (execOps Store.empty
      [.EnsureWorkspace "ws1", .AddEditor "ws1" 5 "Passage 2"]) ∧
    editorIndices (execOps Store.empty
      [.EnsureWorkspace "ws1", .AddEditor "ws1" 1 "Passage 2",
       .ReorderEditors "ws1" [1]]) "ws1" = [0, 0] ∧
    ¬ Contiguous (execOps Store.empty
      [.EnsureWorkspace "ws1", .AddEditor "ws1" 1 "Passage 2", .ReorderEditors "ws1" [1]]) :=
  ⟨by decide, fun h => absurd (h "ws1") (by decide), by decide,
   fun h => absurd (h "ws1") (by decide)⟩

/-! ## Layer removal -/

/-- On a connection that enforces foreign keys, with distinct layer ids
(primary key), for a layer `layerID` of workspace `ws`, `RemoveLayer ws layerID`
succeeds and afterwards no layer row has that id and no highlight, arrow or
underline row references it. -/
theorem removeLayer_cascades (s : Store) (ws layerID : String)
    (hpk : (s.layer.map (·.id)).Nodup)
    (hmem : ∃ r ∈ s.layer, r.id = layerID ∧ r.workspace_id = ws) :
    ∃ s1, RemoveLayer true s ws layerID = .ok s1 ∧
      (∀ r ∈ s1.layer, r.id ≠ layerID) ∧
      (s1.highlight.filter (fun h => h.layer_id = layerID)).length = 0 ∧
      (s1.arrow.filter (fun a => a.layer_id = layerID)).length = 0 ∧
      (s1.underline.filter (fun u => u.layer_id = layerID)).length = 0 := by
  obtain ⟨r0, hr0, hid0, hw0⟩ := hmem
  have hdel : layerID ∈
      (s.layer.filter (fun r => r.id = layerID ∧ r.workspace_id = ws)).map (·.id) :=
    List.mem_map.mpr ⟨r0, List.mem_filter.mpr ⟨hr0, by simp [hid0, hw0]⟩, hid0⟩
  refine ⟨_, rfl, ?_, ?_, ?_, ?_⟩
  · intro r hr hid
    have hr1 := List.mem_filter.mp hr
    have : r = r0 := layer_eq_of_id_eq s.layer hpk r r0 hr1.1 hr0 (hid.trans hid0.symm)
    subst this
    have h2 := hr1.2
    simp [hid0, hw0] at h2
  · rw [List.length_eq_zero, List.filter_eq_nil_iff]
    intro h hh hl
    have hl1 : h.layer_id = layerID := by simpa using hl
    have h2 := (List.mem_filter.mp hh).2
    rw [hl1] at h2
    simp only [decide_eq_true_eq] at h2
    exact h2 hdel
  · rw [List.length_eq_zero, List.filter_eq_nil_iff]
    intro a ha hl
    have hl1 : a.layer_id = layerID := by simpa using hl
    have h2 := (List.mem_filter.mp ha).2
    rw [hl1] at h2
    simp only [decide_eq_true_eq] at h2
    exact h2 hdel
  · rw [List.length_eq_zero, List.filter_eq_nil_iff]
    intro u hu hl
    have hl1 : u.layer_id = layerID := by simpa using hl
    have h2 := (List.mem_filter.mp hu).2
    rw [hl1] at h2
    simp only [decide_eq_true_eq] at h2
    exact h2 hdel

/-- On a connection that does not enforce foreign keys, `RemoveLayer` deletes
the layer rows it names and no other row of any table. -/
theorem removeLayer_without_cascade (s : Store) (ws layerID : String) :
    RemoveLayer false s ws layerID = .ok { s with
      layer := s.layer.filter (fun r => ¬ (r.id = layerID ∧ r.workspace_id = ws)) } := by
  cases s
  simp [RemoveLayer]

/-- C4: the calls `EnsureWorkspace ws1`, `AddLayer ws1 l1`, `AddHighlight l1 hl1`,
`AddArrow l1 arr1`, `AddUnderline l1 ul1` on the empty database, followed by
`RemoveLayer ws1 l1` served by a pooled connection on which
`PRAGMA foreign_keys=ON` has not run, all succeed; the layer row is gone and
the highlight, the arrow and the underline that reference `l1` are still
there, so each of the three counts is 1.  The same `RemoveLayer` served by the
connection on which the `PRAGMA` has run leaves the three tables empty. -/
theorem removeLayer_on_other_connection_keeps_annotations :
    ∃ s1 s2 s3 s4 s5,
      EnsureWorkspace Store.empty "ws1" = .ok s1 ∧
      AddLayer s1 "ws1" "l1" "Layer 1" "#ff0000" = .ok s2 ∧
      AddHighlight true s2 "l1" "hl1" 0 10 20 "text" "" = .ok s3 ∧
      AddArrow true s3 "l1" "arr1" 0 0 5 "" 0 10 15 "" = .ok s4 ∧
      AddUnderline true s4 "l1" "ul1" 0 1 2 "u" = .ok s5 ∧
      (∃ s6, RemoveLayer false s5 "ws1" "l1" = .ok s6 ∧
        s6.layer = [] ∧
        s6.highlight = [⟨"hl1", "l1", 0, 10, 20, "text", "", "highlight"⟩] ∧
        (s6.highlight.filter (fun h => h.layer_id = "l1")).length = 1 ∧
        (s6.arrow.filter (fun a => a.layer_id = "l1")).length = 1 ∧
        (s6.underline.filter (fun u => u.layer_id = "l1")).length = 1) ∧
      (∃ s6, RemoveLayer true s5 "ws1" "l1" = .ok s6 ∧
        s6.layer = [] ∧ s6.highlight = [] ∧ s6.arrow = [] ∧ s6.underline = []) :=
  ⟨_, _, _, _, _, rfl, rfl, rfl, rfl, rfl,
    ⟨_, rfl, by decide, by decide, by decide, by decide, by decide⟩,
    ⟨_, rfl, by decide, by decide, by decide, by decide⟩⟩

/-! ## Idempotence of `EnsureWorkspace` -/

/-- C5: when every editor row references an existing workspace (foreign key)
and `id` is not a workspace, the first `EnsureWorkspace id` succeeds, the
second one succeeds too and returns the store it was given, and that store
holds `id` once in table `workspace` and exactly one editor of `id`, the
default one (index 0, name "Passage 1"). -/
theorem ensureWorkspace_twice (s : Store) (id : String)
    (hfk : ∀ e ∈ s.editor, e.workspace_id ∈ s.workspace) (hnew : id ∉ s.workspace) :
    ∃ s1, EnsureWorkspace s id = .ok s1 ∧ EnsureWorkspace s1 id = .ok s1 ∧
      s1.workspace.count id = 1 ∧
      s1.editor.filter (fun e => e.workspace_id = id) = [defaultEditor s id] ∧
      (defaultEditor s id).index_pos = 0 ∧ (defaultEditor s id).name = "Passage 1" := by
  refine ⟨_, ensureWorkspace_new s id hnew, ?_, ?_, ?_, rfl, rfl⟩
  · exact ensureWorkspace_existing _ id (by simp)
  · simp [List.count_append, List.count_eq_zero.mpr hnew]
  · have h0 : s.editor.filter (fun e => e.workspace_id = id) = [] := by
      rw [List.filter_eq_nil_iff]
      intro e he hw
      have hw1 : e.workspace_id = id := by simpa using hw
      exact hnew (hw1 ▸ hfk e he)
    simp [List.filter_append, h0, defaultEditor]

theorem ensureWorkspace_twice_witness :
    (∀ e ∈ storeOneEditor.editor, e.workspace_id ∈ storeOneEditor.workspace) ∧
    "ws2" ∉ storeOneEditor.workspace ∧
    ∃ s1, EnsureWorkspace storeOneEditor "ws2" = .ok s1 ∧ EnsureWorkspace s1 "ws2" = .ok s1 ∧
      s1.workspace.count "ws2" = 1 ∧
      s1.editor.filter (fun e => e.workspace_id = "ws2") = [defaultEditor storeOneEditor "ws2"] ∧
      (defaultEditor storeOneEditor "ws2").index_pos = 0 ∧
      (defaultEditor storeOneEditor "ws2").name = "Passage 1" :=
  ⟨by decide, by decide,
    ensureWorkspace_twice storeOneEditor "ws2" (by decide) (by decide)⟩

/-! ## Connection registry -/

theorem mem_of_mapGet {κ ν : Type} [DecidableEq κ] (m : List (κ × ν)) (k : κ) (v : ν)
    (h : mapGet m k = some v) : (k, v) ∈ m := by
  induction m with
  | nil => simp [mapGet] at h
  | cons p rest ih =>
    obtain ⟨k0, v0⟩ := p
    by_cases h0 : k0 = k
    · simp [mapGet, h0] at h
      simp [h0, h]
    · simp [mapGet, h0] at h
      exact List.mem_cons_of_mem _ (ih h)

theorem mapGet_of_mem {κ ν : Type} [DecidableEq κ] (m : List (κ × ν))
    (hnd : (m.map Prod.fst).Nodup) (k : κ) (v : ν) (h : (k, v) ∈ m) : mapGet m k = some v := by
  induction m with
  | nil => simp at h
  | cons p rest ih =>
    obtain ⟨k0, v0⟩ := p
    have hk0 : k0 ∉ rest.map Prod.fst := (List.nodup_cons.mp hnd).1
    rcases List.mem_cons.mp h with h1 | h1
    · have h2 : k = k0 ∧ v = v0 := by simpa using h1
      simp [mapGet, h2.1, h2.2]
    · have hne : k0 ≠ k := fun hc => hk0 (hc ▸ List.mem_map.mpr ⟨(k, v), h1, rfl⟩)
      simp only [mapGet, hne, if_false]
      exact ih (List.nodup_cons.mp hnd).2 h1

theorem mem_entries (cm : ConnectionManager) (w c : String) (k : Conn) :
    (w, c, k) ∈ cm.entries ↔ ∃ clients, (w, clients) ∈ cm.connections ∧ (c, k) ∈ clients := by
  unfold ConnectionManager.entries
  simp only [List.mem_flatMap, List.mem_map, Prod.mk.injEq]
  constructor
  · rintro ⟨b, hb, p, hp, h1, h2, h3⟩
    refine ⟨b.2, ?_, ?_⟩
    · rw [← h1]; exact hb
    · rw [← h2, ← h3]; exact hp
  · rintro ⟨clients, h1, h2⟩
    exact ⟨(w, clients), h1, (c, k), h2, rfl, rfl, rfl⟩

/-- The events of `Broadcast`: one write per recipient. -/
theorem broadcast_eq (cm : ConnectionManager) (dead : Conn → Bool) (W X : String)
    (msg : ServerMessage) :
    cm.Broadcast dead W msg X =
      ((((mapGet cm.connections W).getD []).filter (fun p => p.1 ≠ X)).map
        (fun p => Event.write p.2 msg.encode)) := by
  unfold ConnectionManager.Broadcast jsonMarshal writeMessage
  simp only []
  induction ((mapGet cm.connections W).getD []).filter (fun p => p.1 ≠ X) with
  | nil => rfl
  | cons p rest ih => simp [List.flatMap_cons, ih]

theorem writesTo_map_write (conn : Conn) (data : JVal) (l : List (String × Conn)) :
    writesTo conn (l.map (fun p => Event.write p.2 data)) = (l.map Prod.snd).count conn := by
  induction l with
  | nil => rfl
  | cons p rest ih =>
    unfold writesTo at ih ⊢
    by_cases h : p.2 = conn
    · simp [List.countP_cons, List.count_cons, h, ih]
    · simp [List.countP_cons, List.count_cons, h, ih]

theorem bucket_mem_entries (cm : ConnectionManager) (W c : String) (k : Conn)
    (h : (c, k) ∈ (mapGet cm.connections W).getD []) : (W, c, k) ∈ cm.entries := by
  cases hg : mapGet cm.connections W with
  | none => simp [hg] at h
  | some clients =>
    rw [hg] at h
    exact (mem_entries cm W c k).mpr ⟨clients, mem_of_mapGet _ _ _ hg, h⟩

theorem entries_mem_bucket (cm : ConnectionManager) (hwf : cm.WF) (W c : String) (k : Conn)
    (h : (W, c, k) ∈ cm.entries) : (c, k) ∈ (mapGet cm.connections W).getD [] := by
  obtain ⟨clients, h1, h2⟩ := (mem_entries cm W c k).mp h
  rw [mapGet_of_mem _ hwf.workspaces_nodup W clients h1]
  exact h2

theorem bucket_conns_nodup (cm : ConnectionManager) (hwf : cm.WF) (hconn : cm.ConnsDistinct)
    (W : String) : (((mapGet cm.connections W).getD []).map Prod.snd).Nodup := by
  cases hg : mapGet cm.connections W with
  | none => simp
  | some clients =>
    have hin := mem_of_mapGet _ _ _ hg
    have hkeys : (clients.map Prod.fst).Nodup := hwf.clients_nodup (W, clients) hin
    have hnd : clients.Nodup := List.Nodup.of_map _ hkeys
    show (clients.map Prod.snd).Nodup
    apply List.Nodup.map_on _ hnd
    intro p hp q hq hpq
    have h1 : (W, p.1, p.2) ∈ cm.entries := (mem_entries cm W p.1 p.2).mpr ⟨clients, hin, hp⟩
    have h2 : (W, q.1, q.2) ∈ cm.entries := (mem_entries cm W q.1 q.2).mpr ⟨clients, hin, hq⟩
    have := List.inj_on_of_nodup_map hconn h1 h2 hpq
    simp only [Prod.mk.injEq, true_and] at this
    exact Prod.ext this.1 this.2

/-- C6: in a registry whose connections are each registered once, `Broadcast W
msg X` performs only writes of the encoded message; a connection registered
under `W` with a client id other than `X` is written exactly once, and the
connection of `X` and the connections registered under another workspace are
not written at all. -/
theorem broadcast_delivers_once (cm : ConnectionManager) (hwf : cm.WF)
    (hconn : cm.ConnsDistinct) (dead : Conn → Bool) (W X : String) (msg : ServerMessage) :
    (∀ ev ∈ cm.Broadcast dead W msg X, ∃ k, ev = Event.write k msg.encode) ∧
    (∀ w c k, (w, c, k) ∈ cm.entries →
      writesTo k (cm.Broadcast dead W msg X) = if w = W ∧ c ≠ X then 1 else 0) := by
  rw [broadcast_eq]
  constructor
  · intro ev hev
    obtain ⟨p, _, rfl⟩ := List.mem_map.mp hev
    exact ⟨p.2, rfl⟩
  · intro w c k hmem
    rw [writesTo_map_write]
    have hnd : ((((mapGet cm.connections W).getD []).filter (fun p => p.1 ≠ X)).map
        Prod.snd).Nodup :=
      List.Nodup.sublist (List.Sublist.map _ (List.filter_sublist _))
        (bucket_conns_nodup cm hwf hconn W)
    by_cases h : w = W ∧ c ≠ X
    · rw [if_pos h]
      obtain ⟨hw, hc⟩ := h
      subst hw
      have h1 := entries_mem_bucket cm hwf w c k hmem
      apply List.count_eq_one_of_mem hnd
      exact List.mem_map.mpr ⟨(c, k), List.mem_filter.mpr ⟨h1, by simpa using hc⟩, rfl⟩
    · rw [if_neg h]
      rw [List.count_eq_zero]
      intro hk
      obtain ⟨p, hp, hpk⟩ := List.mem_map.mp hk
      obtain ⟨hp1, hp2⟩ := List.mem_filter.mp hp
      have hpX : p.1 ≠ X := by simpa using hp2
      have h1 : (W, p.1, p.2) ∈ cm.entries := bucket_mem_entries cm W p.1 p.2 hp1
      have h2 := List.inj_on_of_nodup_map hconn h1 hmem hpk
      simp only [Prod.mk.injEq] at h2
      exact h ⟨h2.1.symm, h2.2.1 ▸ hpX⟩

theorem broadcast_delivers_once_witness :
    registryTwoWorkspaces.WF ∧ registryTwoWorkspaces.ConnsDistinct ∧
    (∀ ev ∈ registryTwoWorkspaces.Broadcast (fun _ => false) "ws1" { Type_ := "action" } "a",
      ∃ k, ev = Event.write k ({ Type_ := "action" } : ServerMessage).encode) ∧
    (∀ w c k, (w, c, k) ∈ registryTwoWorkspaces.entries →
      writesTo k (registryTwoWorkspaces.Broadcast (fun _ => false) "ws1"
        { Type_ := "action" } "a") = if w = "ws1" ∧ c ≠ "a" then 1 else 0) :=
  ⟨⟨by decide, by decide⟩, by unfold ConnectionManager.ConnsDistinct; decide,
    broadcast_delivers_once registryTwoWorkspaces ⟨by decide, by decide⟩
      (by unfold ConnectionManager.ConnsDistinct; decide)
      (fun _ => false) "ws1" "a" { Type_ := "action" }⟩

/-! ## Go code: sequencing -/

theorem go_bind_apply {α β : Type} (m : Go α) (f : α → Go β) (st : HandlerState) :
    (m >>= f) st =
      match m st with
      | (.ok a, st1) => f a st1
      | (.error err, st1) => (.error err, st1)
      | (.panic msg, st1) => (.panic msg, st1) := rfl

theorem go_pure_bind {α β : Type} (a : α) (f : α → Go β) : (pure a >>= f) = f a := rfl

theorem go_fail_bind {α β : Type} (err : GoError) (f : α → Go β) :
    (Go.fail err >>= f) = Go.fail err := rfl

theorem go_panic_bind {α β : Type} (msg : String) (f : α → Go β) :
    (Go.panic msg >>= f) = Go.panic msg := rfl

/-- A piece of code that returns a value is not one that returns an error. -/
theorem go_pure_ne_fail {α : Type} (a : α) (err : GoError) : (Go.pure a : Go α) ≠ Go.fail err := by
  intro h
  have h1 := congrFun h ⟨Store.empty, []⟩
  simp [Go.pure, Go.fail] at h1

/-- What `strconv.Quote` makes of a key with a double quote, a backslash, a tab
and a control character in it. -/
theorem goQuote_examples :
    goQuote "name" = "\"name\"" ∧
    goQuote "a\"b" = "\"a\\\"b\"" ∧
    goQuote "a\\b" = "\"a\\\\b\"" ∧
    goQuote "a\tb" = "\"a\\tb\"" ∧
    goQuote "a\x01b" = "\"a\\x01b\"" ∧
    goQuote "a\x7fb" = "\"a\\x7fb\"" :=
  ⟨rfl, rfl, rfl, rfl, rfl, rfl⟩

/-! ## Payload assertions -/

theorem assertString_contract : AssertContract assertString JVal.asString "string" := by
  intro payload key
  unfold assertString
  cases h : mapGet payload key with
  | none => exact ⟨goQuote key, fun _ => rfl, rfl⟩
  | some v =>
    cases v <;> first
      | rfl
      | exact ⟨goQuote key, fun _ => rfl, by simp [goTypeName, String.append_assoc]⟩

theorem assertFloat64_contract : AssertContract assertFloat64 JVal.asFloat64 "float64" := by
  intro payload key
  unfold assertFloat64
  cases h : mapGet payload key with
  | none => exact ⟨goQuote key, fun _ => rfl, rfl⟩
  | some v =>
    cases v <;> first
      | rfl
      | exact ⟨goQuote key, fun _ => rfl, by simp [goTypeName, String.append_assoc]⟩

theorem assertMap_contract : AssertContract assertMap JVal.asMap "map" := by
  intro payload key
  unfold assertMap
  cases h : mapGet payload key with
  | none => exact ⟨goQuote key, fun _ => rfl, rfl⟩
  | some v =>
    cases v <;> first
      | rfl
      | exact ⟨goQuote key, fun _ => rfl, by simp [goTypeName, String.append_assoc]⟩

theorem assertSlice_contract : AssertContract assertSlice JVal.asSlice "slice" := by
  intro payload key
  unfold assertSlice
  cases h : mapGet payload key with
  | none => exact ⟨goQuote key, fun _ => rfl, rfl⟩
  | some v =>
    cases v <;> first
      | rfl
      | exact ⟨goQuote key, fun _ => rfl, by simp [goTypeName, String.append_assoc]⟩

/-- An assertion that meets the contract returns an error exactly when the key
is absent or its value is not of the kind. -/
theorem assertContract_fails_iff {α : Type} (assert : Payload → String → Go α)
    (proj : JVal → Option α) (kindName : String) (hc : AssertContract assert proj kindName)
    (payload : Payload) (key : String) :
    (∃ err, assert payload key = Go.fail err) ↔ (mapGet payload key).bind proj = none := by
  have h := hc payload key
  cases hg : mapGet payload key with
  | none =>
    simp only [hg] at h
    obtain ⟨q, _, h⟩ := h
    simp only [Option.bind, iff_true]
    exact ⟨_, h⟩
  | some v =>
    simp only [hg] at h
    cases hp : proj v with
    | none =>
      simp only [hp] at h
      obtain ⟨q, _, h⟩ := h
      simp only [Option.bind, hp, iff_true]
      exact ⟨_, h⟩
    | some a =>
      simp only [hp] at h
      simp only [Option.bind, hp]
      constructor
      · rintro ⟨err, he⟩
        rw [h] at he
        exact absurd he (go_pure_ne_fail a err)
      · intro hc1
        cases hc1

/-- C13: each of `assertString`, `assertFloat64`, `assertMap` and `assertSlice`,
for every payload and key and on every state, which it leaves as it is:
returns the stored value when the key holds a value of its kind; returns the
error `key <quoted key>: missing` when the key is absent; returns the error
`key <quoted key>: expected <kind>, got <type of the value>` when the value is
of another kind; where the quoted key is what `%q` prints for a key of ASCII
characters.  So it returns an error exactly when the key is absent or the
value is not of the kind, and the text for an absent key contains `missing`. -/
theorem assertions_contract :
    AssertContract assertString JVal.asString "string" ∧
    AssertContract assertFloat64 JVal.asFloat64 "float64" ∧
    AssertContract assertMap JVal.asMap "map" ∧
    AssertContract assertSlice JVal.asSlice "slice" ∧
    (∀ (payload : Payload) (key : String),
      ((∃ err, assertString payload key = Go.fail err) ↔
        (mapGet payload key).bind JVal.asString = none) ∧
      ((∃ err, assertFloat64 payload key = Go.fail err) ↔
        (mapGet payload key).bind JVal.asFloat64 = none) ∧
      ((∃ err, assertMap payload key = Go.fail err) ↔
        (mapGet payload key).bind JVal.asMap = none) ∧
      ((∃ err, assertSlice payload key = Go.fail err) ↔
        (mapGet payload key).bind JVal.asSlice = none)) ∧
    (∀ q : String,
      "missing".toList <:+: (GoError.errorf ("key " ++ q ++ ": missing")).Error.toList) :=
  ⟨assertString_contract, assertFloat64_contract, assertMap_contract, assertSlice_contract,
   fun payload key =>
    ⟨assertContract_fails_iff _ _ _ assertString_contract payload key,
     assertContract_fails_iff _ _ _ assertFloat64_contract payload key,
     assertContract_fails_iff _ _ _ assertMap_contract payload key,
     assertContract_fails_iff _ _ _ assertSlice_contract payload key⟩,
   fun q => ⟨("key " ++ q ++ ": ").toList, [], by
     simp [GoError.Error, String.append_assoc]⟩⟩

theorem assertions_contract_witness :
    assertString payloadNameNum "name" = Go.pure "hello" ∧
    assertString payloadNameNum "missing" = Go.fail (.errorf "key \"missing\": missing") ∧
    assertString payloadNameNum "num" =
      Go.fail (.errorf "key \"num\": expected string, got float64") ∧
    assertFloat64 payloadNameNum "num" = Go.pure 42 ∧
    assertFloat64 payloadNameNum "name" =
      Go.fail (.errorf "key \"name\": expected float64, got string") ∧
    ((∃ err, assertString payloadNameNum "num" = Go.fail err) ↔
      (mapGet payloadNameNum "num").bind JVal.asString = none) :=
  ⟨assertions_contract.1 payloadNameNum "name",
   rfl, rfl,
   assertions_contract.2.1 payloadNameNum "num",
   rfl,
   (assertions_contract.2.2.2.2.1 payloadNameNum "num").1⟩

/-! ## The action handlers -/

theorem validates_pure {α : Type} (a : α) : Validates (pure a : Go α) :=
  fun _ => Or.inl ⟨a, rfl⟩

theorem validates_fail {α : Type} (msg : String) :
    Validates (Go.fail (.errorf msg) : Go α) :=
  fun _ => Or.inr ⟨msg, rfl⟩

theorem validates_bind {α β : Type} (m : Go α) (f : α → Go β)
    (hm : Validates m) (hf : ∀ a, Validates (f a)) : Validates (m >>= f) := by
  intro st
  rcases hm st with ⟨a, h⟩ | ⟨msg, h⟩
  · rw [go_bind_apply, h]
    exact hf a st
  · rw [go_bind_apply, h]
    exact Or.inr ⟨msg, rfl⟩

theorem validates_assertString (payload : Payload) (key : String) :
    Validates (assertString payload key) := by
  unfold assertString
  split
  · exact validates_fail _
  · exact validates_pure _
  · exact validates_fail _

theorem validates_assertFloat64 (payload : Payload) (key : String) :
    Validates (assertFloat64 payload key) := by
  unfold assertFloat64
  split
  · exact validates_fail _
  · exact validates_pure _
  · exact validates_fail _

theorem validates_assertMap (payload : Payload) (key : String) :
    Validates (assertMap payload key) := by
  unfold assertMap
  split
  · exact validates_fail _
  · exact validates_pure _
  · exact validates_fail _

theorem validates_assertSlice (payload : Payload) (key : String) :
    Validates (assertSlice payload key) := by
  unfold assertSlice
  split
  · exact validates_fail _
  · exact validates_pure _
  · exact validates_fail _

theorem validates_layerIdsLoop (raw : List JVal) : ∀ i, Validates (layerIdsLoop i raw) := by
  induction raw with
  | nil => intro i; exact validates_pure _
  | cons v rest ih =>
    intro i
    cases v <;> simp only [layerIdsLoop]
    case str s => exact validates_bind _ _ (ih (i + 1)) (fun _ => validates_pure _)
    all_goals exact validates_fail _

theorem validates_permutationLoop (raw : List JVal) :
    ∀ i, Validates (permutationLoop i raw) := by
  induction raw with
  | nil => intro i; exact validates_pure _
  | cons v rest ih =>
    intro i
    cases v <;> simp only [permutationLoop]
    case num f => exact validates_bind _ _ (ih (i + 1)) (fun _ => validates_pure _)
    all_goals exact validates_fail _

theorem calls_storeCall (fk : Bool) (call : StoreCall) :
    ValidatesThenCalls fk (storeCall fk call) :=
  fun _ => Or.inr ⟨call, rfl⟩

theorem calls_fail (fk : Bool) (msg : String) :
    ValidatesThenCalls fk (Go.fail (.errorf msg)) :=
  fun _ => Or.inl ⟨msg, rfl⟩

theorem calls_bind {α : Type} (fk : Bool) (m : Go α) (f : α → Go Unit)
    (hm : Validates m) (hf : ∀ a, ValidatesThenCalls fk (f a)) :
    ValidatesThenCalls fk (m >>= f) := by
  intro st
  rcases hm st with ⟨a, h⟩ | ⟨msg, h⟩
  · rw [go_bind_apply, h]
    exact hf a st
  · rw [go_bind_apply, h]
    exact Or.inl ⟨msg, rfl⟩

/-- A property of every handler of the table holds for every entry of the
table. -/
theorem forall_actionHandlers (P : actionHandler → Prop)
    (h : P handleAddLayer ∧ P handleRemoveLayer ∧ P handleUpdateLayerName ∧
      P handleUpdateLayerColor ∧ P handleToggleLayerVisibility ∧ P handleReorderLayers ∧
      P handleAddHighlight ∧ P handleRemoveHighlight ∧ P handleUpdateHighlightAnnotation ∧
      P handleAddArrow ∧ P handleRemoveArrow ∧ P handleUpdateArrowStyle ∧
      P handleAddUnderline ∧ P handleRemoveUnderline ∧ P handleAddEditor ∧
      P handleRemoveEditor ∧ P handleUpdateSectionName ∧ P handleToggleSectionVisibility ∧
      P handleReorderEditors ∧ P handleUpdateEditorContent) :
    ∀ p ∈ actionHandlers, P p.2 := by
  simp only [actionHandlers, List.forall_mem_cons, List.not_mem_nil, false_implies,
    implies_true, and_true]
  exact h

/-- Each of the twenty handlers validates its payload and then makes one store
call: on every state it either returns a `fmt.Errorf` error with the state as
it was, or it is one store call and nothing else. -/
theorem handlers_shape :
    ∀ p ∈ actionHandlers, ∀ (fk : Bool) (ws : String) (payload : Payload),
      ValidatesThenCalls fk (p.2 fk ws payload) := by
  apply forall_actionHandlers (fun h => ∀ (fk : Bool) (ws : String) (payload : Payload),
    ValidatesThenCalls fk (h fk ws payload))
  refine ⟨?_, ?_, ?_, ?_, ?_, ?_, ?_, ?_, ?_, ?_, ?_, ?_, ?_, ?_, ?_, ?_, ?_, ?_, ?_, ?_⟩
  all_goals
    intro fk ws payload
    first
      | unfold handleAddLayer
      | unfold handleRemoveLayer
      | unfold handleUpdateLayerName
      | unfold handleUpdateLayerColor
      | unfold handleToggleLayerVisibility
      | unfold handleReorderLayers
      | unfold handleAddHighlight
      | unfold handleRemoveHighlight
      | unfold handleUpdateHighlightAnnotation
      | unfold handleAddArrow
      | unfold handleRemoveArrow
      | unfold handleUpdateArrowStyle
      | unfold handleAddUnderline
      | unfold handleRemoveUnderline
      | unfold handleAddEditor
      | unfold handleRemoveEditor
      | unfold handleUpdateSectionName
      | unfold handleToggleSectionVisibility
      | unfold handleReorderEditors
      | unfold handleUpdateEditorContent
    repeat
      first
        | with_reducible apply calls_bind
        | with_reducible exact validates_assertString _ _
        | with_reducible exact validates_assertFloat64 _ _
        | with_reducible exact validates_assertMap _ _
        | with_reducible exact validates_assertSlice _ _
        | with_reducible exact validates_layerIdsLoop _ _
        | with_reducible exact validates_permutationLoop _ _
        | with_reducible exact calls_storeCall _ _
        | with_reducible exact calls_fail _ _
        | with_reducible intro _
        | split

/-- On the nil payload every handler returns the error of its first required
key and leaves the state as it was. -/
theorem handlers_nil_payload :
    ∀ p ∈ actionHandlers, ∀ (fk : Bool) (ws : String) (st : HandlerState),
      ∃ msg, p.2 fk ws [] st = (.error (GoError.errorf msg), st) := by
  apply forall_actionHandlers (fun h => ∀ (fk : Bool) (ws : String) (st : HandlerState),
    ∃ msg, h fk ws [] st = (.error (GoError.errorf msg), st))
  refine ⟨?_, ?_, ?_, ?_, ?_, ?_, ?_, ?_, ?_, ?_, ?_, ?_, ?_, ?_, ?_, ?_, ?_, ?_, ?_, ?_⟩
  all_goals
    intro fk ws st
    exact ⟨_, rfl⟩

/-- How a handler of the table ends, from any state: with a validation error
and the state as it was, or with the result of one store call, which is
recorded. -/
theorem handler_cases (name : String) (handler : actionHandler)
    (hmem : (name, handler) ∈ actionHandlers) (fk : Bool) (ws : String) (payload : Payload)
    (st : HandlerState) :
    (∃ msg, handler fk ws payload st = (.error (.errorf msg), st)) ∨
    (∃ call db1, call.run fk st.db = .ok db1 ∧
      handler fk ws payload st = (.ok (), ⟨db1, st.calls ++ [call]⟩)) ∨
    (∃ call e, call.run fk st.db = .error e ∧
      handler fk ws payload st = (.error (.db e), ⟨st.db, st.calls ++ [call]⟩)) := by
  rcases handlers_shape (name, handler) hmem fk ws payload st with ⟨msg, h⟩ | ⟨call, h⟩
  · exact Or.inl ⟨msg, h⟩
  · cases hrun : call.run fk st.db with
    | ok db1 =>
      refine Or.inr (Or.inl ⟨call, db1, hrun, ?_⟩)
      simp only at h
      rw [h]
      simp only [storeCall, hrun]
    | error e =>
      refine Or.inr (Or.inr ⟨call, e, hrun, ?_⟩)
      simp only at h
      rw [h]
      simp only [storeCall, hrun]

/-- The `handleRemoveLayer` and `handleRemoveEditor` of `backend-go`, which
convert with the one-value form, panic on the nil payload and on a value of
another type, before any store call. -/
theorem backendGo_handlers_panic (fk : Bool) (ws : String) (st : HandlerState) :
    BackendGo.handleRemoveLayer fk ws [] st =
      (.panic "interface conversion: interface \x7b\x7d is nil, not string", st) ∧
    BackendGo.handleRemoveLayer fk ws [("id", .num 5)] st =
      (.panic "interface conversion: interface \x7b\x7d is float64, not string", st) ∧
    BackendGo.handleRemoveEditor fk ws [("index", .str "0")] st =
      (.panic "interface conversion: interface \x7b\x7d is string, not float64", st) :=
  ⟨rfl, rfl, rfl⟩

/-- C11: for every handler of the table, every payload and every state (the
database and the store calls made so far): when the handler returns a
validation error, a `fmt.Errorf` text, the state after is the state before, so
the handler has made no store call and the database is as it was; any other
error is the error of the one store call the handler made, which failed; and
when the read loop gets a validation error from the handler, its events hold
no store call and the database is the one before. -/
theorem validation_error_no_store_call (name : String) (handler : actionHandler)
    (hmem : (name, handler) ∈ actionHandlers) (fk : Bool) (ws : String) (payload : Payload)
    (st : HandlerState) :
    (∀ msg st1, handler fk ws payload st = (.error (.errorf msg), st1) → st1 = st) ∧
    (∀ err st1, handler fk ws payload st = (.error err, st1) →
      (∃ msg, err = .errorf msg ∧ st1 = st) ∨
      (∃ e call, err = .db e ∧ call.run fk st.db = .error e ∧
        st1 = ⟨st.db, st.calls ++ [call]⟩)) ∧
    (∀ msg db1 evs,
      runHandler handler fk st.db ws payload = (.error (.errorf msg), db1, evs) →
      db1 = st.db ∧ evs = []) := by
  refine ⟨?_, ?_, ?_⟩
  · intro msg st1 h
    rcases handler_cases name handler hmem fk ws payload st with
      ⟨msg1, h1⟩ | ⟨call, db1, _, h1⟩ | ⟨call, e, _, h1⟩
    · rw [h1] at h
      exact (Prod.mk.inj h).2.symm
    · rw [h1] at h
      cases h
    · rw [h1] at h
      cases h
  · intro err st1 h
    rcases handler_cases name handler hmem fk ws payload st with
      ⟨msg1, h1⟩ | ⟨call, db1, _, h1⟩ | ⟨call, e, hrun, h1⟩
    · rw [h1] at h
      cases h
      exact Or.inl ⟨msg1, rfl, rfl⟩
    · rw [h1] at h
      cases h
    · rw [h1] at h
      cases h
      exact Or.inr ⟨e, call, rfl, hrun, rfl⟩
  · intro msg db1 evs h
    unfold runHandler at h
    rcases handler_cases name handler hmem fk ws payload ⟨st.db, []⟩ with
      ⟨msg1, h1⟩ | ⟨call, db2, _, h1⟩ | ⟨call, e, _, h1⟩
    · rw [h1] at h
      simp only [Prod.mk.injEq, List.map_nil] at h
      exact ⟨h.2.1.symm, h.2.2.symm⟩
    · rw [h1] at h
      simp at h
    · rw [h1] at h
      simp at h

theorem validation_error_no_store_call_witness :
    ("addLayer", handleAddLayer) ∈ actionHandlers ∧
    handleAddLayer true "ws1" addLayerMessageNoColor.Payload ⟨storeOneEditor, []⟩ =
      (.error (.errorf "key \"color\": missing"), ⟨storeOneEditor, []⟩) ∧
    ((∀ msg st1, handleAddLayer true "ws1" addLayerMessageNoColor.Payload ⟨storeOneEditor, []⟩ =
        (.error (.errorf msg), st1) → st1 = ⟨storeOneEditor, []⟩) ∧
    (∀ err st1, handleAddLayer true "ws1" addLayerMessageNoColor.Payload ⟨storeOneEditor, []⟩ =
        (.error err, st1) →
      (∃ msg, err = .errorf msg ∧ st1 = ⟨storeOneEditor, []⟩) ∨
      (∃ e call, err = .db e ∧ call.run true storeOneEditor = .error e ∧
        st1 = ⟨storeOneEditor, [] ++ [call]⟩)) ∧
    (∀ msg db1 evs,
      runHandler handleAddLayer true storeOneEditor "ws1" addLayerMessageNoColor.Payload =
        (.error (.errorf msg), db1, evs) →
      db1 = storeOneEditor ∧ evs = [])) :=
  ⟨List.Mem.head _, rfl,
    validation_error_no_store_call "addLayer" handleAddLayer (List.Mem.head _) true
      "ws1" addLayerMessageNoColor.Payload ⟨storeOneEditor, []⟩⟩

/-- C12: for every handler of the table, every payload and every state, the
handler returns, in one of three ways: with a `fmt.Errorf` validation error,
having made no store call; with no error, having made one store call that
succeeded, the database being the one that call returned; or with the storage
error of the one store call it made, the database being as it was.  It never
panics, and on the nil payload it returns a validation error. -/
theorem handler_returns_error_or_store_result (name : String) (handler : actionHandler)
    (hmem : (name, handler) ∈ actionHandlers) (fk : Bool) (ws : String) (payload : Payload)
    (st : HandlerState) :
    ((∃ msg, handler fk ws payload st = (.error (.errorf msg), st)) ∨
     (∃ call db1, call.run fk st.db = .ok db1 ∧
        handler fk ws payload st = (.ok (), ⟨db1, st.calls ++ [call]⟩)) ∨
     (∃ call e, call.run fk st.db = .error e ∧
        handler fk ws payload st = (.error (.db e), ⟨st.db, st.calls ++ [call]⟩))) ∧
    (∀ msg st1, handler fk ws payload st ≠ (.panic msg, st1)) ∧
    (∃ msg, handler fk ws [] st = (.error (.errorf msg), st)) := by
  refine ⟨handler_cases name handler hmem fk ws payload st, ?_,
    handlers_nil_payload (name, handler) hmem fk ws st⟩
  intro msg st1 h
  rcases handler_cases name handler hmem fk ws payload st with
    ⟨msg1, h1⟩ | ⟨call, db1, _, h1⟩ | ⟨call, e, _, h1⟩
  · rw [h1] at h
    cases h
  · rw [h1] at h
    cases h
  · rw [h1] at h
    cases h

theorem handler_returns_error_or_store_result_witness :
    ("addLayer", handleAddLayer) ∈ actionHandlers ∧
    handleAddLayer true "ws1" addLayerMessage.Payload ⟨storeOneEditor, []⟩ =
      (.ok (), ⟨{ storeOneEditor with layer := [⟨"l1", "ws1", "X", "#fff", true, 0⟩] },
        [.addLayer "ws1" "l1" "X" "#fff"]⟩) ∧
    handleAddLayer true "ws1" [] ⟨storeOneEditor, []⟩ =
      (.error (.errorf "key \"id\": missing"), ⟨storeOneEditor, []⟩) ∧
    handleAddLayer true "ws1" [("id", .num 5)] ⟨storeOneEditor, []⟩ =
      (.error (.errorf "key \"id\": expected string, got float64"), ⟨storeOneEditor, []⟩) ∧
    (((∃ msg, handleAddLayer true "ws1" addLayerMessage.Payload ⟨storeOneEditor, []⟩ =
        (.error (.errorf msg), ⟨storeOneEditor, []⟩)) ∨
     (∃ call db1, call.run true storeOneEditor = .ok db1 ∧
        handleAddLayer true "ws1" addLayerMessage.Payload ⟨storeOneEditor, []⟩ =
          (.ok (), ⟨db1, [] ++ [call]⟩)) ∨
     (∃ call e, call.run true storeOneEditor = .error e ∧
        handleAddLayer true "ws1" addLayerMessage.Payload ⟨storeOneEditor, []⟩ =
          (.error (.db e), ⟨storeOneEditor, [] ++ [call]⟩))) ∧
    (∀ msg st1, handleAddLayer true "ws1" addLayerMessage.Payload ⟨storeOneEditor, []⟩ ≠
      (.panic msg, st1)) ∧
    (∃ msg, handleAddLayer true "ws1" [] ⟨storeOneEditor, []⟩ =
      (.error (.errorf msg), ⟨storeOneEditor, []⟩))) :=
  ⟨List.Mem.head _, rfl, rfl, rfl,
    handler_returns_error_or_store_result "addLayer" handleAddLayer (List.Mem.head _) true
      "ws1" addLayerMessage.Payload ⟨storeOneEditor, []⟩⟩

/-! ## The read loop -/

theorem foldl_mapSet_absent (l : List (String × JVal)) (m : Payload) (k : String)
    (hk : k ∉ l.map Prod.fst) :
    mapGet (l.foldl (fun m kv => mapSet m kv.1 kv.2) m) k = mapGet m k := by
  induction l generalizing m with
  | nil => rfl
  | cons x xs ih =>
    have h1 : x.1 ≠ k := fun h => hk (by simp [h])
    have h2 : k ∉ xs.map Prod.fst := fun h => hk (by simp at h ⊢; exact Or.inr h)
    rw [List.foldl_cons, ih _ h2, mapGet_mapSet, if_neg h1]

/-- When the client payload has no key `actionType`, the broadcast payload
holds the action's type under that key. -/
theorem broadcastPayload_actionType (msg : ClientMessage)
    (h : "actionType" ∉ msg.Payload.map Prod.fst) :
    mapGet (broadcastPayload msg) "actionType" = some (JVal.str msg.Type_) := by
  unfold broadcastPayload
  rw [foldl_mapSet_absent _ _ _ h]
  simp [mapGet]

theorem mapSet_ne_nil {κ ν : Type} [DecidableEq κ] (m : List (κ × ν)) (k : κ) (v : ν) :
    mapSet m k v ≠ [] := by
  cases m with
  | nil => simp [mapSet]
  | cons p rest =>
    obtain ⟨k1, v1⟩ := p
    unfold mapSet
    split <;> simp

theorem foldl_mapSet_ne_nil (l : List (String × JVal)) (m : Payload) (hm : m ≠ []) :
    l.foldl (fun m kv => mapSet m kv.1 kv.2) m ≠ [] := by
  induction l generalizing m with
  | nil => exact hm
  | cons x xs ih => exact ih _ (mapSet_ne_nil m x.1 x.2)

/-- The broadcast payload is never empty, so the `action` frame has a
`payload`. -/
theorem broadcastPayload_isEmpty (msg : ClientMessage) :
    (broadcastPayload msg).isEmpty = false := by
  have h : broadcastPayload msg ≠ [] := foldl_mapSet_ne_nil _ _ (by simp)
  cases hb : broadcastPayload msg with
  | nil => exact absurd hb h
  | cons p rest => rfl

/-- The `ack` frame as JSON. -/
theorem encode_ack (requestID : String) :
    ({ Type_ := "ack", Payload := [], RequestID := requestID } : ServerMessage).encode =
      JVal.obj ([("type", JVal.str "ack")] ++
        (if requestID = "" then [] else [("requestId", JVal.str requestID)])) := by
  simp [ServerMessage.encode]

/-- The `action` frame as JSON. -/
theorem encode_action (msg : ClientMessage) (clientID : String) :
    ({ Type_ := "action", Payload := broadcastPayload msg, SourceClientID := clientID,
       RequestID := msg.RequestID } : ServerMessage).encode =
      JVal.obj ([("type", JVal.str "action"), ("payload", JVal.obj (broadcastPayload msg))] ++
        (if clientID = "" then [] else [("sourceClientId", JVal.str clientID)]) ++
        (if msg.RequestID = "" then [] else [("requestId", JVal.str msg.RequestID)])) := by
  simp [ServerMessage.encode, broadcastPayload_isEmpty]

/-- The `error` frame as JSON. -/
theorem encode_error (text requestID : String) :
    ({ Type_ := "error", Payload := [("message", JVal.str text)],
       RequestID := requestID } : ServerMessage).encode =
      JVal.obj ([("type", JVal.str "error"),
                 ("payload", JVal.obj [("message", JVal.str text)])] ++
        (if requestID = "" then [] else [("requestId", JVal.str requestID)])) := by
  simp [ServerMessage.encode]

/-- C7 fails on the code: the `addLayer` message with payload
`{id, name, color, actionType: "removeLayer"}` is dispatched successfully (the
layer is added), and the `action` frame written to the other clients `b` and
`c` carries `actionType = "removeLayer"`, because the payload entries are
copied over the `actionType` entry stored first. -/
theorem broadcast_actionType_overwritten :
    (runHandler handleAddLayer true serverTwoWorkspaces.db "ws1"
      addLayerMessageWithActionType.Payload).1 = .ok () ∧
    mapGet (broadcastPayload addLayerMessageWithActionType) "actionType"
      = some (JVal.str "removeLayer") ∧
    (∀ fk, (readLoopStep (fun _ => false) fk sessionA serverTwoWorkspaces
      (.message addLayerMessageWithActionType)).2.2 =
      [ .dbCall (.addLayer "ws1" "l1" "X" "#fff"),
        .write 1 ({ Type_ := "ack", RequestID := "req-1" } : ServerMessage).encode,
        .write 2 ({ Type_ := "action",
                    Payload := [("actionType", .str "removeLayer"), ("id", .str "l1"),
                                ("name", .str "X"), ("color", .str "#fff")],
                    SourceClientID := "a", RequestID := "req-1" } : ServerMessage).encode,
        .write 3 ({ Type_ := "action",
                    Payload := [("actionType", .str "removeLayer"), ("id", .str "l1"),
                                ("name", .str "X"), ("color", .str "#fff")],
                    SourceClientID := "a", RequestID := "req-1" } : ServerMessage).encode ]) ∧
    ({ Type_ := "action",
       Payload := [("actionType", .str "removeLayer"), ("id", .str "l1"),
                   ("name", .str "X"), ("color", .str "#fff")],
       SourceClientID := "a", RequestID := "req-1" } : ServerMessage).encode =
      JVal.obj [("type", .str "action"),
                ("payload", .obj [("actionType", .str "removeLayer"), ("id", .str "l1"),
                                  ("name", .str "X"), ("color", .str "#fff")]),
                ("sourceClientId", .str "a"), ("requestId", .str "req-1")] :=
  ⟨rfl, rfl, fun fk => by cases fk <;> rfl, rfl⟩

/-- `SendTo` to a registered client performs one write, on its connection. -/
theorem sendTo_registered (cm : ConnectionManager) (dead : Conn → Bool) (ws c : String)
    (conn : Conn) (msg : ServerMessage)
    (hreg : (mapGet cm.connections ws).bind (fun clients => mapGet clients c) = some conn) :
    (cm.SendTo dead ws c msg).2 = [Event.write conn msg.encode] := by
  unfold ConnectionManager.SendTo
  rw [hreg]
  rfl

/-- How the call of a handler of the table by the read loop ends: with a
validation error and no store call, with no error and one store call, or with
the storage error of the one store call. -/
theorem runHandler_cases (name : String) (handler : actionHandler)
    (hmem : (name, handler) ∈ actionHandlers) (fk : Bool) (database : Store) (ws : String)
    (payload : Payload) :
    (∃ msg, handler fk ws payload ⟨database, []⟩ = (.error (.errorf msg), ⟨database, []⟩) ∧
      runHandler handler fk database ws payload = (.error (.errorf msg), database, [])) ∨
    (∃ call db1, call.run fk database = .ok db1 ∧
      handler fk ws payload ⟨database, []⟩ = (.ok (), ⟨db1, [call]⟩) ∧
      runHandler handler fk database ws payload = (.ok (), db1, [.dbCall call])) ∨
    (∃ call e, call.run fk database = .error e ∧
      handler fk ws payload ⟨database, []⟩ = (.error (.db e), ⟨database, [call]⟩) ∧
      runHandler handler fk database ws payload =
        (.error (.db e), database, [.dbCall call])) := by
  unfold runHandler
  rcases handler_cases name handler hmem fk ws payload ⟨database, []⟩ with
    ⟨msg, h⟩ | ⟨call, db1, hrun, h⟩ | ⟨call, e, hrun, h⟩
  · exact Or.inl ⟨msg, h, by rw [h]; rfl⟩
  · exact Or.inr (Or.inl ⟨call, db1, hrun, h, by rw [h]; rfl⟩)
  · exact Or.inr (Or.inr ⟨call, e, hrun, h, by rw [h]; rfl⟩)

/-- C8: for a registered session and a message of a known type whose handler
returns no error, whichever pooled connection serves the store call: the
handler has made one store call, the database is the one that call returned,
the session stays Active, and the socket writes are, in this order: on the
sender's connection the frame `{"type":"ack","requestId":<the message's>}`,
then on each other connection of the workspace, once, the frame
`{"type":"action","payload":<broadcast payload>,"sourceClientId":<the sender's
client id>,"requestId":<the message's>}`; a `requestId` or client id that is
the empty string is left out of the frame (`omitempty`). -/
theorem readLoop_success (dead : Conn → Bool) (fk : Bool) (ss : Session) (w : Server)
    (msg : ClientMessage) (handler : actionHandler)
    (hreg : (mapGet w.cm.connections ss.workspaceID).bind
      (fun clients => mapGet clients ss.clientID) = some ss.conn)
    (hknown : mapGet actionHandlers msg.Type_ = some handler)
    (hok : (runHandler handler fk w.db ss.workspaceID msg.Payload).1 = .ok ()) :
    ∃ call db1, call.run fk w.db = .ok db1 ∧
      handler fk ss.workspaceID msg.Payload ⟨w.db, []⟩ = (.ok (), ⟨db1, [call]⟩) ∧
      readLoopStep dead fk ss w (.message msg) =
        ({ w with db := db1 }, Phase.Active,
          [Event.dbCall call,
           Event.write ss.conn
             (JVal.obj ([("type", JVal.str "ack")] ++
               (if msg.RequestID = "" then [] else [("requestId", JVal.str msg.RequestID)])))] ++
          (((mapGet w.cm.connections ss.workspaceID).getD []).filter
            (fun p => p.1 ≠ ss.clientID)).map (fun p => Event.write p.2
              (JVal.obj ([("type", JVal.str "action"),
                          ("payload", JVal.obj (broadcastPayload msg))] ++
                (if ss.clientID = "" then [] else [("sourceClientId", JVal.str ss.clientID)]) ++
                (if msg.RequestID = "" then []
                 else [("requestId", JVal.str msg.RequestID)]))))) := by
  rcases runHandler_cases msg.Type_ handler (mem_of_mapGet _ _ _ hknown) fk w.db
      ss.workspaceID msg.Payload with
    ⟨text, _, h3⟩ | ⟨call, db1, h1, h2, h3⟩ | ⟨call, e, _, _, h3⟩
  · rw [h3] at hok
    cases hok
  · refine ⟨call, db1, h1, h2, ?_⟩
    simp only [readLoopStep, hknown, h3, sendTo_registered _ dead _ _ _ _ hreg, broadcast_eq,
      encode_ack, encode_action]
    rfl
  · rw [h3] at hok
    cases hok

theorem readLoop_success_witness :
    (mapGet serverTwoWorkspaces.cm.connections sessionA.workspaceID).bind
      (fun clients => mapGet clients sessionA.clientID) = some sessionA.conn ∧
    mapGet actionHandlers addLayerMessage.Type_ = some handleAddLayer ∧
    (runHandler handleAddLayer true serverTwoWorkspaces.db sessionA.workspaceID
      addLayerMessage.Payload).1 = .ok () ∧
    readLoopStep (fun _ => false) true sessionA serverTwoWorkspaces (.message addLayerMessage) =
      ({ serverTwoWorkspaces with
          db := { storeOneEditor with layer := [⟨"l1", "ws1", "X", "#fff", true, 0⟩] } },
        Phase.Active,
        [ .dbCall (.addLayer "ws1" "l1" "X" "#fff"),
          .write 1 (.obj [("type", .str "ack"), ("requestId", .str "req-1")]),
          .write 2 (.obj [("type", .str "action"),
            ("payload", .obj [("actionType", .str "addLayer"), ("id", .str "l1"),
                              ("name", .str "X"), ("color", .str "#fff")]),
            ("sourceClientId", .str "a"), ("requestId", .str "req-1")]),
          .write 3 (.obj [("type", .str "action"),
            ("payload", .obj [("actionType", .str "addLayer"), ("id", .str "l1"),
                              ("name", .str "X"), ("color", .str "#fff")]),
            ("sourceClientId", .str "a"), ("requestId", .str "req-1")]) ]) ∧
    ∃ call db1, call.run true serverTwoWorkspaces.db = .ok db1 ∧
      handleAddLayer true sessionA.workspaceID addLayerMessage.Payload
        ⟨serverTwoWorkspaces.db, []⟩ = (.ok (), ⟨db1, [call]⟩) ∧
      readLoopStep (fun _ => false) true sessionA serverTwoWorkspaces
          (.message addLayerMessage) =
        ({ serverTwoWorkspaces with db := db1 }, Phase.Active,
          [Event.dbCall call,
           Event.write sessionA.conn
             (JVal.obj ([("type", JVal.str "ack")] ++
               (if addLayerMessage.RequestID = "" then []
                else [("requestId", JVal.str addLayerMessage.RequestID)])))] ++
          (((mapGet serverTwoWorkspaces.cm.connections sessionA.workspaceID).getD []).filter
            (fun p => p.1 ≠ sessionA.clientID)).map (fun p => Event.write p.2
              (JVal.obj ([("type", JVal.str "action"),
                          ("payload", JVal.obj (broadcastPayload addLayerMessage))] ++
                (if sessionA.clientID = "" then []
                 else [("sourceClientId", JVal.str sessionA.clientID)]) ++
                (if addLayerMessage.RequestID = "" then []
                 else [("requestId", JVal.str addLayerMessage.RequestID)]))))) :=
  ⟨rfl, rfl, rfl, rfl,
    readLoop_success (fun _ => false) true sessionA serverTwoWorkspaces addLayerMessage
      handleAddLayer rfl rfl rfl⟩

/-- C9: for a registered session and a message of a known type whose handler
returns an error, whichever pooled connection serves the store call: the
error is a validation error, with no store call made, or the storage error of
the one store call the handler made; the database and the registry are
unchanged, the session stays Active, and the only socket write is the frame
`{"type":"error","payload":{"message":<the error's text>},"requestId":<the
message's>}` on the sender's connection (an empty `requestId` is left out).
The events hold no other write, so no ack and no broadcast. -/
theorem readLoop_handler_error (dead : Conn → Bool) (fk : Bool) (ss : Session) (w : Server)
    (msg : ClientMessage) (handler : actionHandler) (err : GoError)
    (hreg : (mapGet w.cm.connections ss.workspaceID).bind
      (fun clients => mapGet clients ss.clientID) = some ss.conn)
    (hknown : mapGet actionHandlers msg.Type_ = some handler)
    (herr : (runHandler handler fk w.db ss.workspaceID msg.Payload).1 = .error err) :
    ∃ calls text,
      ((calls = [] ∧ err = .errorf text) ∨
       (∃ call e, calls = [Event.dbCall call] ∧ call.run fk w.db = .error e ∧
          err = .db e ∧ text = e.Error)) ∧
      text = err.Error ∧
      readLoopStep dead fk ss w (.message msg) =
        (w, Phase.Active, calls ++
          [Event.write ss.conn
            (JVal.obj ([("type", JVal.str "error"),
                        ("payload", JVal.obj [("message", JVal.str text)])] ++
              (if msg.RequestID = "" then []
               else [("requestId", JVal.str msg.RequestID)])))]) := by
  rcases runHandler_cases msg.Type_ handler (mem_of_mapGet _ _ _ hknown) fk w.db
      ss.workspaceID msg.Payload with
    ⟨text, _, h3⟩ | ⟨call, db1, _, _, h3⟩ | ⟨call, e, h1, _, h3⟩
  · rw [h3] at herr
    cases herr
    refine ⟨[], text, Or.inl ⟨rfl, rfl⟩, rfl, ?_⟩
    simp only [readLoopStep, hknown, h3, sendTo_registered _ dead _ _ _ _ hreg, encode_error]
    rfl
  · rw [h3] at herr
    cases herr
  · rw [h3] at herr
    cases herr
    refine ⟨[Event.dbCall call], e.Error, Or.inr ⟨call, e, rfl, h1, rfl, rfl⟩, rfl, ?_⟩
    simp only [readLoopStep, hknown, h3, sendTo_registered _ dead _ _ _ _ hreg, encode_error]
    rfl

theorem readLoop_handler_error_witness :
    (mapGet serverTwoWorkspaces.cm.connections sessionA.workspaceID).bind
      (fun clients => mapGet clients sessionA.clientID) = some sessionA.conn ∧
    mapGet actionHandlers addLayerMessage.Type_ = some handleAddLayer ∧
    (runHandler handleAddLayer true storeThreeLayers sessionA.workspaceID
      addLayerMessage.Payload).1 = .error (.db (.uniqueViolation "layer" "id")) ∧
    readLoopStep (fun _ => false) true sessionA ⟨storeThreeLayers, registryTwoWorkspaces⟩
        (.message addLayerMessage) =
      (⟨storeThreeLayers, registryTwoWorkspaces⟩, Phase.Active,
        [ .dbCall (.addLayer "ws1" "l1" "X" "#fff"),
          .write 1 (.obj [("type", .str "error"),
            ("payload", .obj [("message",
              .str "constraint failed: UNIQUE constraint failed: layer.id (1555)")]),
            ("requestId", .str "req-1")]) ]) ∧
    readLoopStep (fun _ => false) true sessionA serverTwoWorkspaces
        (.message addLayerMessageNoColor) =
      (serverTwoWorkspaces, Phase.Active,
        [ .write 1 (.obj [("type", .str "error"),
            ("payload", .obj [("message", .str "key \"color\": missing")]),
            ("requestId", .str "req-2")]) ]) ∧
    ∃ calls text,
      ((calls = [] ∧ GoError.db (.uniqueViolation "layer" "id") = .errorf text) ∨
       (∃ call e, calls = [Event.dbCall call] ∧ call.run true storeThreeLayers = .error e ∧
          GoError.db (.uniqueViolation "layer" "id") = .db e ∧ text = e.Error)) ∧
      text = (GoError.db (.uniqueViolation "layer" "id")).Error ∧
      readLoopStep (fun _ => false) true sessionA ⟨storeThreeLayers, registryTwoWorkspaces⟩
          (.message addLayerMessage) =
        (⟨storeThreeLayers, registryTwoWorkspaces⟩, Phase.Active, calls ++
          [Event.write sessionA.conn
            (JVal.obj ([("type", JVal.str "error"),
                        ("payload", JVal.obj [("message", JVal.str text)])] ++
              (if addLayerMessage.RequestID = "" then []
               else [("requestId", JVal.str addLayerMessage.RequestID)])))]) :=
  ⟨rfl, rfl, rfl, rfl, rfl,
    readLoop_handler_error (fun _ => false) true sessionA
      ⟨storeThreeLayers, registryTwoWorkspaces⟩ addLayerMessage
      handleAddLayer (.db (.uniqueViolation "layer" "id")) rfl rfl rfl⟩

/-- C10: for a registered session and a message whose type is not a key of
`actionHandlers`, whichever pooled connection would serve a store call: the
database and the registry are unchanged, the session stays Active, and the
events are exactly one write, on the sender's connection, of the frame
`{"type":"error","payload":{"message":"Unknown action: <type>"},"requestId":
<the message's>}` (an empty `requestId` is left out), whose text is not empty;
there is no store call, no ack and no broadcast. -/
theorem readLoop_unknown_action (dead : Conn → Bool) (fk : Bool) (ss : Session) (w : Server)
    (msg : ClientMessage)
    (hreg : (mapGet w.cm.connections ss.workspaceID).bind
      (fun clients => mapGet clients ss.clientID) = some ss.conn)
    (hunknown : msg.Type_ ∉ actionHandlers.map Prod.fst) :
    ∃ text, text = "Unknown action: " ++ msg.Type_ ∧ text ≠ "" ∧ 16 ≤ text.length ∧
      readLoopStep dead fk ss w (.message msg) =
        (w, Phase.Active,
          [Event.write ss.conn
            (JVal.obj ([("type", JVal.str "error"),
                        ("payload", JVal.obj [("message", JVal.str text)])] ++
              (if msg.RequestID = "" then []
               else [("requestId", JVal.str msg.RequestID)])))]) := by
  have hnone : mapGet actionHandlers msg.Type_ = none :=
    (mapGet_eq_none_iff actionHandlers msg.Type_).mpr hunknown
  have hlen : 16 ≤ ("Unknown action: " ++ msg.Type_).length := by
    simp only [String.length_append]
    have h2 : "Unknown action: ".length = 16 := by decide
    omega
  refine ⟨_, rfl, ?_, hlen, ?_⟩
  · intro h
    rw [h] at hlen
    have h3 : "".length = 0 := by decide
    omega
  · simp only [readLoopStep, hnone, sendTo_registered _ dead _ _ _ _ hreg, encode_error]

theorem readLoop_unknown_action_witness :
    (mapGet serverTwoWorkspaces.cm.connections sessionA.workspaceID).bind
      (fun clients => mapGet clients sessionA.clientID) = some sessionA.conn ∧
    unknownMessage.Type_ ∉ actionHandlers.map Prod.fst ∧
    readLoopStep (fun _ => false) true sessionA serverTwoWorkspaces (.message unknownMessage) =
      (serverTwoWorkspaces, Phase.Active,
        [ .write 1 (.obj [("type", .str "error"),
            ("payload", .obj [("message", .str "Unknown action: nonexistentAction")]),
            ("requestId", .str "req-3")]) ]) ∧
    ∃ text, text = "Unknown action: " ++ unknownMessage.Type_ ∧ text ≠ "" ∧
      16 ≤ text.length ∧
      readLoopStep (fun _ => false) true sessionA serverTwoWorkspaces
          (.message unknownMessage) =
        (serverTwoWorkspaces, Phase.Active,
          [Event.write sessionA.conn
            (JVal.obj ([("type", JVal.str "error"),
                        ("payload", JVal.obj [("message", JVal.str text)])] ++
              (if unknownMessage.RequestID = "" then []
               else [("requestId", JVal.str unknownMessage.RequestID)])))]) :=
  ⟨rfl, by decide, rfl,
    readLoop_unknown_action (fun _ => false) true sessionA serverTwoWorkspaces unknownMessage rfl
      (by decide)⟩

/-! ## `Disconnect` and `SendTo` -/

theorem mapGet_mapDelete_self {κ ν : Type} [DecidableEq κ] (m : List (κ × ν)) (k : κ) :
    mapGet (mapDelete m k) k = none := by
  rw [mapGet_eq_none_iff]
  intro h
  obtain ⟨p, hp, hk⟩ := List.mem_map.mp h
  have := (List.mem_filter.mp hp).2
  simp [hk] at this

theorem mapGet_mapDelete_ne {κ ν : Type} [DecidableEq κ] (m : List (κ × ν)) (k k1 : κ)
    (hne : k1 ≠ k) : mapGet (mapDelete m k) k1 = mapGet m k1 := by
  induction m with
  | nil => rfl
  | cons p rest ih =>
    obtain ⟨k0, v0⟩ := p
    simp only [mapDelete, ne_eq, decide_not] at ih ⊢
    by_cases h0 : k0 = k
    · have h1 : ¬ k = k1 := fun h => hne h.symm
      subst h0
      simp [List.filter_cons, mapGet, ih, h1]
    · by_cases h1 : k0 = k1
      · subst h1
        simp [List.filter_cons, h0, mapGet]
      · simp [List.filter_cons, h0, mapGet, h1, ih]

theorem mapDelete_eq_self {κ ν : Type} [DecidableEq κ] (m : List (κ × ν)) (k : κ)
    (h : mapGet m k = none) : mapDelete m k = m := by
  unfold mapDelete
  rw [List.filter_eq_self]
  intro p hp
  have hk := (mapGet_eq_none_iff m k).mp h
  have : p.1 ≠ k := fun hc => hk (List.mem_map.mpr ⟨p, hp, hc⟩)
  simpa using this

theorem mapSet_eq_self {κ ν : Type} [DecidableEq κ] (m : List (κ × ν)) (k : κ) (v : ν)
    (h : mapGet m k = some v) : mapSet m k v = m := by
  induction m with
  | nil => simp [mapGet] at h
  | cons p rest ih =>
    obtain ⟨k0, v0⟩ := p
    by_cases h0 : k0 = k
    · simp [mapGet, h0] at h
      simp [mapSet, h0, h]
    · simp [mapGet, h0] at h
      simp [mapSet, h0, ih h]

theorem lookup_eq_none_iff (cm : ConnectionManager) (W c : String) :
    cm.lookup W c = none ↔
      (mapGet cm.connections W = none ∨
        ∃ clients, mapGet cm.connections W = some clients ∧ mapGet clients c = none) := by
  unfold ConnectionManager.lookup
  cases h : mapGet cm.connections W with
  | none => simp
  | some clients => simp

theorem mem_mapSet {κ ν : Type} [DecidableEq κ] (m : List (κ × ν)) (k : κ) (v : ν)
    (p : κ × ν) (h : p ∈ mapSet m k v) : p ∈ m ∨ p = (k, v) := by
  induction m with
  | nil => simp [mapSet] at h; exact Or.inr h
  | cons q rest ih =>
    obtain ⟨k0, v0⟩ := q
    by_cases h0 : k0 = k
    · simp only [mapSet, h0, if_true, List.mem_cons] at h
      rcases h with h | h
      · exact Or.inr h
      · exact Or.inl (List.mem_cons_of_mem _ h)
    · simp only [mapSet, h0, if_false, List.mem_cons] at h
      rcases h with h | h
      · exact Or.inl (h ▸ List.mem_cons_self _ _)
      · rcases ih h with h1 | h1
        · exact Or.inl (List.mem_cons_of_mem _ h1)
        · exact Or.inr h1

/-- `Disconnect`, by cases on the bucket of the workspace. -/
theorem disconnect_cases (cm : ConnectionManager) (W c : String) :
    (mapGet cm.connections W = none ∧ cm.Disconnect W c = cm) ∨
    (∃ clients, mapGet cm.connections W = some clients ∧ mapDelete clients c = [] ∧
      cm.Disconnect W c = ⟨mapDelete cm.connections W⟩) ∨
    (∃ clients, mapGet cm.connections W = some clients ∧ mapDelete clients c ≠ [] ∧
      cm.Disconnect W c = ⟨mapSet cm.connections W (mapDelete clients c)⟩) := by
  unfold ConnectionManager.Disconnect
  cases h : mapGet cm.connections W with
  | none => exact Or.inl ⟨rfl, rfl⟩
  | some clients =>
    by_cases h1 : mapDelete clients c = []
    · exact Or.inr (Or.inl ⟨clients, rfl, h1, by simp [h1]⟩)
    · refine Or.inr (Or.inr ⟨clients, rfl, h1, ?_⟩)
      have : ¬ (mapDelete clients c).length = 0 := fun h2 => h1 (List.length_eq_zero.mp h2)
      simp [this]

/-- C19: in a registry without empty buckets, after `Disconnect W c` no
connection is registered for `c` under `W`, every other registration is as
before, the registry has no bucket for `W` when `c` was the only client of
`W`, the registry is unchanged when `c` was not registered under `W`, and
there is still no empty bucket. -/
theorem disconnect_removes_entry (cm : ConnectionManager) (W c : String)
    (hne : ∀ b ∈ cm.connections, b.2 ≠ []) :
    (cm.Disconnect W c).lookup W c = none ∧
    (∀ w c1, (w, c1) ≠ (W, c) → (cm.Disconnect W c).lookup w c1 = cm.lookup w c1) ∧
    ((∀ c1 conn, (W, c1, conn) ∈ cm.entries → c1 = c) →
      mapGet (cm.Disconnect W c).connections W = none) ∧
    (cm.lookup W c = none → cm.Disconnect W c = cm) ∧
    (∀ b ∈ (cm.Disconnect W c).connections, b.2 ≠ []) := by
  rcases disconnect_cases cm W c with ⟨hg, hd⟩ | ⟨clients, hg, he, hd⟩ | ⟨clients, hg, he, hd⟩
  · rw [hd]
    refine ⟨?_, fun _ _ _ => rfl, fun _ => hg, fun _ => rfl, hne⟩
    simp [ConnectionManager.lookup, hg]
  · rw [hd]
    have hother : ∀ c1, c1 ≠ c → mapGet clients c1 = none := by
      intro c1 hc1
      rw [← mapGet_mapDelete_ne clients c c1 hc1, he]
      rfl
    refine ⟨?_, ?_, ?_, ?_, ?_⟩
    · simp [ConnectionManager.lookup, mapGet_mapDelete_self]
    · intro w c1 hne1
      by_cases hw : w = W
      · subst hw
        have hc1 : c1 ≠ c := fun h => hne1 (by rw [h])
        simp [ConnectionManager.lookup, mapGet_mapDelete_self, hg, hother c1 hc1]
      · simp [ConnectionManager.lookup, mapGet_mapDelete_ne _ W w hw]
    · intro _
      exact mapGet_mapDelete_self _ _
    · intro hl
      exfalso
      have hcl : clients ≠ [] := hne (W, clients) (mem_of_mapGet _ _ _ hg)
      have hnone : mapGet clients c = none := by
        simpa [ConnectionManager.lookup, hg] using hl
      rw [mapDelete_eq_self clients c hnone] at he
      exact hcl he
    · intro b hb
      exact hne b (List.mem_filter.mp hb).1
  · rw [hd]
    refine ⟨?_, ?_, ?_, ?_, ?_⟩
    · simp [ConnectionManager.lookup, mapGet_mapSet, mapGet_mapDelete_self]
    · intro w c1 hne1
      by_cases hw : w = W
      · subst hw
        have hc1 : c1 ≠ c := fun h => hne1 (by rw [h])
        simp [ConnectionManager.lookup, mapGet_mapSet, hg, mapGet_mapDelete_ne _ c c1 hc1]
      · have hw1 : ¬ W = w := fun h => hw h.symm
        simp [ConnectionManager.lookup, mapGet_mapSet, hw1]
    · intro hall
      exfalso
      apply he
      unfold mapDelete
      rw [List.filter_eq_nil_iff]
      intro p hp
      have := hall p.1 p.2 ((mem_entries cm W p.1 p.2).mpr ⟨clients, mem_of_mapGet _ _ _ hg, hp⟩)
      simp [this]
    · intro hl
      have hnone : mapGet clients c = none := by
        simpa [ConnectionManager.lookup, hg] using hl
      rw [mapDelete_eq_self clients c hnone, mapSet_eq_self _ _ _ hg]
    · intro b hb
      rcases mem_mapSet _ _ _ b hb with h | h
      · exact hne b h
      · rw [h]; exact he

theorem disconnect_removes_entry_witness :
    (∀ b ∈ registryTwoWorkspaces.connections, b.2 ≠ []) ∧
    (registryTwoWorkspaces.Disconnect "ws2" "d").lookup "ws2" "d" = none ∧
    (∀ w c1, (w, c1) ≠ ("ws2", "d") →
      (registryTwoWorkspaces.Disconnect "ws2" "d").lookup w c1 =
        registryTwoWorkspaces.lookup w c1) ∧
    ((∀ c1 conn, ("ws2", c1, conn) ∈ registryTwoWorkspaces.entries → c1 = "d") →
      mapGet (registryTwoWorkspaces.Disconnect "ws2" "d").connections "ws2" = none) ∧
    (registryTwoWorkspaces.lookup "ws2" "d" = none →
      registryTwoWorkspaces.Disconnect "ws2" "d" = registryTwoWorkspaces) ∧
    (∀ b ∈ (registryTwoWorkspaces.Disconnect "ws2" "d").connections, b.2 ≠ []) :=
  ⟨by decide, disconnect_removes_entry registryTwoWorkspaces "ws2" "d" (by decide)⟩

/-- C20: `SendTo W c msg` returns the error `client <c> not found` and writes
nothing when no connection is registered for `c` under `W`, which is the case
when `W` has no bucket and when its bucket does not hold `c`; when a
connection is registered it performs exactly one write, of the encoded
message on that connection, and returns the outcome of that write. -/
theorem sendTo_not_found_or_single_write (cm : ConnectionManager) (dead : Conn → Bool)
    (W c : String) (msg : ServerMessage) :
    (cm.SendTo dead W c msg =
      match cm.lookup W c with
      | none => (some (GoError.errorf ("client " ++ c ++ " not found")), [])
      | some conn =>
        (if dead conn then some (GoError.transport "write failed") else none,
         [Event.write conn msg.encode])) ∧
    (cm.lookup W c = none ↔
      (mapGet cm.connections W = none ∨
        ∃ clients, mapGet cm.connections W = some clients ∧ mapGet clients c = none)) := by
  refine ⟨?_, lookup_eq_none_iff cm W c⟩
  unfold ConnectionManager.SendTo ConnectionManager.lookup
  cases (mapGet cm.connections W).bind (fun clients => mapGet clients c) with
  | none => rfl
  | some conn => rfl

/-! ## Idempotence of `ReorderLayers` -/

/-- The loop of `ReorderLayers` acts on each row by itself and changes only
its position. -/
theorem reorderLayersLoop_rowwise (ws : String) (L : List String) :
    ∀ (pos : Nat) (rows : List LayerRow),
      reorderLayersLoop ws pos L rows =
        rows.map (fun r => { r with position := layerPositionAfter ws pos L r }) := by
  induction L with
  | nil =>
    intro pos rows
    simp only [reorderLayersLoop, layerPositionAfter]
    exact (List.map_id rows).symm
  | cons a rest ih =>
    intro pos rows
    rw [reorderLayersLoop, ih, setPosition_eq_map, List.map_map]
    apply List.map_congr_left
    intro r _
    simp only [Function.comp, layerPositionAfter]
    split <;> rfl

/-- The final position of a row depends on its `id` and `workspace_id` only,
unless no entry of the list matches it, and then it is the position the row
had. -/
theorem layerPositionAfter_cases (ws : String) (L : List String) :
    ∀ (pos : Nat) (r1 r2 : LayerRow), r1.id = r2.id → r1.workspace_id = r2.workspace_id →
      (layerPositionAfter ws pos L r1 = r1.position ∧
        layerPositionAfter ws pos L r2 = r2.position) ∨
      layerPositionAfter ws pos L r1 = layerPositionAfter ws pos L r2 := by
  induction L with
  | nil => intro pos r1 r2 _ _; exact Or.inl ⟨rfl, rfl⟩
  | cons a rest ih =>
    intro pos r1 r2 hid hw
    simp only [layerPositionAfter]
    by_cases h : r1.id = a ∧ r1.workspace_id = ws
    · have h2 : r2.id = a ∧ r2.workspace_id = ws := by rw [← hid, ← hw]; exact h
      rw [if_pos h, if_pos h2]
      rcases ih (pos + 1) { r1 with position := (pos : Int) } { r2 with position := (pos : Int) }
        hid hw with ⟨h3, h4⟩ | h3
      · exact Or.inr (h3.trans h4.symm)
      · exact Or.inr h3
    · have h2 : ¬ (r2.id = a ∧ r2.workspace_id = ws) := by rw [← hid, ← hw]; exact h
      rw [if_neg h, if_neg h2]
      exact ih (pos + 1) r1 r2 hid hw

theorem layerPositionAfter_idem (ws : String) (L : List String) (pos : Nat) (r : LayerRow) :
    layerPositionAfter ws pos L { r with position := layerPositionAfter ws pos L r } =
      layerPositionAfter ws pos L r := by
  rcases layerPositionAfter_cases ws L pos r
    { r with position := layerPositionAfter ws pos L r } rfl rfl with ⟨_, h2⟩ | h
  · exact h2
  · exact h.symm

/-- C15: for every store and every list of layer ids (a permutation of the
workspace's layer ids or not), `ReorderLayers` succeeds and applying it again
to its result returns that same store. -/
theorem reorderLayers_idempotent (s : Store) (ws : String) (L : List String) :
    ∃ s1, ReorderLayers s ws L = .ok s1 ∧ ReorderLayers s1 ws L = .ok s1 := by
  refine ⟨_, rfl, ?_⟩
  unfold ReorderLayers
  simp only [reorderLayersLoop_rowwise, List.map_map]
  congr 2
  apply List.map_congr_left
  intro r _
  simp only [Function.comp]
  rw [layerPositionAfter_idem]

/-! ## Reading rows back in order -/

/-- A list sorted by an integer key whose keys are a permutation of `0..n-1`
has the keys `0, 1, .., n-1` in this order. -/
theorem keys_eq_range_of_sorted {α : Type} (l : List α) (key : α → Int) (n : Nat)
    (hs : l.Pairwise (fun a b => key a ≤ key b))
    (hp : (l.map key).Perm ((List.range n).map Int.ofNat)) :
    l.map key = (List.range n).map Int.ofNat := by
  have h1 : (l.map key).Sorted (· ≤ ·) := List.Pairwise.map key (fun _ _ h => h) hs
  have h2 : ((List.range n).map Int.ofNat).Sorted (· ≤ ·) :=
    List.Pairwise.map Int.ofNat (fun _ _ h => Int.ofNat_le.mpr h) (List.sorted_le_range n)
  exact List.eq_of_perm_of_sorted hp h1 h2

theorem key_getElem_of_sorted {α : Type} (l : List α) (key : α → Int) (n : Nat)
    (hs : l.Pairwise (fun a b => key a ≤ key b))
    (hp : (l.map key).Perm ((List.range n).map Int.ofNat)) (i : Nat) (hi : i < l.length) :
    key l[i] = (i : Int) := by
  have h := keys_eq_range_of_sorted l key n hs hp
  have h1 : (l.map key)[i]? = (((List.range n).map Int.ofNat))[i]? := by rw [h]
  have hn : i < n := by
    have := congrArg List.length h
    simp at this
    omega
  simp [List.getElem?_map, List.getElem?_eq_getElem hi, List.getElem?_range hn] at h1
  exact h1

theorem layersOrdered_sorted (s : Store) (ws : String) :
    (layersOrdered s ws).Pairwise (fun a b => a.position ≤ b.position) := by
  haveI : IsTotal LayerRow (fun a b => a.position ≤ b.position) :=
    ⟨fun a b => le_total a.position b.position⟩
  haveI : IsTrans LayerRow (fun a b => a.position ≤ b.position) :=
    ⟨fun _ _ _ h1 h2 => le_trans h1 h2⟩
  exact List.sorted_insertionSort _ _

theorem layersOrdered_perm (s : Store) (ws : String) :
    (layersOrdered s ws).Perm (s.layer.filter (fun r => r.workspace_id = ws)) :=
  List.perm_insertionSort _ _

/-- The layers of the workspace after `ReorderLayers` with a permutation of
their ids: each has its place in the list as position. -/
theorem reorderLayers_filter (s : Store) (ws : String) (L : List String)
    (hpk : (s.layer.map (·.id)).Nodup)
    (hperm : L.Perm ((s.layer.filter (fun r => r.workspace_id = ws)).map (·.id))) :
    (reorderLayersLoop ws 0 L s.layer).filter (fun r => r.workspace_id = ws) =
      (s.layer.filter (fun r => r.workspace_id = ws)).map (fun r =>
        { r with position := ((L.indexOf r.id : Nat) : Int) }) := by
  have hL : L.Nodup := (hperm.nodup_iff).mpr (nodup_ids_of_workspace s.layer ws hpk)
  rw [reorderLayersLoop_eq ws L hL, List.filter_map]
  have hc : ((fun r : LayerRow => decide (r.workspace_id = ws)) ∘ (fun r =>
      if r.workspace_id = ws ∧ r.id ∈ L then
        { r with position := ((0 + L.indexOf r.id : Nat) : Int) }
      else r)) = (fun r : LayerRow => decide (r.workspace_id = ws)) := by
    funext r
    simp only [Function.comp]
    split <;> rfl
  rw [hc]
  apply List.map_congr_left
  intro r hr
  have hw : r.workspace_id = ws := by simpa using (List.mem_filter.mp hr).2
  have hin : r.id ∈ L := hperm.symm.subset (List.mem_map.mpr ⟨r, hr, rfl⟩)
  simp [hw, hin]

/-- After `ReorderLayers` with a permutation `L` of the workspace's layer ids,
the layers read in `position` order have the ids `L`. -/
theorem layersOrdered_after_reorder (s : Store) (ws : String) (L : List String)
    (hpk : (s.layer.map (·.id)).Nodup)
    (hperm : L.Perm ((s.layer.filter (fun r => r.workspace_id = ws)).map (·.id))) :
    (layersOrdered { s with layer := reorderLayersLoop ws 0 L s.layer } ws).map (·.id) = L := by
  have hL : L.Nodup := (hperm.nodup_iff).mpr (nodup_ids_of_workspace s.layer ws hpk)
  have hf := reorderLayers_filter s ws L hpk hperm
  have hperm1 := layersOrdered_perm { s with layer := reorderLayersLoop ws 0 L s.layer } ws
  simp only [] at hperm1
  rw [hf] at hperm1
  have hrow : ∀ x ∈ layersOrdered { s with layer := reorderLayersLoop ws 0 L s.layer } ws,
      x.id ∈ L ∧ x.position = ((L.indexOf x.id : Nat) : Int) := by
    intro x hx
    obtain ⟨r, hr, rfl⟩ := List.mem_map.mp (hperm1.subset hx)
    exact ⟨hperm.symm.subset (List.mem_map.mpr ⟨r, hr, rfl⟩), rfl⟩
  have hkeys : ((layersOrdered { s with layer := reorderLayersLoop ws 0 L s.layer } ws).map
      (·.position)).Perm ((List.range L.length).map Int.ofNat) := by
    refine (List.Perm.map _ hperm1).trans ?_
    rw [List.map_map]
    have h2 := perm_map_indexOf
      ((s.layer.filter (fun r => r.workspace_id = ws)).map (·.id)) L hperm hL
    have h3 := List.Perm.map Int.ofNat h2
    simpa [List.map_map, Function.comp] using h3
  have hlen : (layersOrdered { s with layer := reorderLayersLoop ws 0 L s.layer } ws).length
      = L.length := by
    have := hkeys.length_eq
    simpa using this
  apply List.ext_getElem
  · simp [hlen]
  · intro i h1 h2
    simp only [List.getElem_map]
    have hi : i < (layersOrdered { s with layer := reorderLayersLoop ws 0 L s.layer } ws).length :=
      by simpa using h1
    have hk := key_getElem_of_sorted _ (fun r : LayerRow => r.position) L.length
      (layersOrdered_sorted _ ws) hkeys i hi
    obtain ⟨hin, hpos⟩ := hrow _ (List.getElem_mem hi)
    simp only [] at hk
    rw [hpos] at hk
    have hidx : L.indexOf
        ((layersOrdered { s with layer := reorderLayersLoop ws 0 L s.layer } ws)[i]).id = i :=
      Int.ofNat.inj hk
    have hlt : L.indexOf
        ((layersOrdered { s with layer := reorderLayersLoop ws 0 L s.layer } ws)[i]).id
          < L.length := List.indexOf_lt_length.mpr hin
    have := List.getElem_indexOf hlt
    simp only [hidx] at this
    exact this.symm

/-- C16: with distinct layer ids (primary key) and `L` a permutation of the ids
of the layers of workspace `ws`, `ReorderLayers ws L` succeeds and the
`GetWorkspaceState` that follows succeeds and lists layers whose ids are
exactly `L`, in that order. -/
theorem getWorkspaceState_after_reorderLayers (s : Store) (ws : String) (L : List String)
    (hpk : (s.layer.map (·.id)).Nodup)
    (hperm : L.Perm ((s.layer.filter (fun r => r.workspace_id = ws)).map (·.id))) :
    ∃ s1 st, ReorderLayers s ws L = .ok s1 ∧ GetWorkspaceState s1 ws = .ok st ∧
      st.Layers.map (·.ID) = L := by
  refine ⟨_, _, rfl, rfl, ?_⟩
  simp only [List.map_map]
  exact layersOrdered_after_reorder s ws L hpk hperm

theorem getWorkspaceState_after_reorderLayers_witness :
    (storeThreeLayers.layer.map (·.id)).Nodup ∧
    ["l3", "l1", "l2"].Perm
      ((storeThreeLayers.layer.filter (fun r => r.workspace_id = "ws1")).map (·.id)) ∧
    ∃ s1 st, ReorderLayers storeThreeLayers "ws1" ["l3", "l1", "l2"] = .ok s1 ∧
      GetWorkspaceState s1 "ws1" = .ok st ∧ st.Layers.map (·.ID) = ["l3", "l1", "l2"] :=
  ⟨by decide, by decide,
    getWorkspaceState_after_reorderLayers storeThreeLayers "ws1" ["l3", "l1", "l2"]
      (by decide) (by decide)⟩

/-- C17: when every editor row and every layer row references an existing
workspace (foreign keys) and `id` is not a workspace, `EnsureWorkspace id`
succeeds and the `GetWorkspaceState id` that follows returns the snapshot with
`WorkspaceID = id`, no layer, and exactly one editor: index 0, name
"Passage 1", visible, nil content. -/
theorem ensureWorkspace_then_state (s : Store) (id : String)
    (hfk : ∀ e ∈ s.editor, e.workspace_id ∈ s.workspace)
    (hfkl : ∀ l ∈ s.layer, l.workspace_id ∈ s.workspace) (hnew : id ∉ s.workspace) :
    ∃ s1 st, EnsureWorkspace s id = .ok s1 ∧ GetWorkspaceState s1 id = .ok st ∧
      st.WorkspaceID = id ∧ st.Layers = [] ∧
      st.Editors = [{ Index := 0, Name := "Passage 1", Visible := true,
                      ContentJSON := JVal.null }] := by
  have h0 : s.editor.filter (fun e => e.workspace_id = id) = [] := by
    rw [List.filter_eq_nil_iff]
    intro e he hw
    have hw1 : e.workspace_id = id := by simpa using hw
    exact hnew (hw1 ▸ hfk e he)
  have h1 : s.layer.filter (fun l => l.workspace_id = id) = [] := by
    rw [List.filter_eq_nil_iff]
    intro l hl hw
    have hw1 : l.workspace_id = id := by simpa using hw
    exact hnew (hw1 ▸ hfkl l hl)
  refine ⟨_, _, ensureWorkspace_new s id hnew, rfl, rfl, ?_, ?_⟩
  · simp [layersOrdered, h1]
  · simp [editorsOrdered, List.filter_append, h0, defaultEditor, EditorRow.toModel]

theorem ensureWorkspace_then_state_witness :
    (∀ e ∈ storeOneEditor.editor, e.workspace_id ∈ storeOneEditor.workspace) ∧
    (∀ l ∈ storeOneEditor.layer, l.workspace_id ∈ storeOneEditor.workspace) ∧
    "ws2" ∉ storeOneEditor.workspace ∧
    ∃ s1 st, EnsureWorkspace storeOneEditor "ws2" = .ok s1 ∧
      GetWorkspaceState s1 "ws2" = .ok st ∧
      st.WorkspaceID = "ws2" ∧ st.Layers = [] ∧
      st.Editors = [{ Index := 0, Name := "Passage 1", Visible := true,
                      ContentJSON := JVal.null }] :=
  ⟨by decide, by decide, by decide,
    ensureWorkspace_then_state storeOneEditor "ws2" (by decide) (by decide) (by decide)⟩

/-! ## `AddLayer` -/

theorem int_max?_spec (l : List Int) (m : Int) (h : l.max? = some m) :
    m ∈ l ∧ ∀ x ∈ l, x ≤ m := by
  haveI : Std.Antisymm (fun (x1 x2 : Int) => x1 ≤ x2) := ⟨fun h1 h2 => le_antisymm h1 h2⟩
  exact (List.max?_eq_some_iff (fun a => le_refl a) (fun a b => max_choice a b)
    (fun _ _ _ => max_le_iff)).mp h

theorem orderedInsert_append_last (a x : LayerRow) (m : List LayerRow)
    (h : a.position ≤ x.position) :
    List.orderedInsert (fun a b : LayerRow => a.position ≤ b.position) a (m ++ [x]) =
      List.orderedInsert (fun a b : LayerRow => a.position ≤ b.position) a m ++ [x] := by
  induction m with
  | nil => simp [List.orderedInsert, h]
  | cons b rest ih =>
    by_cases hb : a.position ≤ b.position
    · simp [List.orderedInsert, hb]
    · simp [List.orderedInsert, hb, ih]

theorem insertionSort_append_last (l : List LayerRow) (x : LayerRow)
    (h : ∀ a ∈ l, a.position ≤ x.position) :
    List.insertionSort (fun a b : LayerRow => a.position ≤ b.position) (l ++ [x]) =
      List.insertionSort (fun a b : LayerRow => a.position ≤ b.position) l ++ [x] := by
  induction l with
  | nil => simp [List.insertionSort, List.orderedInsert]
  | cons a rest ih =>
    have h1 : ∀ b ∈ rest, b.position ≤ x.position := fun b hb => h b (List.mem_cons_of_mem _ hb)
    show List.orderedInsert _ a (List.insertionSort _ (rest ++ [x])) =
      List.orderedInsert _ a (List.insertionSort _ rest) ++ [x]
    rw [ih h1]
    exact orderedInsert_append_last a x _ (h a (List.mem_cons_self _ _))

/-- The position `AddLayer` computes: 0 for a workspace without layers, else
one more than the largest position among the layers of the workspace. -/
theorem nextLayerPosition_spec (s : Store) (ws : String) :
    (s.layer.filter (fun r => r.workspace_id = ws) = [] → nextLayerPosition s ws = 0) ∧
    (∀ r ∈ s.layer, r.workspace_id = ws → r.position < nextLayerPosition s ws) ∧
    (s.layer.filter (fun r => r.workspace_id = ws) ≠ [] →
      ∃ r ∈ s.layer, r.workspace_id = ws ∧ nextLayerPosition s ws = r.position + 1) := by
  unfold nextLayerPosition
  cases hm : ((s.layer.filter (fun r => r.workspace_id = ws)).map (·.position)).max? with
  | none =>
    have hnil : s.layer.filter (fun r => r.workspace_id = ws) = [] := by
      have := List.max?_eq_none_iff.mp hm
      simpa using this
    refine ⟨fun _ => by simp, ?_, fun h => absurd hnil h⟩
    intro r hr hw
    have : r ∈ s.layer.filter (fun r => r.workspace_id = ws) :=
      List.mem_filter.mpr ⟨hr, by simpa using hw⟩
    rw [hnil] at this
    simp at this
  | some m =>
    obtain ⟨hmem, hle⟩ := int_max?_spec _ m hm
    refine ⟨?_, ?_, ?_⟩
    · intro hnil
      rw [hnil] at hmem
      simp at hmem
    · intro r hr hw
      have : r.position ≤ m := hle _ (List.mem_map.mpr
        ⟨r, List.mem_filter.mpr ⟨hr, by simpa using hw⟩, rfl⟩)
      show r.position < m + 1
      omega
    · intro _
      obtain ⟨r, hr, hp⟩ := List.mem_map.mp hmem
      have hr1 := List.mem_filter.mp hr
      exact ⟨r, hr1.1, by simpa using hr1.2, by show m + 1 = r.position + 1; rw [hp]⟩

/-- C18: for a fresh layer id and an existing workspace, `AddLayer` succeeds
and appends the layer with position `p`, where `p = 0` when the workspace has
no layer and otherwise `p` is one more than the position of some layer of the
workspace; `p` is strictly greater than the position of every layer of the
workspace, the new layer is the last one in the workspace snapshot, and `p`
is the same in every store that holds the same layers for this workspace. -/
theorem addLayer_appends (s : Store) (ws layerID name color : String)
    (hfresh : layerID ∉ s.layer.map (·.id)) (hws : ws ∈ s.workspace) :
    ∃ s1 p st, AddLayer s ws layerID name color = .ok s1 ∧
      s1.layer = s.layer ++ [⟨layerID, ws, name, color, true, p⟩] ∧
      (s.layer.filter (fun r => r.workspace_id = ws) = [] → p = 0) ∧
      (∀ r ∈ s.layer, r.workspace_id = ws → r.position < p) ∧
      (s.layer.filter (fun r => r.workspace_id = ws) ≠ [] →
        ∃ r ∈ s.layer, r.workspace_id = ws ∧ p = r.position + 1) ∧
      GetWorkspaceState s1 ws = .ok st ∧
      st.Layers.getLast?.map (·.ID) = some layerID ∧
      (∀ t : Store, t.layer.filter (fun r => r.workspace_id = ws) =
          s.layer.filter (fun r => r.workspace_id = ws) → nextLayerPosition t ws = p) := by
  obtain ⟨h1, h2, h3⟩ := nextLayerPosition_spec s ws
  refine ⟨{ s with layer := s.layer ++
      [⟨layerID, ws, name, color, true, nextLayerPosition s ws⟩] },
    nextLayerPosition s ws, _, ?_, rfl, h1, h2, h3, rfl, ?_, ?_⟩
  · simp [AddLayer, insertLayer, hfresh, hws]
  · have hsort : layersOrdered
        { s with layer := s.layer ++ [⟨layerID, ws, name, color, true, nextLayerPosition s ws⟩] }
        ws = layersOrdered s ws ++ [⟨layerID, ws, name, color, true, nextLayerPosition s ws⟩] := by
      unfold layersOrdered
      simp only [List.filter_append, List.filter_cons, decide_True, if_true, List.filter_nil]
      apply insertionSort_append_last
      intro a ha
      have ha1 := List.mem_filter.mp ha
      exact le_of_lt (h2 a ha1.1 (by simpa using ha1.2))
    simp only [hsort, List.map_append, List.map_cons, List.map_nil, List.getLast?_concat,
      Option.map_some']
  · intro t ht
    unfold nextLayerPosition
    rw [ht]

theorem addLayer_appends_witness :
    "l4" ∉ storeThreeLayers.layer.map (·.id) ∧ "ws1" ∈ storeThreeLayers.workspace ∧
    ∃ s1 p st, AddLayer storeThreeLayers "ws1" "l4" "Layer 4" "#ffffff" = .ok s1 ∧
      s1.layer = storeThreeLayers.layer ++ [⟨"l4", "ws1", "Layer 4", "#ffffff", true, p⟩] ∧
      (storeThreeLayers.layer.filter (fun r => r.workspace_id = "ws1") = [] → p = 0) ∧
      (∀ r ∈ storeThreeLayers.layer, r.workspace_id = "ws1" → r.position < p) ∧
      (storeThreeLayers.layer.filter (fun r => r.workspace_id = "ws1") ≠ [] →
        ∃ r ∈ storeThreeLayers.layer, r.workspace_id = "ws1" ∧ p = r.position + 1) ∧
      GetWorkspaceState s1 "ws1" = .ok st ∧
      st.Layers.getLast?.map (·.ID) = some "l4" ∧
      (∀ t : Store, t.layer.filter (fun r => r.workspace_id = "ws1") =
          storeThreeLayers.layer.filter (fun r => r.workspace_id = "ws1") →
        nextLayerPosition t "ws1" = p) :=
  ⟨by decide, by decide,
    addLayer_appends storeThreeLayers "ws1" "l4" "Layer 4" "#ffffff" (by decide) (by decide)⟩

/-! ## `ReorderEditors` with a permutation -/

/-- The editors of the workspace after `ReorderEditors` with a list that holds
all their indices: each has the place of its old index in the list as index. -/
theorem reorderEditors_filter (s : Store) (ws : String) (P : List Int)
    (hin : ∀ e ∈ s.editor, e.workspace_id = ws → e.index_pos ∈ P) :
    (s.editor.map (fun e =>
      if e.workspace_id = ws ∧ e.index_pos ∈ P then
        { e with index_pos := ((P.indexOf e.index_pos : Nat) : Int) }
      else e)).filter (fun e => e.workspace_id = ws) =
    (s.editor.filter (fun e => e.workspace_id = ws)).map (fun e =>
      { e with index_pos := ((P.indexOf e.index_pos : Nat) : Int) }) := by
  rw [filter_map_workspace _ _ (by intro e; split <;> rfl)]
  apply List.map_congr_left
  intro e he
  have he1 := List.mem_filter.mp he
  have hw : e.workspace_id = ws := by simpa using he1.2
  simp [hw, hin e he1.1 hw]

/-- C14: with distinct editor ids (primary key), when the `n` editors of
workspace `ws` have the indices `0..n-1` and `P` is a permutation of
`0..n-1`, `ReorderEditors ws P` succeeds, the editor that had index `P[i]` is
unchanged but for its index, which is `i`, and the `GetWorkspaceState` that
follows lists `n` editors, the `i`-th being the one that had index `P[i]`. -/
theorem reorderEditors_permutation (s : Store) (ws : String) (P : List Int)
    (hpk : (s.editor.map (·.id)).Nodup)
    (hcont : (editorIndices s ws).Perm
      ((List.range (editorIndices s ws).length).map Int.ofNat))
    (hP : P.Perm ((List.range (editorIndices s ws).length).map Int.ofNat)) :
    ∃ s1 st, ReorderEditors s ws P = .ok s1 ∧ GetWorkspaceState s1 ws = .ok st ∧
      st.Editors.length = P.length ∧
      (∀ (i : Nat) (hi : i < P.length), ∀ e ∈ s.editor, e.workspace_id = ws →
        e.index_pos = P[i] →
          { e with index_pos := (i : Int) } ∈ s1.editor ∧
          st.Editors[i]? = some ({ e with index_pos := (i : Int) } : EditorRow).toModel) := by
  have hPnd : P.Nodup := (hP.nodup_iff).mpr (nodup_range_int _)
  have hidx : (editorIndices s ws).Nodup := (hcont.nodup_iff).mpr (nodup_range_int _)
  have hPI : P.Perm (editorIndices s ws) := hP.trans hcont.symm
  have hin : ∀ e ∈ s.editor, e.workspace_id = ws → e.index_pos ∈ P := by
    intro e he hw
    exact hPI.symm.subset (List.mem_map.mpr ⟨e, List.mem_filter.mpr ⟨he, by simpa using hw⟩, rfl⟩)
  have hf := reorderEditors_filter s ws P hin
  have hsorted := editorsOrdered_sorted
    { s with editor := s.editor.map (fun e =>
      if e.workspace_id = ws ∧ e.index_pos ∈ P then
        { e with index_pos := ((P.indexOf e.index_pos : Nat) : Int) }
      else e) } ws
  have hperm1 : (editorsOrdered
    { s with editor := s.editor.map (fun e =>
      if e.workspace_id = ws ∧ e.index_pos ∈ P then
        { e with index_pos := ((P.indexOf e.index_pos : Nat) : Int) }
      else e) } ws).Perm ((s.editor.filter (fun e => e.workspace_id = ws)).map (fun e =>
      { e with index_pos := ((P.indexOf e.index_pos : Nat) : Int) })) := by
    have := List.perm_insertionSort (fun a b : EditorRow => a.index_pos ≤ b.index_pos)
      ((s.editor.map (fun e =>
        if e.workspace_id = ws ∧ e.index_pos ∈ P then
          { e with index_pos := ((P.indexOf e.index_pos : Nat) : Int) }
        else e)).filter (fun e => e.workspace_id = ws))
    exact this.trans (List.Perm.of_eq hf)
  have hkeys : ((editorsOrdered
    { s with editor := s.editor.map (fun e =>
      if e.workspace_id = ws ∧ e.index_pos ∈ P then
        { e with index_pos := ((P.indexOf e.index_pos : Nat) : Int) }
      else e) } ws).map (·.index_pos)).Perm ((List.range P.length).map Int.ofNat) := by
    refine (List.Perm.map _ hperm1).trans ?_
    rw [List.map_map]
    have h2 := perm_map_indexOf (editorIndices s ws) P hPI hPnd
    have h3 := List.Perm.map Int.ofNat h2
    simpa [editorIndices, List.map_map, Function.comp] using h3
  have hlen : (editorsOrdered
    { s with editor := s.editor.map (fun e =>
      if e.workspace_id = ws ∧ e.index_pos ∈ P then
        { e with index_pos := ((P.indexOf e.index_pos : Nat) : Int) }
      else e) } ws).length = P.length := by
    have := hkeys.length_eq
    simpa using this
  refine ⟨_, _, reorderEditors_eq s ws P hpk hidx hPnd, rfl, ?_, ?_⟩
  · simp only [List.length_map]
    exact hlen
  · intro i hi e he hw hei
    have hidx_i : P.indexOf e.index_pos = i := by
      rw [hei]; exact List.indexOf_getElem hPnd i hi
    constructor
    · apply List.mem_map.mpr
      refine ⟨e, he, ?_⟩
      rw [if_pos ⟨hw, hin e he hw⟩, hidx_i]
    · have hi1 : i < (editorsOrdered
          { s with editor := s.editor.map (fun e =>
            if e.workspace_id = ws ∧ e.index_pos ∈ P then
              { e with index_pos := ((P.indexOf e.index_pos : Nat) : Int) }
            else e) } ws).length := by rw [hlen]; exact hi
      have hk := key_getElem_of_sorted _ (fun x : EditorRow => x.index_pos) P.length
        hsorted hkeys i hi1
      obtain ⟨e1, he1, hx⟩ := List.mem_map.mp (hperm1.subset (List.getElem_mem hi1))
      have he1s := List.mem_filter.mp he1
      have he1w : e1.workspace_id = ws := by simpa using he1s.2
      simp only [] at hk
      rw [← hx] at hk
      have hk1 : P.indexOf e1.index_pos = i := Int.ofNat.inj hk
      have hlt : P.indexOf e1.index_pos < P.length :=
        List.indexOf_lt_length.mpr (hin e1 he1s.1 he1w)
      have hval := List.getElem_indexOf hlt
      simp only [hk1] at hval
      have hsame : e1.index_pos = e.index_pos := by rw [← hval, hei]
      have hee : e1 = e :=
        List.inj_on_of_nodup_map hidx he1
          (List.mem_filter.mpr ⟨he, by simpa using hw⟩) hsame
      subst hee
      simp only [List.getElem?_map, List.getElem?_eq_getElem hi1, Option.map_some']
      rw [← hx, hk1]

theorem reorderEditors_permutation_witness :
    (storeThreeEditors.editor.map (·.id)).Nodup ∧
    (editorIndices storeThreeEditors "ws1").Perm
      ((List.range (editorIndices storeThreeEditors "ws1").length).map Int.ofNat) ∧
    [2, 1, 0].Perm ((List.range (editorIndices storeThreeEditors "ws1").length).map Int.ofNat) ∧
    (∃ s1 st, ReorderEditors storeThreeEditors "ws1" [2, 1, 0] = .ok s1 ∧
      GetWorkspaceState s1 "ws1" = .ok st ∧
      st.Editors.length = [2, 1, 0].length ∧
      (∀ (i : Nat) (hi : i < [2, 1, 0].length), ∀ e ∈ storeThreeEditors.editor,
        e.workspace_id = "ws1" → e.index_pos = ([2, 1, 0] : List Int)[i] →
          { e with index_pos := (i : Int) } ∈ s1.editor ∧
          st.Editors[i]? = some ({ e with index_pos := (i : Int) } : EditorRow).toModel)) ∧
    (∃ s1 st, ReorderEditors storeThreeEditors "ws1" [2, 1, 0] = .ok s1 ∧
      GetWorkspaceState s1 "ws1" = .ok st ∧
      st.Editors.map (·.Name) = ["Passage 3", "Passage 2", "Passage 1"]) :=
  ⟨by decide, by decide, by decide,
    reorderEditors_permutation storeThreeEditors "ws1" [2, 1, 0] (by decide) (by decide)
      (by decide),
    ⟨_, _, rfl, rfl, rfl⟩⟩

/-! ## Store operations under a failing driver -/

theorem sql_bind_apply {α β : Type} (m : Sql α) (g : α → Sql β) (n : Nat) :
    (m >>= g) n =
      match m n with
      | .error x => .error x
      | .ok (a, n1) => g a n1 := by
  show StateT.bind m g n = _
  unfold StateT.bind
  cases m n with
  | error x => rfl
  | ok p => rfl

theorem sql_pure_apply {α : Type} (a : α) (n : Nat) :
    (pure a : Sql α) n = .ok (a, n) := rfl

theorem unmodified_step {α : Type} (faults : Faults) {kind : StepKind}
    (r : Except DbError α) : Unmodified (Sql.step faults kind r) := by
  intro n x h
  unfold Sql.step at h
  cases hf : faults n with
  | some e => simp only [hf] at h; cases h; rfl
  | none =>
    simp only [hf] at h
    cases r with
    | ok a => cases h
    | error e => cases h; rfl

theorem unmodified_pure {α : Type} (a : α) : Unmodified (pure a : Sql α) := by
  intro n x h
  cases h

theorem unmodified_bind {α β : Type} (m : Sql α) (g : α → Sql β) (hm : Unmodified m)
    (hg : ∀ a, Unmodified (g a)) : Unmodified (m >>= g) := by
  intro n x h
  rw [sql_bind_apply] at h
  cases hr : m n with
  | error y =>
    simp only [hr] at h
    cases h
    exact hm n _ hr
  | ok p =>
    simp only [hr] at h
    exact hg p.1 p.2 x h

theorem swallowed_step {α : Type} (faults : Faults) {kind : StepKind}
    (r : Except DbError α) : NothingSwallowed faults (Sql.step faults kind r) := by
  intro n a n1 h
  unfold Sql.step at h
  cases hf : faults n with
  | some e => simp only [hf] at h; cases h
  | none =>
    simp only [hf] at h
    cases r with
    | error e => cases h
    | ok b =>
      cases h
      refine ⟨Nat.le_succ n, ?_⟩
      intro k h1 h2
      have : k = n := by omega
      rw [this]; exact hf

theorem swallowed_pure {α : Type} (faults : Faults) (a : α) :
    NothingSwallowed faults (pure a : Sql α) := by
  intro n b n1 h
  cases h
  exact ⟨Nat.le_refl _, fun k h1 h2 => by omega⟩

theorem swallowed_bind {α β : Type} (faults : Faults) (m : Sql α) (g : α → Sql β)
    (hm : NothingSwallowed faults m) (hg : ∀ a, NothingSwallowed faults (g a)) :
    NothingSwallowed faults (m >>= g) := by
  intro n b n2 h
  rw [sql_bind_apply] at h
  cases hr : m n with
  | error y => simp only [hr] at h; cases h
  | ok p =>
    simp only [hr] at h
    obtain ⟨h1, h2⟩ := hm n p.1 p.2 hr
    obtain ⟨h3, h4⟩ := hg p.1 p.2 b n2 h
    refine ⟨Nat.le_trans h1 h3, ?_⟩
    intro k hk1 hk2
    by_cases hk : k < p.2
    · exact h2 k hk1 hk
    · exact h4 k (by omega) hk2

theorem swallowed_wrap {α : Type} (faults : Faults) (text : String) (m : Sql α)
    (hm : NothingSwallowed faults m) : NothingSwallowed faults (Sql.wrap text m) := by
  intro n a n1 h
  unfold Sql.wrap at h
  cases hr : m n with
  | error y => simp only [hr] at h; cases h
  | ok p =>
    simp only [hr] at h
    cases h
    exact hm n _ _ hr

theorem wraps_pure {α : Type} (a : α) : WrapsQueryErrors (pure a : Sql α) := by
  intro n x h
  cases h

theorem wraps_bind {α β : Type} (m : Sql α) (g : α → Sql β)
    (hm : WrapsQueryErrors m) (hg : ∀ a, WrapsQueryErrors (g a)) :
    WrapsQueryErrors (m >>= g) := by
  intro n x h
  rw [sql_bind_apply] at h
  cases hr : m n with
  | error y =>
    simp only [hr] at h
    cases h
    exact hm n _ hr
  | ok p =>
    simp only [hr] at h
    exact hg p.1 p.2 x h

/-- A failed `Query` of `GetWorkspaceState` is returned inside an error with
the text of that query. -/
theorem wraps_query {α : Type} (what text : String)
    (hw : what ∈ ["layers", "highlights", "arrows", "underlines", "editors"])
    (ht : text = "query " ++ what ++ ": ") (faults : Faults) (r : Except DbError α) :
    WrapsQueryErrors (Sql.wrap text (Sql.step faults (.query what) r)) := by
  intro n x h
  unfold Sql.wrap at h
  cases hr : Sql.step faults (.query what) r n with
  | ok p => simp only [hr] at h; cases h
  | error y =>
    simp only [hr] at h
    have hy := unmodified_step faults r n y hr
    have hk : y.step = .query what := by
      unfold Sql.step at hr
      cases hf : faults n with
      | some e => simp only [hf] at hr; cases hr; rfl
      | none =>
        simp only [hf] at hr
        cases r with
        | ok a => cases hr
        | error e => cases hr; rfl
    cases h
    refine Or.inr ⟨what, hw, hk, ?_⟩
    simp only [hy, GoError.Error, ht]

theorem unmodified_scanLoop {ρ : Type} (faults : Faults) (rows : List ρ) :
    Unmodified (scanLoop faults rows) := by
  induction rows with
  | nil => exact unmodified_pure _
  | cons r rest ih =>
    unfold scanLoop
    exact unmodified_bind _ _ (unmodified_step _ _) (fun _ =>
      unmodified_bind _ _ ih (fun _ => unmodified_pure _))

theorem swallowed_scanLoop {ρ : Type} (faults : Faults) (rows : List ρ) :
    NothingSwallowed faults (scanLoop faults rows) := by
  induction rows with
  | nil => exact swallowed_pure _ _
  | cons r rest ih =>
    unfold scanLoop
    exact swallowed_bind _ _ _ (swallowed_step _ _) (fun _ =>
      swallowed_bind _ _ _ ih (fun _ => swallowed_pure _ _))

theorem unmodified_scanRows {ρ : Type} (faults : Faults) (rows : List ρ) :
    Unmodified (scanRows faults rows) := by
  unfold scanRows
  exact unmodified_bind _ _ (unmodified_scanLoop _ _) (fun _ =>
    unmodified_bind _ _ (unmodified_step _ _) (fun _ => unmodified_pure _))

theorem swallowed_scanRows {ρ : Type} (faults : Faults) (rows : List ρ) :
    NothingSwallowed faults (scanRows faults rows) := by
  unfold scanRows
  exact swallowed_bind _ _ _ (swallowed_scanLoop _ _) (fun _ =>
    swallowed_bind _ _ _ (swallowed_step _ _) (fun _ => swallowed_pure _ _))

theorem unmodified_reorderLayersLoopF (faults : Faults) (ws : String) (ids : List String) :
    ∀ (pos : Nat) (rows : List LayerRow),
      Unmodified (reorderLayersLoopF faults ws pos ids rows) := by
  induction ids with
  | nil => intro pos rows; exact unmodified_pure _
  | cons a rest ih =>
    intro pos rows
    unfold reorderLayersLoopF
    exact unmodified_bind _ _ (unmodified_step _ _) (fun _ => ih _ _)

theorem swallowed_reorderLayersLoopF (faults : Faults) (ws : String) (ids : List String) :
    ∀ (pos : Nat) (rows : List LayerRow),
      NothingSwallowed faults (reorderLayersLoopF faults ws pos ids rows) := by
  induction ids with
  | nil => intro pos rows; exact swallowed_pure _ _
  | cons a rest ih =>
    intro pos rows
    unfold reorderLayersLoopF
    exact swallowed_bind _ _ _ (swallowed_step _ _) (fun _ => ih _ _)

theorem unmodified_reindexLoopF (faults : Faults) (ids : List Nat) :
    ∀ (pos : Nat) (rows : List EditorRow), Unmodified (reindexLoopF faults pos ids rows) := by
  induction ids with
  | nil => intro pos rows; exact unmodified_pure _
  | cons a rest ih =>
    intro pos rows
    unfold reindexLoopF
    exact unmodified_bind _ _ (unmodified_step _ _) (fun _ => ih _ _)

theorem swallowed_reindexLoopF (faults : Faults) (ids : List Nat) :
    ∀ (pos : Nat) (rows : List EditorRow),
      NothingSwallowed faults (reindexLoopF faults pos ids rows) := by
  induction ids with
  | nil => intro pos rows; exact swallowed_pure _ _
  | cons a rest ih =>
    intro pos rows
    unfold reindexLoopF
    exact swallowed_bind _ _ _ (swallowed_step _ _) (fun _ => ih _ _)

theorem unmodified_reorderEditorsLoopF (faults : Faults) (byIndex : List (Int × Nat))
    (P : List Int) : ∀ (pos : Nat) (rows : List EditorRow),
      Unmodified (reorderEditorsLoopF faults byIndex pos P rows) := by
  induction P with
  | nil => intro pos rows; exact unmodified_pure _
  | cons a rest ih =>
    intro pos rows
    unfold reorderEditorsLoopF
    split
    · exact ih _ _
    · exact unmodified_bind _ _ (unmodified_step _ _) (fun _ => ih _ _)

theorem swallowed_reorderEditorsLoopF (faults : Faults) (byIndex : List (Int × Nat))
    (P : List Int) : ∀ (pos : Nat) (rows : List EditorRow),
      NothingSwallowed faults (reorderEditorsLoopF faults byIndex pos P rows) := by
  induction P with
  | nil => intro pos rows; exact swallowed_pure _ _
  | cons a rest ih =>
    intro pos rows
    unfold reorderEditorsLoopF
    split
    · exact ih _ _
    · exact swallowed_bind _ _ _ (swallowed_step _ _) (fun _ => ih _ _)

theorem unmodified_ensureWorkspaceF (faults : Faults) (s : Store) (ws : String) :
    Unmodified (EnsureWorkspaceF faults s ws) := by
  unfold EnsureWorkspaceF
  refine unmodified_bind _ _ (unmodified_step _ _) (fun found => ?_)
  cases found with
  | some _ => exact unmodified_pure _
  | none =>
    exact unmodified_bind _ _ (unmodified_step _ _) (fun _ =>
      unmodified_bind _ _ (unmodified_step _ _) (fun _ =>
      unmodified_bind _ _ (unmodified_step _ _) (fun _ =>
      unmodified_bind _ _ (unmodified_step _ _) (fun _ => unmodified_pure _))))

theorem swallowed_ensureWorkspaceF (faults : Faults) (s : Store) (ws : String) :
    NothingSwallowed faults (EnsureWorkspaceF faults s ws) := by
  unfold EnsureWorkspaceF
  refine swallowed_bind _ _ _ (swallowed_step _ _) (fun found => ?_)
  cases found with
  | some _ => exact swallowed_pure _ _
  | none =>
    exact swallowed_bind _ _ _ (swallowed_step _ _) (fun _ =>
      swallowed_bind _ _ _ (swallowed_step _ _) (fun _ =>
      swallowed_bind _ _ _ (swallowed_step _ _) (fun _ =>
      swallowed_bind _ _ _ (swallowed_step _ _) (fun _ => swallowed_pure _ _))))

theorem unmodified_reorderLayersF (faults : Faults) (s : Store) (ws : String)
    (ids : List String) : Unmodified (ReorderLayersF faults s ws ids) := by
  unfold ReorderLayersF
  exact unmodified_bind _ _ (unmodified_step _ _) (fun _ =>
    unmodified_bind _ _ (unmodified_reorderLayersLoopF _ _ _ _ _) (fun _ =>
    unmodified_bind _ _ (unmodified_step _ _) (fun _ => unmodified_pure _)))

theorem swallowed_reorderLayersF (faults : Faults) (s : Store) (ws : String)
    (ids : List String) : NothingSwallowed faults (ReorderLayersF faults s ws ids) := by
  unfold ReorderLayersF
  exact swallowed_bind _ _ _ (swallowed_step _ _) (fun _ =>
    swallowed_bind _ _ _ (swallowed_reorderLayersLoopF _ _ _ _ _) (fun _ =>
    swallowed_bind _ _ _ (swallowed_step _ _) (fun _ => swallowed_pure _ _)))

theorem unmodified_removeEditorF (faults : Faults) (s : Store) (ws : String) (index : Int) :
    Unmodified (RemoveEditorF faults s ws index) := by
  unfold RemoveEditorF
  exact unmodified_bind _ _ (unmodified_step _ _) (fun _ =>
    unmodified_bind _ _ (unmodified_step _ _) (fun _ =>
    unmodified_bind _ _ (unmodified_step _ _) (fun _ =>
    unmodified_bind _ _ (unmodified_scanLoop _ _) (fun _ =>
    unmodified_bind _ _ (unmodified_reindexLoopF _ _ _ _) (fun _ =>
    unmodified_bind _ _ (unmodified_step _ _) (fun _ => unmodified_pure _))))))

theorem swallowed_removeEditorF (faults : Faults) (s : Store) (ws : String) (index : Int) :
    NothingSwallowed faults (RemoveEditorF faults s ws index) := by
  unfold RemoveEditorF
  exact swallowed_bind _ _ _ (swallowed_step _ _) (fun _ =>
    swallowed_bind _ _ _ (swallowed_step _ _) (fun _ =>
    swallowed_bind _ _ _ (swallowed_step _ _) (fun _ =>
    swallowed_bind _ _ _ (swallowed_scanLoop _ _) (fun _ =>
    swallowed_bind _ _ _ (swallowed_reindexLoopF _ _ _ _) (fun _ =>
    swallowed_bind _ _ _ (swallowed_step _ _) (fun _ => swallowed_pure _ _))))))

theorem unmodified_reorderEditorsF (faults : Faults) (s : Store) (ws : String)
    (P : List Int) : Unmodified (ReorderEditorsF faults s ws P) := by
  unfold ReorderEditorsF
  exact unmodified_bind _ _ (unmodified_step _ _) (fun _ =>
    unmodified_bind _ _ (unmodified_step _ _) (fun _ =>
    unmodified_bind _ _ (unmodified_scanLoop _ _) (fun _ =>
    unmodified_bind _ _ (unmodified_reorderEditorsLoopF _ _ _ _ _) (fun _ =>
    unmodified_bind _ _ (unmodified_step _ _) (fun _ => unmodified_pure _)))))

theorem swallowed_reorderEditorsF (faults : Faults) (s : Store) (ws : String)
    (P : List Int) : NothingSwallowed faults (ReorderEditorsF faults s ws P) := by
  unfold ReorderEditorsF
  exact swallowed_bind _ _ _ (swallowed_step _ _) (fun _ =>
    swallowed_bind _ _ _ (swallowed_step _ _) (fun _ =>
    swallowed_bind _ _ _ (swallowed_scanLoop _ _) (fun _ =>
    swallowed_bind _ _ _ (swallowed_reorderEditorsLoopF _ _ _ _ _) (fun _ =>
    swallowed_bind _ _ _ (swallowed_step _ _) (fun _ => swallowed_pure _ _)))))

theorem unmodified_runF (faults : Faults) (fk : Bool) (s : Store) (call : StoreCall) :
    Unmodified (call.runF faults fk s) := by
  cases call <;> unfold StoreCall.runF
  case addLayer =>
    exact unmodified_bind _ _ (unmodified_step _ _) (fun _ => unmodified_step _ _)
  case reorderLayers => exact unmodified_reorderLayersF _ _ _ _
  case removeEditor => exact unmodified_removeEditorF _ _ _ _
  case reorderEditors => exact unmodified_reorderEditorsF _ _ _ _
  all_goals exact unmodified_step _ _

theorem swallowed_runF (faults : Faults) (fk : Bool) (s : Store) (call : StoreCall) :
    NothingSwallowed faults (call.runF faults fk s) := by
  cases call <;> unfold StoreCall.runF
  case addLayer =>
    exact swallowed_bind _ _ _ (swallowed_step _ _) (fun _ => swallowed_step _ _)
  case reorderLayers => exact swallowed_reorderLayersF _ _ _ _
  case removeEditor => exact swallowed_removeEditorF _ _ _ _
  case reorderEditors => exact swallowed_reorderEditorsF _ _ _ _
  all_goals exact swallowed_step _ _

/-- A failure of a scan loop is a failed `Scan`, returned as it is. -/
theorem scanLoop_failure {ρ : Type} (faults : Faults) (rows : List ρ) :
    ∀ n x, scanLoop faults rows n = .error x →
      x.step = .scan ∧ x.returned = GoError.db x.cause := by
  induction rows with
  | nil => intro n x h; cases h
  | cons r rest ih =>
    intro n x h
    unfold scanLoop at h
    rw [sql_bind_apply] at h
    cases hr : Sql.step faults .scan (Except.ok r) n with
    | error y =>
      simp only [hr] at h
      cases h
      unfold Sql.step at hr
      cases hf : faults n with
      | some e => simp only [hf] at hr; cases hr; exact ⟨rfl, rfl⟩
      | none => simp only [hf] at hr; cases hr
    | ok p =>
      simp only [hr] at h
      rw [sql_bind_apply] at h
      cases hr2 : scanLoop faults rest p.2 with
      | error y =>
        simp only [hr2] at h
        cases h
        exact ih _ _ hr2
      | ok q =>
        simp only [hr2] at h
        cases h

/-- A failure of a scan loop with its `rows.Err()` check is a failed `Scan` or
a failed `rows.Err()`, returned as it is. -/
theorem wraps_scanRows {ρ : Type} (faults : Faults) (rows : List ρ) :
    WrapsQueryErrors (scanRows faults rows) := by
  intro n x h
  unfold scanRows at h
  rw [sql_bind_apply] at h
  cases hr : scanLoop faults rows n with
  | error y =>
    simp only [hr] at h
    cases h
    obtain ⟨h1, h2⟩ := scanLoop_failure faults rows n _ hr
    exact Or.inl ⟨Or.inl h1, h2⟩
  | ok p =>
    simp only [hr] at h
    rw [sql_bind_apply] at h
    cases hr2 : Sql.step faults .rowsErr (Except.ok ()) p.2 with
    | error y =>
      simp only [hr2] at h
      cases h
      unfold Sql.step at hr2
      cases hf : faults p.2 with
      | some e => simp only [hf] at hr2; cases hr2; exact Or.inl ⟨Or.inr rfl, rfl⟩
      | none => simp only [hf] at hr2; cases hr2
    | ok q =>
      simp only [hr2] at h
      cases h

theorem wraps_annotationRowsF (faults : Faults) (s : Store) (ws : String) :
    WrapsQueryErrors (annotationRowsF faults s ws) := by
  unfold annotationRowsF
  exact wraps_bind _ _ (wraps_query "highlights" _ (by decide) (by decide) _ _) (fun _ =>
    wraps_bind _ _ (wraps_scanRows _ _) (fun _ =>
    wraps_bind _ _ (wraps_query "arrows" _ (by decide) (by decide) _ _) (fun _ =>
    wraps_bind _ _ (wraps_scanRows _ _) (fun _ =>
    wraps_bind _ _ (wraps_query "underlines" _ (by decide) (by decide) _ _) (fun _ =>
    wraps_bind _ _ (wraps_scanRows _ _) (fun _ => wraps_pure _))))))

theorem swallowed_annotationRowsF (faults : Faults) (s : Store) (ws : String) :
    NothingSwallowed faults (annotationRowsF faults s ws) := by
  unfold annotationRowsF
  exact swallowed_bind _ _ _ (swallowed_wrap _ _ _ (swallowed_step _ _)) (fun _ =>
    swallowed_bind _ _ _ (swallowed_scanRows _ _) (fun _ =>
    swallowed_bind _ _ _ (swallowed_wrap _ _ _ (swallowed_step _ _)) (fun _ =>
    swallowed_bind _ _ _ (swallowed_scanRows _ _) (fun _ =>
    swallowed_bind _ _ _ (swallowed_wrap _ _ _ (swallowed_step _ _)) (fun _ =>
    swallowed_bind _ _ _ (swallowed_scanRows _ _) (fun _ => swallowed_pure _ _))))))

theorem wraps_getWorkspaceStateF (faults : Faults) (s : Store) (ws : String) :
    WrapsQueryErrors (GetWorkspaceStateF faults s ws) := by
  unfold GetWorkspaceStateF
  refine wraps_bind _ _ (wraps_query "layers" _ (by decide) (by decide) _ _) (fun l0 =>
    wraps_bind _ _ (wraps_scanRows _ _) (fun layers => ?_))
  dsimp only
  split
  · exact wraps_bind _ _ (wraps_annotationRowsF _ _ _) (fun _ =>
      wraps_bind _ _ (wraps_query "editors" _ (by decide) (by decide) _ _) (fun _ =>
      wraps_bind _ _ (wraps_scanRows _ _) (fun _ => wraps_pure _)))
  · exact wraps_bind _ _ (wraps_pure _) (fun _ =>
      wraps_bind _ _ (wraps_query "editors" _ (by decide) (by decide) _ _) (fun _ =>
      wraps_bind _ _ (wraps_scanRows _ _) (fun _ => wraps_pure _)))

theorem swallowed_getWorkspaceStateF (faults : Faults) (s : Store) (ws : String) :
    NothingSwallowed faults (GetWorkspaceStateF faults s ws) := by
  unfold GetWorkspaceStateF
  refine swallowed_bind _ _ _ (swallowed_wrap _ _ _ (swallowed_step _ _)) (fun l0 =>
    swallowed_bind _ _ _ (swallowed_scanRows _ _) (fun layers => ?_))
  dsimp only
  split
  · exact swallowed_bind _ _ _ (swallowed_annotationRowsF _ _ _) (fun _ =>
      swallowed_bind _ _ _ (swallowed_wrap _ _ _ (swallowed_step _ _)) (fun _ =>
      swallowed_bind _ _ _ (swallowed_scanRows _ _) (fun _ => swallowed_pure _ _)))
  · exact swallowed_bind _ _ _ (swallowed_pure _ _) (fun _ =>
      swallowed_bind _ _ _ (swallowed_wrap _ _ _ (swallowed_step _ _)) (fun _ =>
      swallowed_bind _ _ _ (swallowed_scanRows _ _) (fun _ => swallowed_pure _ _)))


/-! ### Agreement with the operations when no step fails -/

theorem returns_step {α : Type} {kind : StepKind} (a : α) :
    (Sql.step noFaults kind (.ok a)).Returns a :=
  fun n => ⟨n + 1, rfl⟩

theorem returns_pure {α : Type} (a : α) : (pure a : Sql α).Returns a :=
  fun n => ⟨n, rfl⟩

theorem returns_wrap {α : Type} (text : String) (m : Sql α) (a : α) (h : m.Returns a) :
    (Sql.wrap text m).Returns a := by
  intro n
  obtain ⟨n1, h1⟩ := h n
  exact ⟨n1, by simp only [Sql.wrap, h1]⟩

theorem returns_bind {α β : Type} (m : Sql α) (g : α → Sql β) (a : α) (b : β)
    (hm : m.Returns a) (hg : (g a).Returns b) : (m >>= g).Returns b := by
  intro n
  obtain ⟨n1, h1⟩ := hm n
  obtain ⟨n2, h2⟩ := hg n1
  exact ⟨n2, by rw [sql_bind_apply, h1]; exact h2⟩

theorem result_of_returns {α : Type} (m : Sql α) (a : α) (h : m.Returns a) :
    m.result = .ok a := by
  obtain ⟨n1, h1⟩ := h 0
  simp only [Sql.result, h1]

theorem result_step_noFaults {α : Type} {kind : StepKind} (r : Except DbError α) :
    (Sql.step noFaults kind r).result = r.mapError GoError.db := by
  cases r <;> rfl

theorem returns_scanLoop {ρ : Type} (rows : List ρ) : (scanLoop noFaults rows).Returns rows := by
  induction rows with
  | nil => exact returns_pure _
  | cons r rest ih =>
    unfold scanLoop
    exact returns_bind _ _ _ _ (returns_step r) (returns_bind _ _ _ _ ih (returns_pure _))

theorem returns_scanRows {ρ : Type} (rows : List ρ) : (scanRows noFaults rows).Returns rows := by
  unfold scanRows
  exact returns_bind _ _ _ _ (returns_scanLoop rows)
    (returns_bind _ _ _ _ (returns_step ()) (returns_pure _))

theorem returns_reorderLayersLoopF (ws : String) (ids : List String) :
    ∀ (pos : Nat) (rows : List LayerRow),
      (reorderLayersLoopF noFaults ws pos ids rows).Returns (reorderLayersLoop ws pos ids rows) := by
  induction ids with
  | nil => intro pos rows; exact returns_pure _
  | cons a rest ih =>
    intro pos rows
    unfold reorderLayersLoopF reorderLayersLoop
    exact returns_bind _ _ _ _ (returns_step _) (ih _ _)

theorem returns_reindexLoopF (ids : List Nat) :
    ∀ (pos : Nat) (rows : List EditorRow),
      (reindexLoopF noFaults pos ids rows).Returns (reindexLoop pos ids rows) := by
  induction ids with
  | nil => intro pos rows; exact returns_pure _
  | cons a rest ih =>
    intro pos rows
    unfold reindexLoopF reindexLoop
    exact returns_bind _ _ _ _ (returns_step _) (ih _ _)

theorem returns_reorderEditorsLoopF (byIndex : List (Int × Nat)) (P : List Int) :
    ∀ (pos : Nat) (rows : List EditorRow),
      (reorderEditorsLoopF noFaults byIndex pos P rows).Returns
        (reorderEditorsLoop byIndex pos P rows) := by
  induction P with
  | nil => intro pos rows; exact returns_pure _
  | cons a rest ih =>
    intro pos rows
    unfold reorderEditorsLoopF reorderEditorsLoop
    cases mapGet byIndex a with
    | none => exact ih _ _
    | some id => exact returns_bind _ _ _ _ (returns_step _) (ih _ _)

/-- When no step fails, a store call under a driver is the store call. -/
theorem runF_noFaults (fk : Bool) (s : Store) (call : StoreCall) :
    (call.runF noFaults fk s).result = (call.run fk s).mapError GoError.db := by
  cases call <;> unfold StoreCall.runF StoreCall.run
  case addLayer w l n c =>
    unfold AddLayer
    cases h : insertLayer s l w n c (nextLayerPosition s w) with
    | ok a => simp only [Sql.result, sql_bind_apply, Sql.step, noFaults, h, Except.mapError]
    | error e => simp only [Sql.result, sql_bind_apply, Sql.step, noFaults, h, Except.mapError]
  case reorderLayers w ls =>
    unfold ReorderLayersF ReorderLayers
    exact result_of_returns _ _ (returns_bind _ _ _ _ (returns_step ())
      (returns_bind _ _ _ _ (returns_reorderLayersLoopF _ _ _ _)
      (returns_bind _ _ _ _ (returns_step ()) (returns_pure _))))
  case removeEditor w i =>
    unfold RemoveEditorF RemoveEditor
    exact result_of_returns _ _ (returns_bind _ _ _ _ (returns_step ())
      (returns_bind _ _ _ _ (returns_step _)
      (returns_bind _ _ _ _ (returns_step _)
      (returns_bind _ _ _ _ (returns_scanLoop _)
      (returns_bind _ _ _ _ (returns_reindexLoopF _ _ _)
      (returns_bind _ _ _ _ (returns_step ()) (returns_pure _)))))))
  case reorderEditors w p =>
    unfold ReorderEditorsF ReorderEditors
    exact result_of_returns _ _ (returns_bind _ _ _ _ (returns_step ())
      (returns_bind _ _ _ _ (returns_step _)
      (returns_bind _ _ _ _ (returns_scanLoop _)
      (returns_bind _ _ _ _ (returns_reorderEditorsLoopF _ _ _ _)
      (returns_bind _ _ _ _ (returns_step ()) (returns_pure _))))))
  all_goals exact result_step_noFaults _

/-- When no step fails, `EnsureWorkspace` under a driver is `EnsureWorkspace`. -/
theorem ensureWorkspaceF_noFaults (s : Store) (ws : String) :
    (EnsureWorkspaceF noFaults s ws).result = (EnsureWorkspace s ws).mapError GoError.db := by
  unfold EnsureWorkspaceF EnsureWorkspace
  cases hf : s.workspace.find? (fun id => id = ws) with
  | some x =>
    simp only [Sql.result, sql_bind_apply, Sql.step, noFaults, hf, sql_pure_apply,
      Except.mapError]
  | none =>
    cases h1 : insertWorkspace s ws with
    | error e =>
      simp only [Sql.result, sql_bind_apply, Sql.step, noFaults, hf, h1]
      rfl
    | ok s1 =>
      cases h2 : insertEditor s1 ws 0 "Passage 1" with
      | error e =>
        simp only [Sql.result, sql_bind_apply, Sql.step, noFaults, hf, h1, h2]
        show _ = Except.mapError GoError.db (insertEditor s1 ws 0 "Passage 1")
        rw [h2]
        rfl
      | ok s2 =>
        simp only [Sql.result, sql_bind_apply, Sql.step, noFaults, hf, h1, h2, sql_pure_apply]
        show _ = Except.mapError GoError.db (insertEditor s1 ws 0 "Passage 1")
        rw [h2]
        rfl

theorem returns_annotationRowsF (s : Store) (ws : String) :
    (annotationRowsF noFaults s ws).Returns
      (highlightsJoined s ws, arrowsJoined s ws, underlinesJoined s ws) := by
  unfold annotationRowsF
  exact returns_bind _ _ _ _ (returns_wrap _ _ _ (returns_step _))
    (returns_bind _ _ _ _ (returns_scanRows _)
    (returns_bind _ _ _ _ (returns_wrap _ _ _ (returns_step _))
    (returns_bind _ _ _ _ (returns_scanRows _)
    (returns_bind _ _ _ _ (returns_wrap _ _ _ (returns_step _))
    (returns_bind _ _ _ _ (returns_scanRows _) (returns_pure _))))))

/-- When no step fails, `GetWorkspaceState` under a driver is `GetWorkspaceState`. -/
theorem getWorkspaceStateF_noFaults (s : Store) (ws : String) :
    (GetWorkspaceStateF noFaults s ws).result = GetWorkspaceState s ws := by
  unfold GetWorkspaceStateF GetWorkspaceState
  refine result_of_returns _ _ (returns_bind _ _ _ _ (returns_wrap _ _ _ (returns_step _))
    (returns_bind _ _ _ _ (returns_scanRows _) ?_))
  dsimp only
  split
  · exact returns_bind _ _ _ _ (returns_annotationRowsF s ws)
      (returns_bind _ _ _ _ (returns_wrap _ _ _ (returns_step _))
      (returns_bind _ _ _ _ (returns_scanRows _) (returns_pure _)))
  · exact returns_bind _ _ _ _ (returns_pure _)
      (returns_bind _ _ _ _ (returns_wrap _ _ _ (returns_step _))
      (returns_bind _ _ _ _ (returns_scanRows _) (returns_pure _)))


/-! ### The cause of a failure is the first failed step -/

theorem first_step {α : Type} (faults : Faults) {kind : StepKind}
    (r : Except DbError α) : FailsAtFirstFault faults (Sql.step faults kind r) := by
  intro n x h
  refine ⟨n, le_refl n, fun j h1 h2 => absurd h2 (not_lt.mpr h1), ?_⟩
  intro e he
  unfold Sql.step at h
  simp only [he] at h
  cases h
  rfl

theorem first_pure {α : Type} (faults : Faults) (a : α) :
    FailsAtFirstFault faults (pure a : Sql α) := by
  intro n x h
  rw [sql_pure_apply] at h
  cases h

theorem first_wrap {α : Type} (faults : Faults) (text : String) (m : Sql α)
    (hm : FailsAtFirstFault faults m) : FailsAtFirstFault faults (Sql.wrap text m) := by
  intro n x h
  unfold Sql.wrap at h
  cases hr : m n with
  | ok p => simp only [hr] at h; cases h
  | error y =>
    simp only [hr] at h
    cases h
    exact hm n y hr

theorem first_bind {α β : Type} (faults : Faults) (m : Sql α) (g : α → Sql β)
    (hs : NothingSwallowed faults m) (hm : FailsAtFirstFault faults m)
    (hg : ∀ a, FailsAtFirstFault faults (g a)) : FailsAtFirstFault faults (m >>= g) := by
  intro n x h
  rw [sql_bind_apply] at h
  cases hr : m n with
  | error y =>
    simp only [hr] at h
    cases h
    exact hm n _ hr
  | ok p =>
    simp only [hr] at h
    obtain ⟨k, hk1, hk2, hk3⟩ := hg p.1 p.2 x h
    obtain ⟨hle, hnone⟩ := hs n p.1 p.2 hr
    refine ⟨k, le_trans hle hk1, fun j h1 h2 => ?_, hk3⟩
    by_cases hj : j < p.2
    · exact hnone j h1 hj
    · exact hk2 j (not_lt.mp hj) h2

theorem first_scanLoop {ρ : Type} (faults : Faults) (rows : List ρ) :
    FailsAtFirstFault faults (scanLoop faults rows) := by
  induction rows with
  | nil => exact first_pure _ _
  | cons r rest ih =>
    unfold scanLoop
    exact first_bind _ _ _ (swallowed_step _ _) (first_step _ _) (fun _ =>
      first_bind _ _ _ (swallowed_scanLoop _ _) ih (fun _ => first_pure _ _))

theorem first_scanRows {ρ : Type} (faults : Faults) (rows : List ρ) :
    FailsAtFirstFault faults (scanRows faults rows) := by
  unfold scanRows
  exact first_bind _ _ _ (swallowed_scanLoop _ _) (first_scanLoop _ _) (fun _ =>
    first_bind _ _ _ (swallowed_step _ _) (first_step _ _) (fun _ => first_pure _ _))

theorem first_reorderLayersLoopF (faults : Faults) (ws : String) (ids : List String) :
    ∀ (pos : Nat) (rows : List LayerRow),
      FailsAtFirstFault faults (reorderLayersLoopF faults ws pos ids rows) := by
  induction ids with
  | nil => intro pos rows; exact first_pure _ _
  | cons a rest ih =>
    intro pos rows
    unfold reorderLayersLoopF
    exact first_bind _ _ _ (swallowed_step _ _) (first_step _ _) (fun _ => ih _ _)

theorem first_reindexLoopF (faults : Faults) (ids : List Nat) :
    ∀ (pos : Nat) (rows : List EditorRow),
      FailsAtFirstFault faults (reindexLoopF faults pos ids rows) := by
  induction ids with
  | nil => intro pos rows; exact first_pure _ _
  | cons a rest ih =>
    intro pos rows
    unfold reindexLoopF
    exact first_bind _ _ _ (swallowed_step _ _) (first_step _ _) (fun _ => ih _ _)

theorem first_reorderEditorsLoopF (faults : Faults) (byIndex : List (Int × Nat))
    (P : List Int) : ∀ (pos : Nat) (rows : List EditorRow),
      FailsAtFirstFault faults (reorderEditorsLoopF faults byIndex pos P rows) := by
  induction P with
  | nil => intro pos rows; exact first_pure _ _
  | cons a rest ih =>
    intro pos rows
    unfold reorderEditorsLoopF
    split
    · exact ih _ _
    · exact first_bind _ _ _ (swallowed_step _ _) (first_step _ _) (fun _ => ih _ _)

theorem first_ensureWorkspaceF (faults : Faults) (s : Store) (ws : String) :
    FailsAtFirstFault faults (EnsureWorkspaceF faults s ws) := by
  unfold EnsureWorkspaceF
  refine first_bind _ _ _ (swallowed_step _ _) (first_step _ _) (fun found => ?_)
  cases found with
  | some _ => exact first_pure _ _
  | none =>
    exact first_bind _ _ _ (swallowed_step _ _) (first_step _ _) (fun _ =>
      first_bind _ _ _ (swallowed_step _ _) (first_step _ _) (fun _ =>
      first_bind _ _ _ (swallowed_step _ _) (first_step _ _) (fun _ =>
      first_bind _ _ _ (swallowed_step _ _) (first_step _ _) (fun _ => first_pure _ _))))

theorem first_runF (faults : Faults) (fk : Bool) (s : Store) (call : StoreCall) :
    FailsAtFirstFault faults (call.runF faults fk s) := by
  cases call <;> unfold StoreCall.runF
  case addLayer =>
    exact first_bind _ _ _ (swallowed_step _ _) (first_step _ _) (fun _ => first_step _ _)
  case reorderLayers =>
    unfold ReorderLayersF
    exact first_bind _ _ _ (swallowed_step _ _) (first_step _ _) (fun _ =>
      first_bind _ _ _ (swallowed_reorderLayersLoopF _ _ _ _ _)
        (first_reorderLayersLoopF _ _ _ _ _) (fun _ =>
      first_bind _ _ _ (swallowed_step _ _) (first_step _ _) (fun _ => first_pure _ _)))
  case removeEditor =>
    unfold RemoveEditorF
    exact first_bind _ _ _ (swallowed_step _ _) (first_step _ _) (fun _ =>
      first_bind _ _ _ (swallowed_step _ _) (first_step _ _) (fun _ =>
      first_bind _ _ _ (swallowed_step _ _) (first_step _ _) (fun _ =>
      first_bind _ _ _ (swallowed_scanLoop _ _) (first_scanLoop _ _) (fun _ =>
      first_bind _ _ _ (swallowed_reindexLoopF _ _ _ _) (first_reindexLoopF _ _ _ _) (fun _ =>
      first_bind _ _ _ (swallowed_step _ _) (first_step _ _) (fun _ => first_pure _ _))))))
  case reorderEditors =>
    unfold ReorderEditorsF
    exact first_bind _ _ _ (swallowed_step _ _) (first_step _ _) (fun _ =>
      first_bind _ _ _ (swallowed_step _ _) (first_step _ _) (fun _ =>
      first_bind _ _ _ (swallowed_scanLoop _ _) (first_scanLoop _ _) (fun _ =>
      first_bind _ _ _ (swallowed_reorderEditorsLoopF _ _ _ _ _)
        (first_reorderEditorsLoopF _ _ _ _ _) (fun _ =>
      first_bind _ _ _ (swallowed_step _ _) (first_step _ _) (fun _ => first_pure _ _)))))
  all_goals exact first_step _ _

theorem first_annotationRowsF (faults : Faults) (s : Store) (ws : String) :
    FailsAtFirstFault faults (annotationRowsF faults s ws) := by
  unfold annotationRowsF
  exact first_bind _ _ _ (swallowed_wrap _ _ _ (swallowed_step _ _))
      (first_wrap _ _ _ (first_step _ _)) (fun _ =>
    first_bind _ _ _ (swallowed_scanRows _ _) (first_scanRows _ _) (fun _ =>
    first_bind _ _ _ (swallowed_wrap _ _ _ (swallowed_step _ _))
      (first_wrap _ _ _ (first_step _ _)) (fun _ =>
    first_bind _ _ _ (swallowed_scanRows _ _) (first_scanRows _ _) (fun _ =>
    first_bind _ _ _ (swallowed_wrap _ _ _ (swallowed_step _ _))
      (first_wrap _ _ _ (first_step _ _)) (fun _ =>
    first_bind _ _ _ (swallowed_scanRows _ _) (first_scanRows _ _) (fun _ =>
    first_pure _ _))))))

theorem first_getWorkspaceStateF (faults : Faults) (s : Store) (ws : String) :
    FailsAtFirstFault faults (GetWorkspaceStateF faults s ws) := by
  unfold GetWorkspaceStateF
  refine first_bind _ _ _ (swallowed_wrap _ _ _ (swallowed_step _ _))
      (first_wrap _ _ _ (first_step _ _)) (fun l0 =>
    first_bind _ _ _ (swallowed_scanRows _ _) (first_scanRows _ _) (fun layers => ?_))
  dsimp only
  split
  · exact first_bind _ _ _ (swallowed_annotationRowsF _ _ _) (first_annotationRowsF _ _ _)
      (fun _ =>
      first_bind _ _ _ (swallowed_wrap _ _ _ (swallowed_step _ _))
        (first_wrap _ _ _ (first_step _ _)) (fun _ =>
      first_bind _ _ _ (swallowed_scanRows _ _) (first_scanRows _ _) (fun _ =>
      first_pure _ _)))
  · exact first_bind _ _ _ (swallowed_pure _ _) (first_pure _ _) (fun _ =>
      first_bind _ _ _ (swallowed_wrap _ _ _ (swallowed_step _ _))
        (first_wrap _ _ _ (first_step _ _)) (fun _ =>
      first_bind _ _ _ (swallowed_scanRows _ _) (first_scanRows _ _) (fun _ =>
      first_pure _ _)))

/-- The two readings of the failures of `GetWorkspaceState` agree. -/
theorem wrapsOnly_of_wraps {α : Type} (m : Sql α) (h : WrapsQueryErrors m) :
    WrapsQueryErrorsOnly m := by
  intro n x hx
  rcases h n x hx with ⟨hs | hs, hr⟩ | ⟨what, _, hs, hr⟩
  · rw [hs]
    refine ⟨fun _ => hr, fun what hq => ?_, ?_, ?_, ?_, ?_⟩
    · cases hq
    all_goals intro hc; cases hc
  · rw [hs]
    refine ⟨fun _ => hr, fun what hq => ?_, ?_, ?_, ?_, ?_⟩
    · cases hq
    all_goals intro hc; cases hc
  · rw [hs]
    refine ⟨fun hq => ?_, fun what1 hq => ?_, ?_, ?_, ?_, ?_⟩
    · rcases hq with hq | hq <;> cases hq
    · cases hq
      exact hr
    all_goals intro hc; cases hc

/-- C21 (amended): under every driver, and whichever pooled connection serves
the call, every layer, annotation and editor operation and `EnsureWorkspace`
return the error of the storage step that failed as it is.
`GetWorkspaceState` returns the error of a failed `Scan` or `rows.Err()` as it
is, and returns the error of a failed `Query` inside a new error whose text is
`query layers: `, `query highlights: `, `query arrows: `, `query underlines: `
or `query editors: `, the one of the query that failed, followed by the text
of that error.  In each operation the failure comes from the first step the
driver fails, and an operation that returns a value has taken no failed
step. -/
theorem storage_errors_unmodified_or_wrapped (faults : Faults) (fk : Bool) (s : Store)
    (ws : String) (call : StoreCall) :
    (Unmodified (call.runF faults fk s) ∧ FailsAtFirstFault faults (call.runF faults fk s) ∧
      NothingSwallowed faults (call.runF faults fk s)) ∧
    (Unmodified (EnsureWorkspaceF faults s ws) ∧
      FailsAtFirstFault faults (EnsureWorkspaceF faults s ws) ∧
      NothingSwallowed faults (EnsureWorkspaceF faults s ws)) ∧
    (WrapsQueryErrors (GetWorkspaceStateF faults s ws) ∧
      WrapsQueryErrorsOnly (GetWorkspaceStateF faults s ws) ∧
      FailsAtFirstFault faults (GetWorkspaceStateF faults s ws) ∧
      NothingSwallowed faults (GetWorkspaceStateF faults s ws)) :=
  ⟨⟨unmodified_runF faults fk s call, first_runF faults fk s call,
    swallowed_runF faults fk s call⟩,
   ⟨unmodified_ensureWorkspaceF faults s ws, first_ensureWorkspaceF faults s ws,
    swallowed_ensureWorkspaceF faults s ws⟩,
   ⟨wraps_getWorkspaceStateF faults s ws,
    wrapsOnly_of_wraps _ (wraps_getWorkspaceStateF faults s ws),
    first_getWorkspaceStateF faults s ws, swallowed_getWorkspaceStateF faults s ws⟩⟩

theorem storage_errors_unmodified_or_wrapped_witness :
    (GetWorkspaceStateF (failsAt 0) storeAnnotated "ws1" 0 =
      .error ⟨.query "layers", .driver "disk I/O error",
        .errorf "query layers: disk I/O error"⟩) ∧
    (GetWorkspaceStateF (failsAt 1) storeAnnotated "ws1" 0 =
      .error ⟨.scan, .driver "disk I/O error", .db (.driver "disk I/O error")⟩) ∧
    (GetWorkspaceStateF (failsAt 3) storeAnnotated "ws1" 0 =
      .error ⟨.rowsErr, .driver "disk I/O error", .db (.driver "disk I/O error")⟩) ∧
    (GetWorkspaceStateF (failsAt 4) storeAnnotated "ws1" 0 =
      .error ⟨.query "highlights", .driver "disk I/O error",
        .errorf "query highlights: disk I/O error"⟩) ∧
    (GetWorkspaceStateF (failsAt 5) storeAnnotated "ws1" 0 =
      .error ⟨.scan, .driver "disk I/O error", .db (.driver "disk I/O error")⟩) ∧
    (GetWorkspaceStateF (failsAt 8) storeAnnotated "ws1" 0 =
      .error ⟨.query "arrows", .driver "disk I/O error",
        .errorf "query arrows: disk I/O error"⟩) ∧
    (GetWorkspaceStateF (failsAt 11) storeAnnotated "ws1" 0 =
      .error ⟨.query "underlines", .driver "disk I/O error",
        .errorf "query underlines: disk I/O error"⟩) ∧
    (GetWorkspaceStateF (failsAt 14) storeAnnotated "ws1" 0 =
      .error ⟨.query "editors", .driver "disk I/O error",
        .errorf "query editors: disk I/O error"⟩) ∧
    (GetWorkspaceStateF (failsAt 16) storeAnnotated "ws1" 0 =
      .error ⟨.rowsErr, .driver "disk I/O error", .db (.driver "disk I/O error")⟩) ∧
    ((StoreCall.removeEditor "ws1" 0).runF (failsAt 2) true storeAnnotated 0 =
      .error ⟨.query "editors", .driver "disk I/O error", .db (.driver "disk I/O error")⟩) ∧
    ((Unmodified ((StoreCall.removeEditor "ws1" 0).runF (failsAt 2) true storeAnnotated) ∧
      FailsAtFirstFault (failsAt 2)
        ((StoreCall.removeEditor "ws1" 0).runF (failsAt 2) true storeAnnotated) ∧
      NothingSwallowed (failsAt 2)
        ((StoreCall.removeEditor "ws1" 0).runF (failsAt 2) true storeAnnotated)) ∧
    (Unmodified (EnsureWorkspaceF (failsAt 2) storeAnnotated "ws1") ∧
      FailsAtFirstFault (failsAt 2) (EnsureWorkspaceF (failsAt 2) storeAnnotated "ws1") ∧
      NothingSwallowed (failsAt 2) (EnsureWorkspaceF (failsAt 2) storeAnnotated "ws1")) ∧
    (WrapsQueryErrors (GetWorkspaceStateF (failsAt 2) storeAnnotated "ws1") ∧
      WrapsQueryErrorsOnly (GetWorkspaceStateF (failsAt 2) storeAnnotated "ws1") ∧
      FailsAtFirstFault (failsAt 2) (GetWorkspaceStateF (failsAt 2) storeAnnotated "ws1") ∧
      NothingSwallowed (failsAt 2) (GetWorkspaceStateF (failsAt 2) storeAnnotated "ws1"))) :=
  ⟨rfl, rfl, rfl, rfl, rfl, rfl, rfl, rfl, rfl, rfl,
    storage_errors_unmodified_or_wrapped (failsAt 2) true storeAnnotated "ws1"
      (.removeEditor "ws1" 0)⟩

/-- C21 as stated fails: when the driver fails the first storage step of
`GetWorkspaceState` (the layer query) with the error `disk I/O error`, the
caller gets an error with the text `query layers: disk I/O error`, which is
not the error of the step. -/
theorem getWorkspaceState_wraps_query_error :
    firstStepFails 0 = some (DbError.driver "disk I/O error") ∧
    (GetWorkspaceStateF firstStepFails storeOneEditor "ws1").result =
      .error (.errorf "query layers: disk I/O error") ∧
    (GetWorkspaceStateF firstStepFails storeOneEditor "ws1").result ≠
      .error (.db (DbError.driver "disk I/O error")) := by
  refine ⟨rfl, rfl, ?_⟩
  intro h
  have h1 : (GetWorkspaceStateF firstStepFails storeOneEditor "ws1").result =
      .error (.errorf "query layers: disk I/O error") := rfl
  rw [h1] at h
  cases h


/-! ## Editor content -/

/-- A rewrite of the editor rows that keeps `workspace_id` and `index_pos` of
every row commutes with the ordered read of a workspace. -/
theorem editorsOrdered_map (s : Store) (f : EditorRow → EditorRow)
    (hw : ∀ e, (f e).workspace_id = e.workspace_id)
    (hi : ∀ e, (f e).index_pos = e.index_pos) (ws : String) :
    editorsOrdered { s with editor := s.editor.map f } ws = (editorsOrdered s ws).map f := by
  unfold editorsOrdered
  show List.insertionSort _ ((s.editor.map f).filter (fun e => e.workspace_id = ws)) = _
  rw [filter_map_workspace _ f hw ws]
  symm
  apply List.map_insertionSort
  intro a _ b _
  rw [hi a, hi b]

theorem updateEditorContent_eq (s : Store) (ws : String) (i : Int) (d : JVal) :
    UpdateEditorContent s ws i d = .ok { s with editor := s.editor.map (fun e =>
      if e.workspace_id = ws ∧ e.index_pos = i then { e with content_json := some d }
      else e) } := rfl

theorem count_editorsOrdered (s : Store) (ws : String) (i : Int) :
    ((editorsOrdered s ws).filter (fun e => e.index_pos = i)).length =
      (editorIndices s ws).count i := by
  have hp : (editorsOrdered s ws).Perm (s.editor.filter (fun e => e.workspace_id = ws)) :=
    List.perm_insertionSort _ _
  rw [(hp.filter _).length_eq]
  unfold editorIndices
  rw [List.count, List.countP_map, List.countP_eq_length_filter]
  congr 1


/-- Claim C22: when exactly one editor of the workspace has index `i`,
`UpdateEditorContent` with a document `d` succeeds, and `GetWorkspaceState`
afterwards returns the editors it returned before, in the same order, with the
content of the editor at index `i` replaced by `d` whatever it was and every
other editor as it was; exactly one returned editor has index `i` and its
content is `d`; the layers, and the state of every other workspace, are as
before. -/
theorem updateEditorContent_overwrites (s : Store) (ws : String) (i : Int) (d : JVal)
    (hone : (editorIndices s ws).count i = 1) :
    ∃ s1 st st1, UpdateEditorContent s ws i d = .ok s1 ∧
      GetWorkspaceState s ws = .ok st ∧ GetWorkspaceState s1 ws = .ok st1 ∧
      st1.Editors = st.Editors.map (fun e =>
        if e.Index = i then { e with ContentJSON := d } else e) ∧
      (st1.Editors.filter (fun e => e.Index = i)).map (·.ContentJSON) = [d] ∧
      st1.Layers = st.Layers ∧
      ∀ ws2, ws2 ≠ ws → GetWorkspaceState s1 ws2 = GetWorkspaceState s ws2 := by
  have hw : ∀ e : EditorRow, ((fun e : EditorRow =>
      if e.workspace_id = ws ∧ e.index_pos = i then { e with content_json := some d }
      else e) e).workspace_id = e.workspace_id := by
    intro e; dsimp only; split <;> rfl
  have hi : ∀ e : EditorRow, ((fun e : EditorRow =>
      if e.workspace_id = ws ∧ e.index_pos = i then { e with content_json := some d }
      else e) e).index_pos = e.index_pos := by
    intro e; dsimp only; split <;> rfl
  have hord := editorsOrdered_map s _ hw hi
  have hmem : ∀ e ∈ editorsOrdered s ws, e.workspace_id = ws := fun e he =>
    ((mem_editorsOrdered s ws e).mp he).2
  have hEd : ((editorsOrdered s ws).map (fun e : EditorRow =>
      if e.workspace_id = ws ∧ e.index_pos = i then { e with content_json := some d }
      else e)).map EditorRow.toModel =
      ((editorsOrdered s ws).map EditorRow.toModel).map (fun e =>
        if e.Index = i then { e with ContentJSON := d } else e) := by
    rw [List.map_map, List.map_map]
    apply List.map_congr_left
    intro e he
    simp only [Function.comp, hmem e he, true_and]
    by_cases h : e.index_pos = i
    · simp [h, EditorRow.toModel]
    · simp [h, EditorRow.toModel]
  refine ⟨_, _, _, updateEditorContent_eq s ws i d, rfl, rfl, ?_, ?_, rfl, ?_⟩
  · show (List.map EditorRow.toModel (editorsOrdered _ ws)) = _
    rw [hord ws, hEd]
  · show ((List.map EditorRow.toModel (editorsOrdered _ ws)).filter _).map _ = _
    rw [hord ws, hEd, List.filter_map, List.map_map, List.filter_map, List.map_map]
    have hc : ∀ e ∈ (editorsOrdered s ws).filter
        (((fun e : Editor => decide (e.Index = i)) ∘
          (fun e : Editor => if e.Index = i then { e with ContentJSON := d } else e)) ∘
          EditorRow.toModel),
        (((fun e : Editor => e.ContentJSON) ∘
          (fun e : Editor => if e.Index = i then { e with ContentJSON := d } else e)) ∘
          EditorRow.toModel) e = d := by
      intro e he
      have h1 := (List.mem_filter.mp he).2
      simp only [Function.comp, EditorRow.toModel] at h1 ⊢
      by_cases h : e.index_pos = i
      · simp [h]
      · simp [h] at h1
    rw [List.map_congr_left hc, List.map_const', List.length_eq_one.mpr ?_]
    · rfl
    · have hlen := count_editorsOrdered s ws i
      rw [hone] at hlen
      have hf : (editorsOrdered s ws).filter
          (((fun e : Editor => decide (e.Index = i)) ∘
            (fun e : Editor => if e.Index = i then { e with ContentJSON := d } else e)) ∘
            EditorRow.toModel) =
          (editorsOrdered s ws).filter (fun e => e.index_pos = i) := by
        apply List.filter_congr
        intro e _
        simp only [Function.comp, EditorRow.toModel]
        by_cases h : e.index_pos = i
        · simp [h]
        · simp [h]
      rw [hf]
      exact List.length_eq_one.mp hlen
  · intro ws2 hne
    unfold GetWorkspaceState
    have h2 : editorsOrdered { s with editor := s.editor.map (fun e : EditorRow =>
        if e.workspace_id = ws ∧ e.index_pos = i then { e with content_json := some d }
        else e) } ws2 = editorsOrdered s ws2 := by
      rw [hord ws2]
      have hm : ∀ e ∈ editorsOrdered s ws2, (fun e : EditorRow =>
          if e.workspace_id = ws ∧ e.index_pos = i then { e with content_json := some d }
          else e) e = e := by
        intro e he
        have := ((mem_editorsOrdered s ws2 e).mp he).2
        have hne2 : ¬ e.workspace_id = ws := by rw [this]; exact hne
        simp [hne2]
      rw [List.map_congr_left hm, List.map_id']
    simp only [h2]
    rfl

theorem updateEditorContent_overwrites_witness :
    (editorIndices storeThreeEditors "ws1").count 1 = 1 ∧
    ∃ s1 st st1, UpdateEditorContent storeThreeEditors "ws1" 1 (JVal.str "doc") = .ok s1 ∧
      GetWorkspaceState storeThreeEditors "ws1" = .ok st ∧
      GetWorkspaceState s1 "ws1" = .ok st1 ∧
      st1.Editors = st.Editors.map (fun e =>
        if e.Index = 1 then { e with ContentJSON := JVal.str "doc" } else e) ∧
      (st1.Editors.filter (fun e => e.Index = 1)).map (·.ContentJSON) = [JVal.str "doc"] ∧
      st1.Layers = st.Layers ∧
      ∀ ws2, ws2 ≠ "ws1" → GetWorkspaceState s1 ws2 = GetWorkspaceState storeThreeEditors ws2 :=
  ⟨by decide, updateEditorContent_overwrites storeThreeEditors "ws1" 1 (JVal.str "doc")
    (by decide)⟩


/-! ## Numeric payload fields -/

theorem tdiv_num_den (f : ℚ) :
    Int.tdiv f.num f.den = if 0 ≤ f then ⌊f⌋ else ⌈f⌉ := by
  have hden : (0 : Int) < (f.den : Int) := by exact_mod_cast f.den_pos
  by_cases h : 0 ≤ f
  · rw [if_pos h, Rat.floor_def]
    exact Int.tdiv_eq_ediv (Rat.num_nonneg.mpr h) (le_of_lt hden)
  · rw [if_neg h]
    have hneg : 0 ≤ -f := by linarith [not_le.mp h]
    have h1 : ⌈f⌉ = -⌊-f⌋ := by rw [Int.floor_neg, neg_neg]
    rw [h1, Rat.floor_def, Rat.neg_num, Rat.neg_den]
    have h2 : Int.tdiv f.num f.den = -Int.tdiv (-f.num) f.den := by
      rw [Int.neg_tdiv, neg_neg]
    rw [h2]
    congr 1
    have : 0 ≤ -f.num := by
      have := Rat.num_nonneg.mpr hneg
      rwa [Rat.neg_num] at this
    exact Int.tdiv_eq_ediv this (le_of_lt hden)


theorem goInt_in_range (f : ℚ) (hlo : -9223372036854775809 < f)
    (hhi : f < 9223372036854775808) : goInt f = if 0 ≤ f then ⌊f⌋ else ⌈f⌉ := by
  unfold goInt
  dsimp only
  rw [tdiv_num_den]
  by_cases h : 0 ≤ f
  · simp only [if_pos h]
    have h1 : (0 : Int) ≤ ⌊f⌋ := Int.floor_nonneg.mpr h
    have h2 : ⌊f⌋ < 9223372036854775808 := Int.floor_lt.mpr (by exact_mod_cast hhi)
    rw [if_pos ⟨by omega, by omega⟩]
  · simp only [if_neg h]
    have h1 : ⌈f⌉ ≤ 0 := Int.ceil_le.mpr (by exact_mod_cast le_of_lt (not_le.mp h))
    have h2 : -9223372036854775809 < ⌈f⌉ := Int.lt_ceil.mpr (by exact_mod_cast hlo)
    rw [if_pos ⟨by omega, by omega⟩]

theorem goInt_examples :
    goInt (19 / 10) = 1 ∧ goInt (-1 / 2) = 0 ∧ goInt (-19 / 10) = -1 ∧ goInt 2 = 2 ∧
    goInt 10000000000000000000 = -9223372036854775808 := by
  refine ⟨?_, ?_, ?_, rfl, rfl⟩
  · rw [goInt_in_range _ (by norm_num) (by norm_num), if_pos (by norm_num)]
    exact Int.floor_eq_iff.mpr ⟨by norm_num, by norm_num⟩
  · rw [goInt_in_range _ (by norm_num) (by norm_num), if_neg (by norm_num)]
    exact Int.ceil_eq_iff.mpr ⟨by norm_num, by norm_num⟩
  · rw [goInt_in_range _ (by norm_num) (by norm_num), if_neg (by norm_num)]
    exact Int.ceil_eq_iff.mpr ⟨by norm_num, by norm_num⟩


theorem except_ok_bind {ε α β : Type} (a : α) (g : α → Except ε β) :
    (Except.ok a >>= g) = g a := rfl

theorem permutationLoop_nums (fs : List ℚ) :
    ∀ i, permutationLoop i (fs.map JVal.num) = pure (fs.map goInt) := by
  induction fs with
  | nil => intro i; rfl
  | cons f rest ih =>
    intro i
    simp only [List.map_cons, permutationLoop, ih (i + 1)]
    rfl

/-- C23 (amended): a numeric value whose truncation toward zero is in the
range of the 64-bit `int` (a value greater than `-2^63 - 1` and less than
`2^63`) is converted by `int(f)` to that truncation: the floor of a value that
is not negative, the ceiling of a negative one, so 1.9 gives 1 and -0.5 gives
0.  Every handler that reads a numeric field (`editorIndex`, `from`, `to` of a
highlight, an underline and the two endpoints of an arrow, `index`,
`editorIndex` of a content update, and the entries of `permutation`) is, on a
payload with its required fields, the one store call whose integer arguments
are the conversions of the values of the fields. -/
theorem numeric_fields_truncated :
    (∀ f : ℚ, -9223372036854775809 < f → f < 9223372036854775808 →
      goInt f = if 0 ≤ f then ⌊f⌋ else ⌈f⌉) ∧
    goInt (19 / 10) = 1 ∧ goInt (-1 / 2) = 0 ∧
    (∀ (fk : Bool) (ws : String) (p h : Payload) (l id : String) (a b c : ℚ),
      mapGet p "layerId" = some (.str l) → mapGet p "highlight" = some (.obj h) →
      mapGet h "id" = some (.str id) → mapGet h "editorIndex" = some (.num a) →
      mapGet h "from" = some (.num b) → mapGet h "to" = some (.num c) →
      handleAddHighlight fk ws p = storeCall fk (.addHighlight l id (goInt a) (goInt b) (goInt c)
        (stringOrDefault h "text" "") (stringOrDefault h "annotation" ""))) ∧
    (∀ (fk : Bool) (ws : String) (p u : Payload) (l id : String) (a b c : ℚ),
      mapGet p "layerId" = some (.str l) → mapGet p "underline" = some (.obj u) →
      mapGet u "id" = some (.str id) → mapGet u "editorIndex" = some (.num a) →
      mapGet u "from" = some (.num b) → mapGet u "to" = some (.num c) →
      handleAddUnderline fk ws p = storeCall fk (.addUnderline l id (goInt a) (goInt b) (goInt c)
        (stringOrDefault u "text" ""))) ∧
    (∀ (fk : Bool) (ws : String) (p arrow fromEndpoint toEndpoint : Payload) (l id : String)
        (a b c d e f : ℚ),
      mapGet p "layerId" = some (.str l) → mapGet p "arrow" = some (.obj arrow) →
      mapGet arrow "id" = some (.str id) →
      mapGet arrow "from" = some (.obj fromEndpoint) →
      mapGet arrow "to" = some (.obj toEndpoint) →
      mapGet fromEndpoint "editorIndex" = some (.num a) →
      mapGet fromEndpoint "from" = some (.num b) → mapGet fromEndpoint "to" = some (.num c) →
      mapGet toEndpoint "editorIndex" = some (.num d) →
      mapGet toEndpoint "from" = some (.num e) → mapGet toEndpoint "to" = some (.num f) →
      handleAddArrow fk ws p = storeCall fk (.addArrow l id
        (goInt a) (goInt b) (goInt c) (stringOrDefault fromEndpoint "text" "")
        (goInt d) (goInt e) (goInt f) (stringOrDefault toEndpoint "text" ""))) ∧
    (∀ (fk : Bool) (ws : String) (p : Payload) (f : ℚ) (name : String),
      mapGet p "index" = some (.num f) → mapGet p "name" = some (.str name) →
      handleAddEditor fk ws p = storeCall fk (.addEditor ws (goInt f) name)) ∧
    (∀ (fk : Bool) (ws : String) (p : Payload) (f : ℚ),
      mapGet p "index" = some (.num f) →
      handleRemoveEditor fk ws p = storeCall fk (.removeEditor ws (goInt f))) ∧
    (∀ (fk : Bool) (ws : String) (p : Payload) (f : ℚ) (name : String),
      mapGet p "index" = some (.num f) → mapGet p "name" = some (.str name) →
      handleUpdateSectionName fk ws p = storeCall fk (.updateSectionName ws (goInt f) name)) ∧
    (∀ (fk : Bool) (ws : String) (p : Payload) (f : ℚ),
      mapGet p "index" = some (.num f) →
      handleToggleSectionVisibility fk ws p = storeCall fk (.toggleSectionVisibility ws (goInt f))) ∧
    (∀ (fk : Bool) (ws : String) (p : Payload) (f : ℚ) (v : JVal),
      mapGet p "editorIndex" = some (.num f) → mapGet p "contentJson" = some v →
      v ≠ JVal.null →
      handleUpdateEditorContent fk ws p = storeCall fk (.updateEditorContent ws (goInt f) v)) ∧
    (∀ (fk : Bool) (ws : String) (p : Payload) (fs : List ℚ),
      mapGet p "permutation" = some (.arr (fs.map JVal.num)) →
      handleReorderEditors fk ws p = storeCall fk (.reorderEditors ws (fs.map goInt))) := by
  refine ⟨goInt_in_range, goInt_examples.1, goInt_examples.2.1, ?_, ?_, ?_, ?_, ?_, ?_, ?_,
    ?_, ?_⟩
  · intro fk ws p h l id a b c h1 h2 h3 h4 h5 h6
    simp only [handleAddHighlight, go_pure_bind, assertString, assertMap, assertFloat64, h1, h2, h3, h4, h5,
      h6]
  · intro fk ws p u l id a b c h1 h2 h3 h4 h5 h6
    simp only [handleAddUnderline, go_pure_bind, assertString, assertMap, assertFloat64, h1, h2, h3, h4, h5,
      h6]
  · intro fk ws p arrow fe te l id a b c d e f h1 h2 h3 h4 h5 h6 h7 h8 h9 h10 h11
    simp only [handleAddArrow, go_pure_bind, assertString, assertMap, assertFloat64, h1, h2, h3, h4, h5,
      h6, h7, h8, h9, h10, h11]
  · intro fk ws p f name h1 h2
    simp only [handleAddEditor, go_pure_bind, assertString, assertFloat64, h1, h2]
  · intro fk ws p f h1
    simp only [handleRemoveEditor, go_pure_bind, assertFloat64, h1]
  · intro fk ws p f name h1 h2
    simp only [handleUpdateSectionName, go_pure_bind, assertString, assertFloat64, h1, h2]
  · intro fk ws p f h1
    simp only [handleToggleSectionVisibility, go_pure_bind, assertFloat64, h1]
  · intro fk ws p f v h1 h2 h3
    simp only [handleUpdateEditorContent, go_pure_bind, assertFloat64, h1, h2]
  · intro fk ws p fs h1
    simp only [handleReorderEditors, go_pure_bind, assertSlice, h1]
    show (permutationLoop 0 (fs.map JVal.num) >>= _) = _
    rw [permutationLoop_nums]
    rfl

theorem numeric_fields_truncated_witness :
    goInt (19 / 10) = 1 ∧
    handleRemoveEditor true "ws1" [("index", JVal.num (19 / 10))] =
      storeCall true (.removeEditor "ws1" (goInt (19 / 10))) ∧
    handleReorderEditors true "ws1" [("permutation", JVal.arr ([2, 0, 1].map JVal.num))] =
      storeCall true (.reorderEditors "ws1" ([2, 0, 1].map goInt)) :=
  ⟨numeric_fields_truncated.2.1,
   numeric_fields_truncated.2.2.2.2.2.2.2.1 true "ws1" [("index", JVal.num (19 / 10))]
     (19 / 10) rfl,
   numeric_fields_truncated.2.2.2.2.2.2.2.2.2.2.2 true "ws1"
     [("permutation", JVal.arr ([2, 0, 1].map JVal.num))] [2, 0, 1] rfl⟩

/-- C23 as stated fails: the value `1e19` is a floating-point value that
a payload can carry; truncated toward zero it is `10000000000000000000`, but
`handleRemoveEditor` passes `-9223372036854775808` to the store for it. -/
theorem removeEditor_index_out_of_range :
    ⌊(10000000000000000000 : ℚ)⌋ = 10000000000000000000 ∧
    (∀ fk, handleRemoveEditor fk "ws1" [("index", JVal.num 10000000000000000000)] =
      storeCall fk (.removeEditor "ws1" (-9223372036854775808))) ∧
    (handleRemoveEditor true "ws1" [("index", JVal.num 10000000000000000000)]
        ⟨storeOneEditor, []⟩).2.calls =
      [.removeEditor "ws1" (-9223372036854775808)] := by
  refine ⟨?_, fun fk => rfl, rfl⟩
  exact Int.floor_eq_iff.mpr ⟨by norm_num, by norm_num⟩


/-! ## Optional text fields -/

theorem stringOrDefault_eq (m : Payload) (k d : String) :
    stringOrDefault m k d = ((mapGet m k).bind JVal.asString).getD d := by
  unfold stringOrDefault
  cases mapGet m k with
  | none => rfl
  | some v => cases v <;> rfl

/-- C24: `stringOrDefault m k d` is the value of `k` in `m` when the key is
present with a string value, and `d` when the key is absent or its value is
not a string.  `handleAddHighlight`, `handleAddUnderline` and `handleAddArrow`
read the optional `text` (of the highlight, the underline, each arrow
endpoint) and `annotation` with default `""`: when the required fields are
well-formed they are the one store call that gets the string held by the
optional field, and `""` when the field is absent or holds no string; on a
connection that enforces foreign keys or not, that call stores the row. -/
theorem stringOrDefault_contract :
    (∀ (m : Payload) (k d s : String),
      mapGet m k = some (.str s) → stringOrDefault m k d = s) ∧
    (∀ (m : Payload) (k d : String), mapGet m k = none → stringOrDefault m k d = d) ∧
    (∀ (m : Payload) (k d : String) (v : JVal),
      mapGet m k = some v → v.asString = none → stringOrDefault m k d = d) ∧
    (∀ (fk : Bool) (ws : String) (p h : Payload) (l id : String) (a b c : ℚ),
      mapGet p "layerId" = some (.str l) → mapGet p "highlight" = some (.obj h) →
      mapGet h "id" = some (.str id) → mapGet h "editorIndex" = some (.num a) →
      mapGet h "from" = some (.num b) → mapGet h "to" = some (.num c) →
      handleAddHighlight fk ws p = storeCall fk (.addHighlight l id (goInt a) (goInt b) (goInt c)
        (((mapGet h "text").bind JVal.asString).getD "")
        (((mapGet h "annotation").bind JVal.asString).getD ""))) ∧
    (∀ (fk : Bool) (ws : String) (p u : Payload) (l id : String) (a b c : ℚ),
      mapGet p "layerId" = some (.str l) → mapGet p "underline" = some (.obj u) →
      mapGet u "id" = some (.str id) → mapGet u "editorIndex" = some (.num a) →
      mapGet u "from" = some (.num b) → mapGet u "to" = some (.num c) →
      handleAddUnderline fk ws p = storeCall fk (.addUnderline l id (goInt a) (goInt b) (goInt c)
        (((mapGet u "text").bind JVal.asString).getD ""))) ∧
    (∀ (fk : Bool) (ws : String) (p arrow fromEndpoint toEndpoint : Payload) (l id : String)
        (a b c d e f : ℚ),
      mapGet p "layerId" = some (.str l) → mapGet p "arrow" = some (.obj arrow) →
      mapGet arrow "id" = some (.str id) →
      mapGet arrow "from" = some (.obj fromEndpoint) →
      mapGet arrow "to" = some (.obj toEndpoint) →
      mapGet fromEndpoint "editorIndex" = some (.num a) →
      mapGet fromEndpoint "from" = some (.num b) → mapGet fromEndpoint "to" = some (.num c) →
      mapGet toEndpoint "editorIndex" = some (.num d) →
      mapGet toEndpoint "from" = some (.num e) → mapGet toEndpoint "to" = some (.num f) →
      handleAddArrow fk ws p = storeCall fk (.addArrow l id
        (goInt a) (goInt b) (goInt c) (((mapGet fromEndpoint "text").bind JVal.asString).getD "")
        (goInt d) (goInt e) (goInt f)
        (((mapGet toEndpoint "text").bind JVal.asString).getD ""))) := by
  refine ⟨?_, ?_, ?_, ?_, ?_, ?_⟩
  · intro m k d s h
    rw [stringOrDefault_eq, h]
    rfl
  · intro m k d h
    rw [stringOrDefault_eq, h]
    rfl
  · intro m k d v h hv
    rw [stringOrDefault_eq, h]
    show (v.asString).getD d = d
    rw [hv]
    rfl
  · intro fk ws p h l id a b c h1 h2 h3 h4 h5 h6
    simp only [handleAddHighlight, go_pure_bind, assertString, assertMap, assertFloat64, h1,
      h2, h3, h4, h5, h6, stringOrDefault_eq]
  · intro fk ws p u l id a b c h1 h2 h3 h4 h5 h6
    simp only [handleAddUnderline, go_pure_bind, assertString, assertMap, assertFloat64, h1,
      h2, h3, h4, h5, h6, stringOrDefault_eq]
  · intro fk ws p arrow fe te l id a b c d e f h1 h2 h3 h4 h5 h6 h7 h8 h9 h10 h11
    simp only [handleAddArrow, go_pure_bind, assertString, assertMap, assertFloat64, h1, h2,
      h3, h4, h5, h6, h7, h8, h9, h10, h11, stringOrDefault_eq]

theorem stringOrDefault_contract_witness :
    stringOrDefault [("key", .str "value"), ("num", .num 42)] "key" "def" = "value" ∧
    stringOrDefault [("key", .str "value"), ("num", .num 42)] "missing" "def" = "def" ∧
    stringOrDefault [("key", .str "value"), ("num", .num 42)] "num" "def" = "def" ∧
    handleAddHighlight true "ws1" addHighlightPayloadNoText =
      storeCall true (.addHighlight "l1" "h9" (goInt 0) (goInt 1) (goInt 5) "" "") ∧
    (∀ fk, ((StoreCall.addHighlight "l1" "h9" 0 1 5 "" "").run fk storeAnnotated).map
        (fun s => s.highlight.filter (fun h => h.id = "h9")) =
      .ok [⟨"h9", "l1", 0, 1, 5, "", "", "highlight"⟩]) :=
  ⟨stringOrDefault_contract.1 _ "key" "def" "value" rfl,
   stringOrDefault_contract.2.1 _ "missing" "def" rfl,
   stringOrDefault_contract.2.2.1 _ "num" "def" (.num 42) rfl rfl,
   stringOrDefault_contract.2.2.2.1 true "ws1" addHighlightPayloadNoText
     [("id", .str "h9"), ("editorIndex", .num 0), ("from", .num 1), ("to", .num 5),
      ("annotation", .num 7)] "l1" "h9" 0 1 5 rfl rfl rfl rfl rfl rfl,
   fun fk => by cases fk <;> rfl⟩


/-! ## `ReorderEditors` over an arbitrary list -/

/-- The loop of `ReorderEditors` in closed form, for every list: a row gets the
place of the last entry that the map sends to it, and a row no entry is sent
to is left alone. -/
theorem reorderEditorsLoop_last (byIndex : List (Int × Nat)) (P : List Int) :
    ∀ (pos : Nat) (rows : List EditorRow),
      reorderEditorsLoop byIndex pos P rows = rows.map (fun e =>
        match lastEntryFor byIndex e.id P with
        | some j => { e with index_pos := ((pos + j : Nat) : Int) }
        | none => e) := by
  induction P with
  | nil => intro pos rows; simp [reorderEditorsLoop, lastEntryFor]
  | cons k rest ih =>
    intro pos rows
    cases hget : mapGet byIndex k with
    | none =>
      rw [reorderEditorsLoop]
      simp only [hget]
      rw [ih]
      apply List.map_congr_left
      intro e _
      simp only [lastEntryFor, hget]
      cases lastEntryFor byIndex e.id rest with
      | none => simp
      | some j =>
        simp only
        congr 2
        omega
    | some id =>
      rw [reorderEditorsLoop]
      simp only [hget]
      rw [ih, setIndexPos_eq_map, List.map_map]
      apply List.map_congr_left
      intro e _
      simp only [Function.comp, lastEntryFor, hget]
      by_cases hid : e.id = id
      · simp only [hid, if_true]
        cases lastEntryFor byIndex id rest with
        | none => simp
        | some j =>
          simp only
          congr 2
          omega
      · have hne : ¬ id = e.id := fun h => hid h.symm
        simp only [hid, if_false, Option.some.injEq, hne]
        cases lastEntryFor byIndex e.id rest with
        | none => rfl
        | some j =>
          simp only
          congr 2
          omega

theorem lastEntryFor_none (byIndex : List (Int × Nat)) (id : Nat) (P : List Int)
    (h : lastEntryFor byIndex id P = none) : ∀ k ∈ P, mapGet byIndex k ≠ some id := by
  induction P with
  | nil => intro k hk; simp at hk
  | cons a r ih =>
    unfold lastEntryFor at h
    cases hr : lastEntryFor byIndex id r with
    | some _ => simp [hr] at h
    | none =>
      simp only [hr] at h
      by_cases ha : mapGet byIndex a = some id
      · simp [ha] at h
      · intro k hk
        rcases List.mem_cons.mp hk with h1 | h1
        · rw [h1]; exact ha
        · exact ih hr k h1

theorem lastEntryFor_some (byIndex : List (Int × Nat)) (id : Nat) (P : List Int) :
    ∀ j, lastEntryFor byIndex id P = some j →
      P[j]? ≠ none ∧ (∀ k, P[j]? = some k → mapGet byIndex k = some id) ∧
      ∀ j1 k, j < j1 → P[j1]? = some k → mapGet byIndex k ≠ some id := by
  induction P with
  | nil => intro j h; simp [lastEntryFor] at h
  | cons k0 rest ih =>
    intro j h
    unfold lastEntryFor at h
    cases hl : lastEntryFor byIndex id rest with
    | some j0 =>
      simp only [hl, Option.some.injEq] at h
      subst h
      obtain ⟨h1, h2, h3⟩ := ih j0 hl
      refine ⟨by simpa using h1, fun k hk => h2 k (by simpa using hk), ?_⟩
      intro j1 k hlt hk
      obtain ⟨j2, rfl⟩ : ∃ j2, j1 = j2 + 1 := ⟨j1 - 1, by omega⟩
      exact h3 j2 k (by omega) (by simpa using hk)
    | none =>
      simp only [hl] at h
      by_cases hk0 : mapGet byIndex k0 = some id
      · simp only [hk0, if_true, Option.some.injEq] at h
        subst h
        refine ⟨by simp, fun k hk => ?_, ?_⟩
        · simp only [List.getElem?_cons_zero, Option.some.injEq] at hk
          rw [← hk]; exact hk0
        · intro j1 k hlt hk
          obtain ⟨j2, rfl⟩ : ∃ j2, j1 = j2 + 1 := ⟨j1 - 1, by omega⟩
          simp only [List.getElem?_cons_succ] at hk
          exact lastEntryFor_none byIndex id rest hl k (List.getElem?_mem hk)
      · simp [hk0] at h


theorem lastEntryFor_of_last (byIndex : List (Int × Nat)) (id : Nat) (P : List Int) (i : Nat)
    (k : Int) (hk : P[i]? = some k) (hget : mapGet byIndex k = some id)
    (hlast : ∀ j1 k1, i < j1 → P[j1]? = some k1 → mapGet byIndex k1 ≠ some id) :
    lastEntryFor byIndex id P = some i := by
  cases h : lastEntryFor byIndex id P with
  | none => exact absurd hget (lastEntryFor_none byIndex id P h k (List.getElem?_mem hk))
  | some j =>
    obtain ⟨h1, h2, h3⟩ := lastEntryFor_some byIndex id P j h
    rcases Nat.lt_trichotomy j i with hlt | heq | hgt
    · exact absurd hget (h3 i k hlt hk)
    · rw [heq]
    · obtain ⟨k1, hk1⟩ := Option.ne_none_iff_exists'.mp h1
      exact absurd (h2 k1 hk1) (hlast j k1 hgt hk1)

/-- When the editor ids are distinct and the editors of the workspace have
distinct indices, the map that `ReorderEditors` fills sends `k` to the id of a
row exactly when the row is the editor of the workspace at index `k`. -/
theorem editorByIndex_ordered_iff (s : Store) (ws : String)
    (hpk : (s.editor.map (·.id)).Nodup) (hidx : (editorIndices s ws).Nodup)
    (e : EditorRow) (he : e ∈ s.editor) (k : Int) :
    mapGet (editorByIndex (editorsOrdered s ws)) k = some e.id ↔
      e.workspace_id = ws ∧ e.index_pos = k := by
  have hnd : ((editorsOrdered s ws).map (·.index_pos)).Nodup :=
    ((orderedIndices_perm s ws).nodup_iff).mpr hidx
  constructor
  · intro h
    obtain ⟨e1, he1, hk1, hid1⟩ := editorByIndex_some _ k e.id h
    obtain ⟨he1s, he1w⟩ := (mem_editorsOrdered s ws e1).mp he1
    have := editor_eq_of_id_eq s.editor hpk e1 e he1s he hid1
    subst this
    exact ⟨he1w, hk1⟩
  · rintro ⟨hw, hk⟩
    rw [← hk]
    exact editorByIndex_mem _ hnd e ((mem_editorsOrdered s ws e).mpr ⟨he, hw⟩)

/-- `ReorderEditors` in closed form for every list. -/
theorem reorderEditors_last (s : Store) (ws : String) (P : List Int) :
    ReorderEditors s ws P = .ok { s with editor := s.editor.map (fun e =>
      match lastEntryFor (editorByIndex (editorsOrdered s ws)) e.id P with
      | some j => { e with index_pos := (j : Int) }
      | none => e) } := by
  unfold ReorderEditors
  simp only [reorderEditorsLoop_last, Nat.zero_add]

/-- Claim C25, amended: when the editor ids are distinct and the editors of the
workspace have distinct indices, `ReorderEditors` returns no error for every
list `P`, whether or not its entries name an editor, and changes nothing but
`index_pos` values: an entry `P[i]` that is the index of an editor of the
workspace and does not occur again later in `P` leaves that editor at index
`i`; an editor of another workspace, or one whose index does not occur in `P`,
is unchanged; and every editor afterwards is an editor from before, unchanged
or moved to a place `i` whose entry `P[i]` is its old index, so an entry that
names no editor changes no editor. -/
theorem reorderEditors_skips_unknown (s : Store) (ws : String) (P : List Int)
    (hpk : (s.editor.map (·.id)).Nodup) (hidx : (editorIndices s ws).Nodup) :
    ∃ s1, ReorderEditors s ws P = .ok s1 ∧
      s1 = { s with editor := s1.editor } ∧
      s1.editor.map (·.id) = s.editor.map (·.id) ∧
      (∀ e ∈ s.editor, e.workspace_id = ws → ∀ i : Nat, P[i]? = some e.index_pos →
        (∀ j, i < j → P[j]? ≠ some e.index_pos) →
        { e with index_pos := (i : Int) } ∈ s1.editor) ∧
      (∀ e ∈ s.editor, e.workspace_id ≠ ws ∨ e.index_pos ∉ P → e ∈ s1.editor) ∧
      (∀ e1 ∈ s1.editor, ∃ e ∈ s.editor, e1 = e ∨
        (e.workspace_id = ws ∧ ∃ i : Nat, P[i]? = some e.index_pos ∧
          e1 = { e with index_pos := (i : Int) })) := by
  refine ⟨_, reorderEditors_last s ws P, rfl, ?_, ?_, ?_, ?_⟩
  · show (s.editor.map _).map _ = _
    rw [List.map_map]
    apply List.map_congr_left
    intro e _
    simp only [Function.comp]
    split <;> rfl
  · intro e he hw i hi hlast
    show _ ∈ s.editor.map _
    refine List.mem_map.mpr ⟨e, he, ?_⟩
    have h := lastEntryFor_of_last (editorByIndex (editorsOrdered s ws)) e.id P i e.index_pos hi
      ((editorByIndex_ordered_iff s ws hpk hidx e he _).mpr ⟨hw, rfl⟩)
      (fun j1 k1 hlt hk1 hc => by
        have := ((editorByIndex_ordered_iff s ws hpk hidx e he k1).mp hc).2
        exact hlast j1 hlt (this ▸ hk1))
    simp only [h]
  · intro e he hor
    show _ ∈ s.editor.map _
    refine List.mem_map.mpr ⟨e, he, ?_⟩
    cases h : lastEntryFor (editorByIndex (editorsOrdered s ws)) e.id P with
    | none => rfl
    | some j =>
      exfalso
      obtain ⟨h1, h2, _⟩ := lastEntryFor_some _ _ _ j h
      obtain ⟨k1, hk1⟩ := Option.ne_none_iff_exists'.mp h1
      obtain ⟨hw, hk⟩ := (editorByIndex_ordered_iff s ws hpk hidx e he k1).mp (h2 k1 hk1)
      rcases hor with h3 | h3
      · exact h3 hw
      · exact h3 (hk ▸ List.getElem?_mem hk1)
  · intro e1 he1
    obtain ⟨e, he, hg⟩ := List.mem_map.mp (show e1 ∈ s.editor.map _ from he1)
    refine ⟨e, he, ?_⟩
    cases h : lastEntryFor (editorByIndex (editorsOrdered s ws)) e.id P with
    | none =>
      simp only [h] at hg
      exact Or.inl hg.symm
    | some j =>
      simp only [h] at hg
      obtain ⟨h1, h2, _⟩ := lastEntryFor_some _ _ _ j h
      obtain ⟨k1, hk1⟩ := Option.ne_none_iff_exists'.mp h1
      obtain ⟨hw, hk⟩ := (editorByIndex_ordered_iff s ws hpk hidx e he k1).mp (h2 k1 hk1)
      exact Or.inr ⟨hw, j, hk ▸ hk1, hg.symm⟩

theorem reorderEditors_skips_unknown_witness :
    (storeThreeEditors.editor.map (·.id)).Nodup ∧
    (editorIndices storeThreeEditors "ws1").Nodup ∧
    ∃ s1, ReorderEditors storeThreeEditors "ws1" [2, 7, 0, 1, -4] = .ok s1 ∧
      s1 = { storeThreeEditors with editor := s1.editor } ∧
      s1.editor.map (·.id) = storeThreeEditors.editor.map (·.id) ∧
      (∀ e ∈ storeThreeEditors.editor, e.workspace_id = "ws1" → ∀ i : Nat,
        ([2, 7, 0, 1, -4] : List Int)[i]? = some e.index_pos →
        (∀ j, i < j → ([2, 7, 0, 1, -4] : List Int)[j]? ≠ some e.index_pos) →
        { e with index_pos := (i : Int) } ∈ s1.editor) ∧
      (∀ e ∈ storeThreeEditors.editor,
        e.workspace_id ≠ "ws1" ∨ e.index_pos ∉ ([2, 7, 0, 1, -4] : List Int) →
        e ∈ s1.editor) ∧
      (∀ e1 ∈ s1.editor, ∃ e ∈ storeThreeEditors.editor, e1 = e ∨
        (e.workspace_id = "ws1" ∧ ∃ i : Nat,
          ([2, 7, 0, 1, -4] : List Int)[i]? = some e.index_pos ∧
          e1 = { e with index_pos := (i : Int) })) :=
  ⟨by decide, by decide,
   reorderEditors_skips_unknown storeThreeEditors "ws1" [2, 7, 0, 1, -4] (by decide)
     (by decide)⟩

/-- Claim C25, counterexample: in a workspace with one editor, at index 0, the
list `[0, 0]` has two entries that name that editor; `ReorderEditors` returns
no error and the editor ends at index 1, so the entry `P[0]` has not moved it
to index 0. -/
theorem reorderEditors_repeated_entry :
    ReorderEditors storeOneEditor "ws1" [0, 0] =
      .ok { storeOneEditor with editor := [⟨1, "ws1", 1, "Passage 1", true, none⟩] } := rfl


/-! ## `RemoveEditor` from any state -/

/-- Claim C28: for every store state (whatever the indices of its editors; the
ids are distinct, as the primary key makes them) and every index value,
`RemoveEditor` returns no error, changes no table but `editor`, and
afterwards the indices of the editors of the workspace are exactly `0..m-1`
for the `m` editors that remain; the rows that remain are, in table order,
exactly the rows that are not an editor of the workspace at that index, each
unchanged but for its index; the editors of every other workspace are as they
were. -/
theorem removeEditor_renumbers_any_state (s : Store) (ws : String) (index : Int)
    (hpk : (s.editor.map (·.id)).Nodup) :
    ∃ s1, RemoveEditor s ws index = .ok s1 ∧
      s1 = { s with editor := s1.editor } ∧
      ((s1.editor.filter (fun e => e.workspace_id = ws)).map (·.index_pos)).Perm
        ((List.range (s1.editor.filter (fun e => e.workspace_id = ws)).length).map
          Int.ofNat) ∧
      s1.editor.map (·.id) =
        (s.editor.filter (fun e => ¬ (e.workspace_id = ws ∧ e.index_pos = index))).map (·.id) ∧
      (∀ e ∈ s.editor, e.workspace_id = ws → e.index_pos ≠ index →
        ∃ k : Nat, { e with index_pos := (k : Int) } ∈ s1.editor) ∧
      (∀ ws1, ws1 ≠ ws → s1.editor.filter (fun e => e.workspace_id = ws1) =
        s.editor.filter (fun e => e.workspace_id = ws1)) := by
  have hpk1 := deleteEditorsAt_nodup s ws index hpk
  refine ⟨_, removeEditor_eq s ws index hpk, rfl, ?_, ?_, ?_, ?_⟩
  · show (((renumbered (deleteEditorsAt s ws index) ws).filter _).map _).Perm
      ((List.range ((renumbered (deleteEditorsAt s ws index) ws).filter _).length).map _)
    have hlen : ((renumbered (deleteEditorsAt s ws index) ws).filter
        (fun e => e.workspace_id = ws)).length =
        ((deleteEditorsAt s ws index).editor.filter (fun e => e.workspace_id = ws)).length := by
      rw [renumbered_filter_same, List.length_map]
    rw [hlen]
    exact renumbered_contiguous _ ws hpk1
  · show (renumbered (deleteEditorsAt s ws index) ws).map _ = _
    rw [renumbered_ids]
    rfl
  · intro e he hw hne
    show ∃ k : Nat, _ ∈ renumbered (deleteEditorsAt s ws index) ws
    have hmem : e ∈ (deleteEditorsAt s ws index).editor :=
      (mem_deleteEditorsAt s ws index e).mpr ⟨he, fun h => hne h.2⟩
    exact ⟨rankOf (deleteEditorsAt s ws index) ws e,
      (mem_renumbered _ ws _).mpr ⟨e, hmem, by rw [if_pos hw]⟩⟩
  · intro ws1 hne
    show (renumbered (deleteEditorsAt s ws index) ws).filter _ = _
    rw [renumbered_filter_other _ ws ws1 hne, deleteEditorsAt_filter_other s ws ws1 index hne]

theorem removeEditor_renumbers_any_state_witness :
    (storeGappedEditors.editor.map (·.id)).Nodup ∧
    ∃ s1, RemoveEditor storeGappedEditors "ws1" 9 = .ok s1 ∧
      s1 = { storeGappedEditors with editor := s1.editor } ∧
      ((s1.editor.filter (fun e => e.workspace_id = "ws1")).map (·.index_pos)).Perm
        ((List.range (s1.editor.filter (fun e => e.workspace_id = "ws1")).length).map
          Int.ofNat) ∧
      s1.editor.map (·.id) =
        (storeGappedEditors.editor.filter
          (fun e => ¬ (e.workspace_id = "ws1" ∧ e.index_pos = 9))).map (·.id) ∧
      (∀ e ∈ storeGappedEditors.editor, e.workspace_id = "ws1" → e.index_pos ≠ 9 →
        ∃ k : Nat, { e with index_pos := (k : Int) } ∈ s1.editor) ∧
      (∀ ws1, ws1 ≠ "ws1" → s1.editor.filter (fun e => e.workspace_id = ws1) =
        storeGappedEditors.editor.filter (fun e => e.workspace_id = ws1)) :=
  ⟨by decide, removeEditor_renumbers_any_state storeGappedEditors "ws1" 9 (by decide)⟩


/-! ## Layer operations and other workspaces -/

theorem layerPositionAfter_unmatched (ws : String) (L : List String) :
    ∀ (pos : Nat) (r : LayerRow), (r.workspace_id ≠ ws ∨ r.id ∉ L) →
      layerPositionAfter ws pos L r = r.position := by
  induction L with
  | nil => intro pos r _; rfl
  | cons a rest ih =>
    intro pos r h
    have hno : ¬ (r.id = a ∧ r.workspace_id = ws) := by
      rintro ⟨h1, h2⟩
      rcases h with h | h
      · exact h h2
      · exact h (h1 ▸ List.mem_cons_self _ _)
    rw [layerPositionAfter, if_neg hno]
    apply ih
    rcases h with h | h
    · exact Or.inl h
    · exact Or.inr (fun hc => h (List.mem_cons_of_mem _ hc))

/-- A map that fixes the rows of the other workspaces keeps them, in place. -/
theorem filter_other_map (rows : List LayerRow) (W : String) (g : LayerRow → LayerRow)
    (hg : ∀ r, r.workspace_id ≠ W → g r = r)
    (hw : ∀ r, (g r).workspace_id = r.workspace_id) :
    (rows.map g).filter (fun r => r.workspace_id ≠ W) =
      rows.filter (fun r => r.workspace_id ≠ W) := by
  induction rows with
  | nil => rfl
  | cons r rest ih =>
    by_cases h : r.workspace_id = W
    · have h1 : (g r).workspace_id = W := by rw [hw, h]
      simp only [List.map_cons, List.filter_cons, h, h1, ne_eq, not_true_eq_false,
        decide_False, Bool.false_eq_true, if_false]
      simpa using ih
    · have h1 : g r = r := hg r h
      simp only [List.map_cons, List.filter_cons, h1, h, ne_eq, not_false_eq_true,
        decide_True, if_true]
      rw [show List.filter (fun r => decide (r.workspace_id ≠ W)) (List.map g rest) =
        List.filter (fun r => decide (r.workspace_id ≠ W)) rest from ih]

theorem map_eq_self_of_fixed {α : Type} (l : List α) (g : α → α) (h : ∀ a ∈ l, g a = a) :
    l.map g = l := by
  rw [List.map_congr_left h, List.map_id']

theorem store_eta (s : Store) :
    ({ s with layer := s.layer, highlight := s.highlight, arrow := s.arrow,
              underline := s.underline } : Store) = s := rfl

/-- C29: for every store state, and whichever pooled connection serves the
call, `RemoveLayer`, `UpdateLayerName`, `UpdateLayerColor`,
`ToggleLayerVisibility` and `ReorderLayers` issued for workspace `W` return no
error and leave the layers of every other workspace as they were, row for row;
and when the id they are given (every id of the list, for `ReorderLayers`) is
the id of no layer of `W`, they return no error and leave the whole store
unchanged. -/
theorem layer_ops_leave_other_workspaces (fk : Bool) (s : Store) (W id name color : String)
    (ids : List String) :
    (∃ s1, RemoveLayer fk s W id = .ok s1 ∧
      s1.layer.filter (fun r => r.workspace_id ≠ W) =
        s.layer.filter (fun r => r.workspace_id ≠ W)) ∧
    (∃ s1, UpdateLayerName s W id name = .ok s1 ∧
      s1.layer.filter (fun r => r.workspace_id ≠ W) =
        s.layer.filter (fun r => r.workspace_id ≠ W)) ∧
    (∃ s1, UpdateLayerColor s W id color = .ok s1 ∧
      s1.layer.filter (fun r => r.workspace_id ≠ W) =
        s.layer.filter (fun r => r.workspace_id ≠ W)) ∧
    (∃ s1, ToggleLayerVisibility s W id = .ok s1 ∧
      s1.layer.filter (fun r => r.workspace_id ≠ W) =
        s.layer.filter (fun r => r.workspace_id ≠ W)) ∧
    (∃ s1, ReorderLayers s W ids = .ok s1 ∧
      s1.layer.filter (fun r => r.workspace_id ≠ W) =
        s.layer.filter (fun r => r.workspace_id ≠ W)) ∧
    ((∀ r ∈ s.layer, r.id = id → r.workspace_id ≠ W) →
      RemoveLayer fk s W id = .ok s ∧ UpdateLayerName s W id name = .ok s ∧
      UpdateLayerColor s W id color = .ok s ∧ ToggleLayerVisibility s W id = .ok s) ∧
    ((∀ r ∈ s.layer, r.id ∈ ids → r.workspace_id ≠ W) → ReorderLayers s W ids = .ok s) := by
  refine ⟨⟨_, rfl, ?_⟩, ⟨_, rfl, ?_⟩, ⟨_, rfl, ?_⟩, ⟨_, rfl, ?_⟩, ⟨_, rfl, ?_⟩, ?_, ?_⟩
  · show (s.layer.filter _).filter _ = _
    rw [List.filter_filter]
    apply List.filter_congr
    intro r _
    by_cases h : r.workspace_id = W <;> simp [h]
  · show (s.layer.map _).filter _ = _
    apply filter_other_map
    · intro r h; rw [if_neg (fun hc => h hc.2)]
    · intro r; split <;> rfl
  · show (s.layer.map _).filter _ = _
    apply filter_other_map
    · intro r h; rw [if_neg (fun hc => h hc.2)]
    · intro r; split <;> rfl
  · show (s.layer.map _).filter _ = _
    apply filter_other_map
    · intro r h; rw [if_neg (fun hc => h hc.2)]
    · intro r; split <;> rfl
  · show (reorderLayersLoop W 0 ids s.layer).filter _ = _
    rw [reorderLayersLoop_rowwise]
    apply filter_other_map
    · intro r h
      show ({ r with position := layerPositionAfter W 0 ids r } : LayerRow) = r
      rw [layerPositionAfter_unmatched W ids 0 r (Or.inl h)]
    · intro r; rfl
  · intro hforeign
    have hno : ∀ r ∈ s.layer, ¬ (r.id = id ∧ r.workspace_id = W) :=
      fun r hr hc => hforeign r hr hc.1 hc.2
    have hmap : ∀ g : LayerRow → LayerRow,
        s.layer.map (fun r => if r.id = id ∧ r.workspace_id = W then g r else r) = s.layer :=
      fun g => map_eq_self_of_fixed _ _ (fun r hr => if_neg (hno r hr))
    refine ⟨?_, ?_, ?_, ?_⟩
    · unfold RemoveLayer
      have hdel : s.layer.filter (fun r => r.id = id ∧ r.workspace_id = W) = [] := by
        rw [List.filter_eq_nil_iff]
        intro r hr
        simpa using hno r hr
      have hkeep : s.layer.filter (fun r => ¬ (r.id = id ∧ r.workspace_id = W)) = s.layer := by
        rw [List.filter_eq_self]
        intro r hr
        exact decide_eq_true (hno r hr)
      cases fk <;>
        simp only [hdel, hkeep, List.map_nil, List.not_mem_nil, not_false_eq_true, decide_True,
          List.filter_true, if_true, Bool.false_eq_true, if_false]
    · unfold UpdateLayerName
      rw [hmap]
    · unfold UpdateLayerColor
      rw [hmap]
    · unfold ToggleLayerVisibility
      rw [hmap]
  · intro hforeign
    unfold ReorderLayers
    rw [reorderLayersLoop_rowwise]
    have : s.layer.map (fun r => ({ r with position := layerPositionAfter W 0 ids r } : LayerRow))
        = s.layer := by
      apply map_eq_self_of_fixed
      intro r hr
      have h : r.workspace_id ≠ W ∨ r.id ∉ ids := by
        by_cases hin : r.id ∈ ids
        · exact Or.inl (hforeign r hr hin)
        · exact Or.inr hin
      rw [layerPositionAfter_unmatched W ids 0 r h]
    rw [this]

theorem layer_ops_leave_other_workspaces_witness :
    (∀ r ∈ storeTwoWorkspaceLayers.layer, r.id = "m1" → r.workspace_id ≠ "ws1") ∧
    (∀ r ∈ storeTwoWorkspaceLayers.layer, r.id ∈ ["m1"] → r.workspace_id ≠ "ws1") ∧
    RemoveLayer true storeTwoWorkspaceLayers "ws1" "m1" = .ok storeTwoWorkspaceLayers ∧
    RemoveLayer false storeTwoWorkspaceLayers "ws1" "m1" = .ok storeTwoWorkspaceLayers ∧
    UpdateLayerName storeTwoWorkspaceLayers "ws1" "m1" "X" = .ok storeTwoWorkspaceLayers ∧
    UpdateLayerColor storeTwoWorkspaceLayers "ws1" "m1" "#000" = .ok storeTwoWorkspaceLayers ∧
    ToggleLayerVisibility storeTwoWorkspaceLayers "ws1" "m1" = .ok storeTwoWorkspaceLayers ∧
    ReorderLayers storeTwoWorkspaceLayers "ws1" ["m1"] = .ok storeTwoWorkspaceLayers :=
  have h := layer_ops_leave_other_workspaces true storeTwoWorkspaceLayers "ws1" "m1" "X" "#000"
    ["m1"]
  have h0 := layer_ops_leave_other_workspaces false storeTwoWorkspaceLayers "ws1" "m1" "X"
    "#000" ["m1"]
  have h1 : ∀ r ∈ storeTwoWorkspaceLayers.layer, r.id = "m1" → r.workspace_id ≠ "ws1" := by
    decide
  have h2 : ∀ r ∈ storeTwoWorkspaceLayers.layer, r.id ∈ ["m1"] → r.workspace_id ≠ "ws1" := by
    decide
  ⟨h1, h2, (h.2.2.2.2.2.1 h1).1, (h0.2.2.2.2.2.1 h1).1, (h.2.2.2.2.2.1 h1).2.1,
   (h.2.2.2.2.2.1 h1).2.2.1,
   (h.2.2.2.2.2.1 h1).2.2.2, h.2.2.2.2.2.2 h2⟩


/-! ## `ReorderEditors` with a permutation and then with its inverse -/

/-- A list `Q` that holds `i` at place `P[i]`, for a permutation `P` of `0..N-1`,
has no duplicate, holds the place in `P` of every entry `k` of `P`, and holds
it at place `k`. -/
theorem inverse_list (N : Nat) (P Q : List Int)
    (hP : P.Perm ((List.range N).map Int.ofNat)) (hQlen : Q.length = N)
    (hQ : ∀ (i : Nat) (hi : i < P.length), Q[(P[i]).toNat]? = some (i : Int)) :
    Q.Nodup ∧ ∀ k ∈ P, ((P.indexOf k : Nat) : Int) ∈ Q ∧
      ((Q.indexOf ((P.indexOf k : Nat) : Int) : Nat) : Int) = k := by
  have hPnd : P.Nodup := (hP.nodup_iff).mpr (nodup_range_int _)
  have hmemP : ∀ k, k ∈ P ↔ ∃ j, j < N ∧ k = (j : Int) := by
    intro k
    rw [hP.mem_iff]
    simp only [List.mem_map, List.mem_range]
    constructor
    · rintro ⟨j, hj, rfl⟩; exact ⟨j, hj, rfl⟩
    · rintro ⟨j, hj, rfl⟩; exact ⟨j, hj, rfl⟩
  have hF : ∀ j, j < N → Q[j]? = some ((P.indexOf (j : Int) : Nat) : Int) := by
    intro j hj
    have hin : (j : Int) ∈ P := (hmemP _).mpr ⟨j, hj, rfl⟩
    have hi : P.indexOf (j : Int) < P.length := List.indexOf_lt_length.mpr hin
    have := hQ (P.indexOf (j : Int)) hi
    rw [List.getElem_indexOf hi] at this
    simpa using this
  have hQeq : Q = (List.range N).map (fun j : Nat => ((P.indexOf (j : Int) : Nat) : Int)) := by
    apply List.ext_getElem?
    intro j
    by_cases hj : j < N
    · rw [hF j hj, List.getElem?_map, List.getElem?_range hj]
      rfl
    · have h1 : Q[j]? = none := List.getElem?_eq_none (by omega)
      have h2 : ((List.range N).map (fun j : Nat => ((P.indexOf (j : Int) : Nat) : Int)))[j]? = none :=
        List.getElem?_eq_none (by simp; omega)
      rw [h1, h2]
  have hQnd : Q.Nodup := by
    rw [hQeq]
    apply List.Nodup.map_on _ (List.nodup_range N)
    intro a ha b hb hab
    have ha1 : (a : Int) ∈ P := (hmemP _).mpr ⟨a, List.mem_range.mp ha, rfl⟩
    have hb1 : (b : Int) ∈ P := (hmemP _).mpr ⟨b, List.mem_range.mp hb, rfl⟩
    have h1 : P.indexOf (a : Int) = P.indexOf (b : Int) := by exact_mod_cast hab
    have := (List.indexOf_inj ha1 hb1).mp h1
    exact_mod_cast this
  refine ⟨hQnd, ?_⟩
  intro k hk
  obtain ⟨j, hj, rfl⟩ := (hmemP k).mp hk
  have hjQ : j < Q.length := by omega
  have hget : Q[j] = ((P.indexOf (j : Int) : Nat) : Int) := by
    have := hF j hj
    rw [List.getElem?_eq_getElem hjQ] at this
    exact Option.some.inj this
  constructor
  · rw [← hget]; exact List.getElem_mem _
  · rw [← hget, List.indexOf_getElem hQnd j hjQ]


/-- Claim C30: with distinct editor ids (primary key), when the `n` editors of
the workspace have the indices `0..n-1`, `P` is a permutation of `0..n-1` and
`Q` is its inverse (`Q` has `n` entries and `Q[P[i]] = i` for every `i`),
`ReorderEditors` with `P` returns no error and keeps the rows of the editor
table with their ids, and `ReorderEditors` with `Q` on the result returns no
error and gives back the store as it was before the two calls: every editor has
its original index, name, visibility and content, and none is lost,
duplicated or merged. -/
theorem reorderEditors_inverse_restores (s : Store) (ws : String) (P Q : List Int)
    (hpk : (s.editor.map (·.id)).Nodup)
    (hcont : (editorIndices s ws).Perm
      ((List.range (editorIndices s ws).length).map Int.ofNat))
    (hP : P.Perm ((List.range (editorIndices s ws).length).map Int.ofNat))
    (hQlen : Q.length = (editorIndices s ws).length)
    (hQ : ∀ (i : Nat) (hi : i < P.length), Q[(P[i]).toNat]? = some (i : Int)) :
    ∃ s1, ReorderEditors s ws P = .ok s1 ∧
      s1.editor.map (·.id) = s.editor.map (·.id) ∧
      ReorderEditors s1 ws Q = .ok s := by
  have hPnd : P.Nodup := (hP.nodup_iff).mpr (nodup_range_int _)
  have hidx : (editorIndices s ws).Nodup := (hcont.nodup_iff).mpr (nodup_range_int _)
  have hPI : P.Perm (editorIndices s ws) := hP.trans hcont.symm
  have hin : ∀ e ∈ s.editor, e.workspace_id = ws → e.index_pos ∈ P := by
    intro e he hw
    exact hPI.symm.subset
      (List.mem_map.mpr ⟨e, List.mem_filter.mpr ⟨he, by simpa using hw⟩, rfl⟩)
  obtain ⟨hQnd, hinv⟩ := inverse_list _ P Q hP hQlen hQ
  have hw1 : ∀ e : EditorRow, ((fun e : EditorRow =>
      if e.workspace_id = ws ∧ e.index_pos ∈ P then
        { e with index_pos := ((P.indexOf e.index_pos : Nat) : Int) }
      else e) e).workspace_id = e.workspace_id := by
    intro e; dsimp only; split <;> rfl
  have hids1 : (s.editor.map (fun e : EditorRow =>
      if e.workspace_id = ws ∧ e.index_pos ∈ P then
        { e with index_pos := ((P.indexOf e.index_pos : Nat) : Int) }
      else e)).map (·.id) = s.editor.map (·.id) := by
    rw [List.map_map]
    apply List.map_congr_left
    intro e _
    simp only [Function.comp]
    split <;> rfl
  have hidx1 : (editorIndices { s with editor := s.editor.map (fun e : EditorRow =>
      if e.workspace_id = ws ∧ e.index_pos ∈ P then
        { e with index_pos := ((P.indexOf e.index_pos : Nat) : Int) }
      else e) } ws).Nodup := by
    unfold editorIndices
    show (((s.editor.map _).filter _).map _).Nodup
    rw [reorderEditors_filter s ws P hin, List.map_map]
    have : (s.editor.filter (fun e => e.workspace_id = ws)).map
        ((fun e : EditorRow => e.index_pos) ∘ (fun e : EditorRow =>
          { e with index_pos := ((P.indexOf e.index_pos : Nat) : Int) })) =
        (editorIndices s ws).map (fun k => ((P.indexOf k : Nat) : Int)) := by
      unfold editorIndices
      rw [List.map_map]
      rfl
    rw [this]
    apply List.Nodup.map_on _ hidx
    intro a ha b hb hab
    have h1 : P.indexOf a = P.indexOf b := by exact_mod_cast hab
    exact (List.indexOf_inj (hPI.symm.subset ha) (hPI.symm.subset hb)).mp h1
  refine ⟨_, reorderEditors_eq s ws P hpk hidx hPnd, hids1, ?_⟩
  rw [reorderEditors_eq _ ws Q (by rw [hids1]; exact hpk) hidx1 hQnd]
  show Except.ok ({ s with editor := (s.editor.map _).map _ } : Store) = Except.ok s
  have hfix : (s.editor.map (fun e : EditorRow =>
      if e.workspace_id = ws ∧ e.index_pos ∈ P then
        { e with index_pos := ((P.indexOf e.index_pos : Nat) : Int) }
      else e)).map (fun e : EditorRow =>
      if e.workspace_id = ws ∧ e.index_pos ∈ Q then
        { e with index_pos := ((Q.indexOf e.index_pos : Nat) : Int) }
      else e) = s.editor := by
    rw [List.map_map]
    apply map_eq_self_of_fixed
    intro e he
    simp only [Function.comp]
    by_cases hw : e.workspace_id = ws
    · have hk := hin e he hw
      obtain ⟨hmem, hback⟩ := hinv e.index_pos hk
      have hf : (if e.workspace_id = ws ∧ e.index_pos ∈ P then
          ({ e with index_pos := ((P.indexOf e.index_pos : Nat) : Int) } : EditorRow)
        else e) = { e with index_pos := ((P.indexOf e.index_pos : Nat) : Int) } :=
        if_pos ⟨hw, hk⟩
      rw [hf]
      simp only [hw, hmem, and_self, if_true, hback]
      cases e
      simp only at hw
      rw [hw]
    · have h1 : ¬ (e.workspace_id = ws ∧ e.index_pos ∈ P) := fun h => hw h.1
      have h2 : ¬ (e.workspace_id = ws ∧ e.index_pos ∈ Q) := fun h => hw h.1
      rw [if_neg h1, if_neg h2]
  rw [hfix]

theorem reorderEditors_inverse_restores_witness :
    (storeThreeEditors.editor.map (·.id)).Nodup ∧
    ∃ s1, ReorderEditors storeThreeEditors "ws1" [2, 0, 1] = .ok s1 ∧
      s1.editor.map (·.id) = storeThreeEditors.editor.map (·.id) ∧
      ReorderEditors s1 "ws1" [1, 2, 0] = .ok storeThreeEditors :=
  ⟨by decide,
   reorderEditors_inverse_restores storeThreeEditors "ws1" [2, 0, 1] [1, 2, 0] (by decide)
     (by decide) (by decide) (by decide) (by decide)⟩


/-! ## The end of a session -/

/-- An iteration of the read loop that does not break leaves the registry as it
is and the session `Active`: no handler of the table panics. -/
theorem readLoopStep_continues (dead : Conn → Bool) (fk : Bool) (ss : Session) (w : Server)
    (r : ReadResult) (h : r ≠ .readError) :
    ∃ db1 events, readLoopStep dead fk ss w r = (⟨db1, w.cm⟩, .Active, events) := by
  cases r with
  | readError => exact absurd rfl h
  | invalidJSON => exact ⟨w.db, [], rfl⟩
  | message msg =>
    cases hk : mapGet actionHandlers msg.Type_ with
    | none =>
      simp only [readLoopStep, hk]
      exact ⟨w.db, _, rfl⟩
    | some handler =>
      rcases runHandler_cases msg.Type_ handler (mem_of_mapGet _ _ _ hk) fk w.db
          ss.workspaceID msg.Payload with
        ⟨text, _, h3⟩ | ⟨call, db1, _, _, h3⟩ | ⟨call, e, _, _, h3⟩
      · simp only [readLoopStep, hk, h3]
        exact ⟨_, _, rfl⟩
      · simp only [readLoopStep, hk, h3]
        exact ⟨_, _, rfl⟩
      · simp only [readLoopStep, hk, h3]
        exact ⟨_, _, rfl⟩

/-- The read loop either uses up reads that hold no read error, with the
registry as it was, or breaks at a read error, and then the deferred
`Disconnect` and `Close` have run and the `Close` is the last event. -/
theorem readLoop_spec (dead : Conn → Bool) (pool : Nat → Bool) (ss : Session) :
    ∀ (reads : List ReadResult) (i : Nat) (w : Server), ∃ db1 events,
      (readLoop dead pool ss i w reads = (⟨db1, w.cm⟩, .Active, events) ∧
        ReadResult.readError ∉ reads) ∨
      (readLoop dead pool ss i w reads =
        (⟨db1, w.cm.Disconnect ss.workspaceID ss.clientID⟩, .Closed,
          events ++ [.close ss.conn]) ∧
        ReadResult.readError ∈ reads) := by
  intro reads
  induction reads with
  | nil => intro i w; exact ⟨w.db, [], Or.inl ⟨rfl, List.not_mem_nil _⟩⟩
  | cons r rest ih =>
    intro i w
    by_cases hr : r = .readError
    · subst hr
      exact ⟨w.db, [], Or.inr ⟨rfl, List.mem_cons_self _ _⟩⟩
    · obtain ⟨db1, ev1, h1⟩ := readLoopStep_continues dead (pool i) ss w r hr
      obtain ⟨db2, ev2, h2⟩ := ih (i + 1) ⟨db1, w.cm⟩
      rcases h2 with ⟨h2, hno⟩ | ⟨h2, hyes⟩
      · refine ⟨db2, ev1 ++ ev2, Or.inl ⟨?_, ?_⟩⟩
        · simp only [readLoop, h1, h2]
        · intro hc
          rcases List.mem_cons.mp hc with h3 | h3
          · exact hr h3.symm
          · exact hno h3
      · refine ⟨db2, ev1 ++ ev2, Or.inr ⟨?_, List.mem_cons_of_mem _ hyes⟩⟩
        simp only [readLoop, h1, h2, List.append_assoc]


theorem connect_connections (cm : ConnectionManager) (W c : String) (conn : Conn) :
    (cm.Connect W conn c).1.connections =
      mapSet cm.connections W (mapSet ((mapGet cm.connections W).getD []) c conn) := rfl

theorem connect_bucket (cm : ConnectionManager) (W c : String) (conn : Conn) :
    mapGet (cm.Connect W conn c).1.connections W =
      some (mapSet ((mapGet cm.connections W).getD []) c conn) := by
  rw [connect_connections, mapGet_mapSet, if_pos rfl]

/-- After `Connect` the client is registered with its connection. -/
theorem connect_lookup (cm : ConnectionManager) (W c : String) (conn : Conn) :
    (cm.Connect W conn c).1.lookup W c = some conn := by
  unfold ConnectionManager.lookup
  rw [connect_bucket]
  show mapGet (mapSet _ c conn) c = some conn
  rw [mapGet_mapSet, if_pos rfl]

/-- After `Disconnect` the client is not registered. -/
theorem disconnect_lookup_self (cm : ConnectionManager) (W c : String) :
    (cm.Disconnect W c).lookup W c = none := by
  rcases disconnect_cases cm W c with ⟨hg, hd⟩ | ⟨clients, hg, he, hd⟩ | ⟨clients, hg, he, hd⟩
  · rw [hd]
    simp [ConnectionManager.lookup, hg]
  · rw [hd]
    simp [ConnectionManager.lookup, mapGet_mapDelete_self]
  · rw [hd]
    unfold ConnectionManager.lookup
    rw [mapGet_mapSet, if_pos rfl]
    exact mapGet_mapDelete_self clients c

/-- The bucket of the workspace once the client that `Connect` registered is
deleted from it holds the clients that were there under another id. -/
theorem mem_bucket_after (cm : ConnectionManager) (W c : String) (conn : Conn)
    (p : String × Conn)
    (hp : p ∈ mapDelete (mapSet ((mapGet cm.connections W).getD []) c conn) c) :
    p ∈ (mapGet cm.connections W).getD [] ∧ p.1 ≠ c := by
  have h1 := List.mem_filter.mp hp
  have hne : p.1 ≠ c := by simpa using h1.2
  rcases mem_mapSet _ c conn p h1.1 with h2 | h2
  · exact ⟨h2, hne⟩
  · exact absurd (by rw [h2]) hne

theorem mapGet_bucket_after (cm : ConnectionManager) (W c c1 : String) (conn : Conn)
    (hne : c1 ≠ c) :
    mapGet (mapDelete (mapSet ((mapGet cm.connections W).getD []) c conn) c) c1 =
      cm.lookup W c1 := by
  rw [mapGet_mapDelete_ne _ c c1 hne, mapGet_mapSet, if_neg (fun h => hne h.symm)]
  unfold ConnectionManager.lookup
  cases mapGet cm.connections W with
  | none => rfl
  | some clients => rfl

/-- `Connect` followed by `Disconnect` of the same client leaves every other
registration as it was. -/
theorem connect_disconnect_other (cm : ConnectionManager) (W c : String) (conn : Conn)
    (w1 c1 : String) (hne : (w1, c1) ≠ (W, c)) :
    ((cm.Connect W conn c).1.Disconnect W c).lookup w1 c1 = cm.lookup w1 c1 := by
  rcases disconnect_cases (cm.Connect W conn c).1 W c with
    ⟨hg, _⟩ | ⟨clients, hg, he, hd⟩ | ⟨clients, hg, he, hd⟩
  · rw [connect_bucket] at hg
    cases hg
  · rw [connect_bucket] at hg
    have hcl : clients = mapSet ((mapGet cm.connections W).getD []) c conn :=
      (Option.some.inj hg).symm
    rw [hd]
    unfold ConnectionManager.lookup
    by_cases hw : w1 = W
    · subst hw
      have hc1 : c1 ≠ c := fun h => hne (by rw [h])
      have h1 := mapGet_bucket_after cm w1 c c1 conn hc1
      rw [← hcl, he] at h1
      rw [mapGet_mapDelete_self]
      exact h1
    · show (mapGet (mapDelete (cm.Connect W conn c).1.connections W) w1).bind _ = _
      rw [mapGet_mapDelete_ne _ W w1 hw, connect_connections, mapGet_mapSet,
        if_neg (fun h => hw h.symm)]
  · rw [connect_bucket] at hg
    have hcl : clients = mapSet ((mapGet cm.connections W).getD []) c conn :=
      (Option.some.inj hg).symm
    rw [hd]
    unfold ConnectionManager.lookup
    by_cases hw : w1 = W
    · subst hw
      have hc1 : c1 ≠ c := fun h => hne (by rw [h])
      show (mapGet (mapSet _ w1 (mapDelete clients c)) w1).bind _ = _
      rw [mapGet_mapSet, if_pos rfl, hcl]
      exact mapGet_bucket_after cm w1 c c1 conn hc1
    · show (mapGet (mapSet (cm.Connect W conn c).1.connections W _) w1).bind _ = _
      rw [mapGet_mapSet, if_neg (fun h => hw h.symm), connect_connections, mapGet_mapSet,
        if_neg (fun h => hw h.symm)]

/-- `Connect` followed by `Disconnect` of the same client removes the bucket of
the workspace when no other client is registered under it. -/
theorem connect_disconnect_last (cm : ConnectionManager) (W c : String) (conn : Conn)
    (hlast : ∀ c1, c1 ≠ c → cm.lookup W c1 = none) :
    mapGet ((cm.Connect W conn c).1.Disconnect W c).connections W = none := by
  have hempty : mapDelete (mapSet ((mapGet cm.connections W).getD []) c conn) c = [] := by
    apply List.eq_nil_iff_forall_not_mem.mpr
    intro p hp
    obtain ⟨hin, hne⟩ := mem_bucket_after cm W c conn p hp
    have h1 := hlast p.1 hne
    have h2 : mapGet ((mapGet cm.connections W).getD []) p.1 = none := by
      unfold ConnectionManager.lookup at h1
      cases hg : mapGet cm.connections W with
      | none => rfl
      | some clients => rw [hg] at h1; exact h1
    exact (mapGet_eq_none_iff _ _).mp h2 (List.mem_map.mpr ⟨p, hin, rfl⟩)
  unfold ConnectionManager.Disconnect
  rw [connect_bucket]
  simp only [hempty, List.length_nil, if_true]
  exact mapGet_mapDelete_self _ W

/-- After `Connect` and `Disconnect` of a client on a connection that no other
client is registered with, no bucket holds that connection. -/
theorem connect_disconnect_bucket (cm : ConnectionManager) (W c : String) (conn : Conn)
    (hfresh : ∀ e ∈ cm.entries, e.2.2 ≠ conn) (W1 : String) (p : String × Conn)
    (hp : p ∈ (mapGet ((cm.Connect W conn c).1.Disconnect W c).connections W1).getD []) :
    p.2 ≠ conn := by
  have hold : ∀ q : String × Conn, q ∈ (mapGet cm.connections W1).getD [] → q.2 ≠ conn :=
    fun q hq => hfresh (W1, q.1, q.2) (bucket_mem_entries cm W1 q.1 q.2 hq)
  by_cases hw : W1 = W
  · subst hw
    rcases disconnect_cases (cm.Connect W1 conn c).1 W1 c with
      ⟨hg, _⟩ | ⟨clients, hg, he, hd⟩ | ⟨clients, hg, he, hd⟩
    · rw [connect_bucket] at hg
      cases hg
    · rw [hd] at hp
      rw [show mapGet (mapDelete (cm.Connect W1 conn c).1.connections W1) W1 = none from
        mapGet_mapDelete_self _ W1] at hp
      simp at hp
    · rw [connect_bucket] at hg
      have hcl : clients = mapSet ((mapGet cm.connections W1).getD []) c conn :=
        (Option.some.inj hg).symm
      rw [hd] at hp
      rw [show mapGet (mapSet (cm.Connect W1 conn c).1.connections W1 (mapDelete clients c)) W1
        = some (mapDelete clients c) from by rw [mapGet_mapSet, if_pos rfl]] at hp
      rw [hcl] at hp
      exact hold p (mem_bucket_after cm W1 c conn p hp).1
  · have hsame : mapGet ((cm.Connect W conn c).1.Disconnect W c).connections W1 =
        mapGet cm.connections W1 := by
      rcases disconnect_cases (cm.Connect W conn c).1 W c with
        ⟨_, hd⟩ | ⟨clients, _, _, hd⟩ | ⟨clients, _, _, hd⟩
      · rw [hd, connect_connections, mapGet_mapSet, if_neg (fun h => hw h.symm)]
      · rw [hd]
        show mapGet (mapDelete (cm.Connect W conn c).1.connections W) W1 = _
        rw [mapGet_mapDelete_ne _ W W1 hw, connect_connections, mapGet_mapSet,
          if_neg (fun h => hw h.symm)]
      · rw [hd]
        show mapGet (mapSet (cm.Connect W conn c).1.connections W _) W1 = _
        rw [mapGet_mapSet, if_neg (fun h => hw h.symm), connect_connections, mapGet_mapSet,
          if_neg (fun h => hw h.symm)]
    rw [hsame] at hp
    exact hold p hp

/-- A `Broadcast` on a registry none of whose buckets holds a connection makes
no write on that connection. -/
theorem broadcast_no_write (cm : ConnectionManager) (dead : Conn → Bool) (conn : Conn)
    (W1 X : String) (msg : ServerMessage)
    (hno : ∀ p ∈ (mapGet cm.connections W1).getD [], p.2 ≠ conn) :
    writesTo conn (cm.Broadcast dead W1 msg X) = 0 := by
  rw [broadcast_eq, writesTo_map_write, List.count_eq_zero]
  intro hc
  obtain ⟨p, hp, hk⟩ := List.mem_map.mp hc
  exact hno p (List.mem_filter.mp hp).1 hk


/-- The `state` message to the client that `Connect` has just registered is
written on its connection, and fails when the write fails. -/
theorem connect_sendTo (cm : ConnectionManager) (dead : Conn → Bool) (W c : String)
    (conn : Conn) (msg : ServerMessage) :
    (cm.Connect W conn c).1.SendTo dead W c msg =
      (if dead conn then some (.transport "write failed") else none,
        [.write conn msg.encode]) := by
  have h := connect_lookup cm W c conn
  unfold ConnectionManager.lookup at h
  unfold ConnectionManager.SendTo
  rw [h]
  rfl

/-- `SendTo` to a client that is not registered fails and writes nothing. -/
theorem sendTo_not_registered (cm : ConnectionManager) (dead : Conn → Bool) (W c : String)
    (msg : ServerMessage) (h : cm.lookup W c = none) :
    cm.SendTo dead W c msg = (some (.errorf ("client " ++ c ++ " not found")), []) := by
  unfold ConnectionManager.lookup at h
  unfold ConnectionManager.SendTo
  rw [h]

/-- The two ways `HandleWebSocket` can stand after the reads given: still in the
read loop, `Active`, after a `Syncing` phase without failure and reads without
a read error; or returned, with the deferred `Disconnect` and `Close` run. -/
theorem handleWebSocket_cases (faultsE faultsG : Faults) (dead : Conn → Bool)
    (pool : Nat → Bool) (w : Server) (W : String) (conn : Conn) (c : String)
    (reads : List ReadResult) :
    ∃ db1 events,
      (HandleWebSocket faultsE faultsG dead pool w W conn c reads =
          (⟨db1, (w.cm.Connect W conn c).1⟩, .Active, events) ∧
        (∃ db0, (EnsureWorkspaceF faultsE w.db W).result = .ok db0 ∧
          ∃ st, (GetWorkspaceStateF faultsG db0 W).result = .ok st) ∧
        dead conn = false ∧ ReadResult.readError ∉ reads) ∨
      HandleWebSocket faultsE faultsG dead pool w W conn c reads =
        (⟨db1, (w.cm.Connect W conn c).1.Disconnect W c⟩, .Closed,
          events ++ [.close conn]) := by
  unfold HandleWebSocket
  cases hE : (EnsureWorkspaceF faultsE w.db W).result with
  | error e => exact ⟨w.db, [], Or.inr rfl⟩
  | ok db0 =>
    dsimp only
    cases hG : (GetWorkspaceStateF faultsG db0 W).result with
    | error e => exact ⟨db0, [], Or.inr rfl⟩
    | ok st =>
      simp only [structToMap, connect_sendTo]
      cases hd : dead conn with
      | true => exact ⟨db0, _, Or.inr rfl⟩
      | false =>
        simp only [Bool.false_eq_true, if_false]
        obtain ⟨db1, ev, h⟩ := readLoop_spec dead pool ⟨W, c, conn⟩ reads 0
          ⟨db0, (w.cm.Connect W conn c).1⟩
        rcases h with ⟨h1, hno⟩ | ⟨h1, _⟩
        · rw [h1]
          exact ⟨db1, _, Or.inl ⟨rfl, ⟨db0, rfl, st, hG⟩, trivial, hno⟩⟩
        · rw [h1]
          refine ⟨db1, [Event.write conn (ServerMessage.encode
            { Type_ := "state",
              Payload := [("workspaceId", JVal.str st.WorkspaceID),
                ("layers", JVal.arr (st.Layers.map Layer.toJSON)),
                ("editors", JVal.arr (st.Editors.map Editor.toJSON))] })] ++ ev, Or.inr ?_⟩
          dsimp only
          rw [List.append_assoc]

/-- C26: a session that `Connect` has registered, whichever pooled connections
serve its store calls, returns, and stands `Closed`, when `EnsureWorkspace`
fails, when `GetWorkspaceState` fails, when
the write of the `state` message fails, and when a read fails (a close by the
peer is a read error).  Whenever it stands `Closed`: its client id is not
registered, every other registration is as it was before the session, the
`Close` of its connection is the last event of the session, a `SendTo` to its
client id fails with `not found` and writes nothing, no `Broadcast` writes on
its connection (when no other client was registered with that connection),
and the registry has no bucket for its workspace when no other client was
registered under it. -/
theorem session_end_unregisters (faultsE faultsG : Faults) (dead : Conn → Bool)
    (pool : Nat → Bool) (w : Server) (W : String) (conn : Conn) (c : String)
    (reads : List ReadResult) :
    ((∀ e, (EnsureWorkspaceF faultsE w.db W).result = .error e →
        (HandleWebSocket faultsE faultsG dead pool w W conn c reads).2.1 = .Closed) ∧
      (∀ db1 e, (EnsureWorkspaceF faultsE w.db W).result = .ok db1 →
        (GetWorkspaceStateF faultsG db1 W).result = .error e →
        (HandleWebSocket faultsE faultsG dead pool w W conn c reads).2.1 = .Closed) ∧
      (dead conn = true →
        (HandleWebSocket faultsE faultsG dead pool w W conn c reads).2.1 = .Closed) ∧
      (ReadResult.readError ∈ reads →
        (HandleWebSocket faultsE faultsG dead pool w W conn c reads).2.1 = .Closed)) ∧
    ((HandleWebSocket faultsE faultsG dead pool w W conn c reads).2.1 = .Closed →
      (HandleWebSocket faultsE faultsG dead pool w W conn c reads).1.cm.lookup W c = none ∧
      (∀ w1 c1, (w1, c1) ≠ (W, c) →
        (HandleWebSocket faultsE faultsG dead pool w W conn c reads).1.cm.lookup w1 c1 =
          w.cm.lookup w1 c1) ∧
      (∃ events, (HandleWebSocket faultsE faultsG dead pool w W conn c reads).2.2 =
        events ++ [.close conn]) ∧
      (∀ msg, (HandleWebSocket faultsE faultsG dead pool w W conn c reads).1.cm.SendTo dead W c msg =
        (some (.errorf ("client " ++ c ++ " not found")), [])) ∧
      ((∀ e ∈ w.cm.entries, e.2.2 ≠ conn) → ∀ W1 msg X,
        writesTo conn
          ((HandleWebSocket faultsE faultsG dead pool w W conn c reads).1.cm.Broadcast dead W1 msg X)
          = 0) ∧
      ((∀ c1, c1 ≠ c → w.cm.lookup W c1 = none) →
        mapGet (HandleWebSocket faultsE faultsG dead pool w W conn c reads).1.cm.connections W
          = none)) := by
  obtain ⟨db1, events, h⟩ := handleWebSocket_cases faultsE faultsG dead pool w W conn c reads
  rcases h with ⟨h, ⟨db0, hE, st, hG⟩, hd, hno⟩ | h
  · rw [h]
    refine ⟨⟨?_, ?_, ?_, ?_⟩, ?_⟩
    · intro e he
      rw [hE] at he
      cases he
    · intro db2 e he hg
      rw [hE] at he
      cases he
      rw [hG] at hg
      cases hg
    · intro hdead
      rw [hd] at hdead
      cases hdead
    · intro hr
      exact absurd hr hno
    · intro hc
      cases hc
  · rw [h]
    refine ⟨⟨fun _ _ => rfl, fun _ _ _ _ => rfl, fun _ => rfl, fun _ => rfl⟩, ?_⟩
    intro _
    refine ⟨disconnect_lookup_self _ W c, ?_, ⟨events, rfl⟩, ?_, ?_, ?_⟩
    · intro w1 c1 hne
      exact connect_disconnect_other w.cm W c conn w1 c1 hne
    · intro msg
      exact sendTo_not_registered _ dead W c msg (disconnect_lookup_self _ W c)
    · intro hfresh W1 msg X
      exact broadcast_no_write _ dead conn W1 X msg
        (fun p hp => connect_disconnect_bucket w.cm W c conn hfresh W1 p hp)
    · intro hlast
      exact connect_disconnect_last w.cm W c conn hlast


theorem session_end_unregisters_witness :
    (EnsureWorkspaceF firstStepFails serverTwoWorkspaces.db "ws3").result =
      .error (.db (.driver "disk I/O error")) ∧
    (HandleWebSocket firstStepFails noFaults (fun _ => false) (fun _ => true)
      serverTwoWorkspaces
      "ws3" 5 "e" []).2.1 = .Closed ∧
    (HandleWebSocket firstStepFails noFaults (fun _ => false) (fun _ => true)
      serverTwoWorkspaces
      "ws3" 5 "e" []).1.cm.lookup "ws3" "e" = none ∧
    mapGet (HandleWebSocket firstStepFails noFaults (fun _ => false) (fun _ => true)
      serverTwoWorkspaces
      "ws3" 5 "e" []).1.cm.connections "ws3" = none ∧
    (HandleWebSocket noFaults noFaults (fun _ => false) (fun _ => true)
      serverTwoWorkspaces
      "ws1" 5 "e" [.message addLayerMessage, .readError]).2.1 = .Closed ∧
    (HandleWebSocket noFaults noFaults (fun _ => false) (fun _ => true)
      serverTwoWorkspaces
      "ws1" 5 "e" [.message addLayerMessage, .readError]).1.cm.lookup "ws1" "e" = none ∧
    (HandleWebSocket noFaults noFaults (fun _ => false) (fun _ => true)
      serverTwoWorkspaces
      "ws1" 5 "e" [.message addLayerMessage, .readError]).1.cm.lookup "ws1" "a" = some 1 :=
  have h := session_end_unregisters firstStepFails noFaults (fun _ => false) (fun _ => true)
    serverTwoWorkspaces "ws3" 5 "e" []
  have hc := h.1.1 _ rfl
  have g := session_end_unregisters noFaults noFaults (fun _ => false) (fun _ => true)
    serverTwoWorkspaces "ws1" 5 "e" [.message addLayerMessage, .readError]
  have gc := g.1.2.2.2 (List.mem_cons_of_mem _ (List.mem_cons_self _ _))
  ⟨rfl, hc, (h.2 hc).1, (h.2 hc).2.2.2.2.2 (fun _ _ => rfl), gc, (g.2 gc).1,
   ((g.2 gc).2.1 "ws1" "a" (by decide)).trans rfl⟩

end Referencer
